import Mathlib

/-!
# Agentic Twins ShipFleet: route cache, mover registry and scenario controller

A shallow embedding of `src/script.js`.  The page-wide mutable variables
(`currentNodes`, `ROUTES`, `ROUTE_MAP`, `SHIPS`, `DISRUPTED`) and the chat log
written by `pushMsg` are the fields of one record `World`; every function of the
script that touches them becomes a function `World → World` (or one returning a
value and the new world).

External collaborators are parameters:
* `greatCircle` stands for `turf.greatCircle(..., npoints 160)` and returns the
  coordinate list of the curve;
* `rand` stands for `Math.random`: `rand i` is the value returned by the `i`-th
  call, and `World.randCalls` counts the calls made so far;
* the on-screen length of a path segment (`map.project` and `Math.hypot`) and the
  zoom level are arguments of `advanceShip`;
* `toLowerCase` stands for `String.prototype.toLowerCase` in `handleCommand`.

JavaScript numbers are taken as exact rationals.  A plain object used as a
dictionary (`NODES`, `currentNodes`) is the list of its own properties in
`Object.keys` order.  The reads `currentNodes[A]` of `getArcCoords`, whose arguments
can be any strings, go through the prototype chain (`objRead`); the other reads are
made with the keys of the object itself or with codes that name no member of
`Object.prototype`, and are reads of own properties (`objGet`).  A call that an
uncaught exception ends has the outcome `threw`, with the state it leaves behind.
A `Map` is the list of its entries in insertion order.  The commands are taken to arrive after the `load`
handler of the map has run, so `boot` is the first state.
Rendering (`ensureRouteLayers`, `renderStats`, `drawShips`, camera fitting) and
speech write nothing that the script reads back and are left out.
-/

namespace ShipFleet

/-! ## Data model -/

/-- A port of the catalog: `{ name, lon, lat }`. -/
structure Node where
  name : String
  lon : ℚ
  lat : ℚ
deriving DecidableEq

/-- A coordinate pair `[lon, lat]`. -/
abbrev Coord := ℚ × ℚ

/-- A plain object keyed by port code, as the list of its own properties. -/
abbrev NodeSet := List (String × Node)

/-- The `Map` from directed route key to coordinate sequence. -/
abbrev RouteMap := List (String × List Coord)

/-- A GeoJSON line feature of `ROUTES`: `properties.id`, `A`, `B` and the coordinates. -/
structure Feature where
  id : String
  A : String
  B : String
  coordinates : List Coord
deriving DecidableEq

/-- The ship record `{id, A, B, path, seg, t, speed, paused, affected}`. -/
structure Ship where
  id : String
  A : String
  B : String
  path : List Coord
  seg : Nat
  t : ℚ
  speed : ℚ
  paused : Bool
  affected : Bool
deriving DecidableEq

/-- One chat line appended by `pushMsg(t, kind)`. -/
structure Msg where
  text : String
  kind : String
deriving DecidableEq

/-- The mutable state of the page. `alert` and `fix` hold the features last handed to
the map sources of the same names. -/
structure World where
  currentNodes : NodeSet
  ROUTES : List Feature
  ROUTE_MAP : RouteMap
  SHIPS : List Ship
  DISRUPTED : Bool
  alert : List (String × List Coord)
  fix : List (String × List Coord)
  msgs : List Msg
  randCalls : Nat
deriving DecidableEq

/-! ## Catalogs -/

/-- The initially active ports (`const NODES`). -/
def NODES : NodeSet :=
  [ ("SG", ⟨"Port of Singapore", 103.8198, 1.3521⟩),
    ("TH", ⟨"Laem Chabang (Thailand)", 100.8810, 13.0890⟩),
    ("VN", ⟨"Hai Phong (Vietnam)", 106.6830, 20.8440⟩),
    ("ID", ⟨"Tanjung Priok (Indonesia)", 106.8850, -6.1040⟩),
    ("JP", ⟨"Port of Tokyo (Japan)", 139.7800, 35.6300⟩) ]

/-- The add-on ports (`const NEW_PORTS`). -/
def NEW_PORTS : NodeSet :=
  [ ("PH", ⟨"Manila (Philippines)", 120.9842, 14.5995⟩),
    ("HK", ⟨"Hong Kong", 114.1694, 22.3193⟩) ]

/-- The disrupted pair (`const DISRUPT_PAIR`). -/
def DISRUPT_PAIR : String × String := ("SG", "TH")

/-- The alternate legs (`const REROUTE_PATH`). -/
def REROUTE_PATH : List (String × String) := [("SG", "VN"), ("VN", "TH")]

/-! ## Dictionaries -/

/-- Read of the own property `k` of a dictionary object: `none` when there is none. -/
def objGet {β : Type} : List (String × β) → String → Option β
  | [], _ => none
  | (k', v) :: rest, k => if k' = k then some v else objGet rest k

/-- The names of the members every plain object inherits from `Object.prototype`. -/
def prototypeNames : List String :=
  ["constructor", "hasOwnProperty", "isPrototypeOf", "propertyIsEnumerable",
    "toLocaleString", "toString", "valueOf", "__proto__", "__defineGetter__",
    "__defineSetter__", "__lookupGetter__", "__lookupSetter__"]

/-- The value of a read `obj[k]` on a plain object of nodes: the node stored under
the own property `k`, a member of `Object.prototype` (a function, or the prototype
itself: truthy, with no `lon` and no `lat`), or `undefined`. -/
inductive Read where
  | node (n : Node)
  | inherited
  | undefined
deriving DecidableEq

/-- Property read `obj[k]` through the prototype chain. -/
def objRead (obj : NodeSet) (k : String) : Read :=
  match objGet obj k with
  | some n => .node n
  | none => if k ∈ prototypeNames then .inherited else .undefined

/-- `Object.keys(obj)`. -/
def objKeys {β : Type} (obj : List (String × β)) : List String :=
  obj.map Prod.fst

/-- `Map.prototype.get`: `none` is `undefined`. -/
def mapGet {β : Type} (m : List (String × β)) (k : String) : Option β :=
  objGet m k

/-- `Map.prototype.set`, also the object spread with one computed key: an existing key
keeps its place and takes the new value, a new key goes to the end. -/
def mapSet {β : Type} : List (String × β) → String → β → List (String × β)
  | [], k, v => [(k, v)]
  | (k', v') :: rest, k, v =>
      if k' = k then (k', v) :: rest else (k', v') :: mapSet rest k v

/-- The template string of a directed route key: the two codes joined by a hyphen. -/
def routeKey (A B : String) : String :=
  A ++ "-" ++ B

/-! ## Utilities -/

/-- `allPairs(keys)`: the pairs `[keys[i], keys[j]]` with `i < j`, in loop order. -/
def allPairs : List String → List (String × String)
  | [] => []
  | a :: rest => rest.map (fun b => (a, b)) ++ allPairs rest

/-- `pushMsg(t, kind)`: appends one line to the chat log. Every call made by the
scenario functions leaves `kind` at its default, `"system"`. -/
def pushMsg (t : String) (kind : String) (w : World) : World :=
  { w with msgs := w.msgs ++ [⟨t, kind⟩] }

/-! ## Route cache -/

/-- The two `ROUTE_MAP.set` calls that store a curve under `A-B` and its reversed copy
under `B-A`. -/
def storeBoth (m : RouteMap) (A B : String) (coords : List Coord) : RouteMap :=
  mapSet (mapSet m (routeKey A B) coords) (routeKey B A) coords.reverse

/-- One iteration of the loop of `rebuildRoutes`. The keys come from
`Object.keys(nodeSet)`, so both reads succeed; the last branch is never taken. -/
def rebuildRoutesStep (greatCircle : Node → Node → List Coord) (nodeSet : NodeSet)
    (w : World) (p : String × String) : World :=
  match objGet nodeSet p.1, objGet nodeSet p.2 with
  | some a, some b =>
      let coords := greatCircle a b
      { w with
        ROUTES := w.ROUTES ++ [⟨routeKey p.1 p.2, p.1, p.2, coords⟩]
        ROUTE_MAP := storeBoth w.ROUTE_MAP p.1 p.2 coords }
  | _, _ => w

/-- `rebuildRoutes(nodeSet)`. -/
def rebuildRoutes (greatCircle : Node → Node → List Coord) (nodeSet : NodeSet)
    (w : World) : World :=
  (allPairs (objKeys nodeSet)).foldl (rebuildRoutesStep greatCircle nodeSet)
    { w with ROUTES := [], ROUTE_MAP := [] }

/-- How a call ends: it returns `value` and leaves the page in state `world`, or an
exception that the script does not catch ends it (and the handler that made the call)
with the page in state `world`. -/
inductive Outcome (α : Type) where
  | ok (value : α) (world : World)
  | threw (world : World)
deriving DecidableEq

/-- The state of the page when the call has ended, either way. -/
def Outcome.world {α : Type} : Outcome α → World
  | .ok _ w => w
  | .threw w => w

/-- `getArcCoords(A, B)`. An array is always truthy, so any cached entry is returned
as it is. On a miss the two codes are read through the prototype chain: when one of
them is `undefined` the result is `[]`; when both are nodes the curve is computed and
stored in both directions. What is left is a member of `Object.prototype` on one side
(and a node or another member on the other): it passes the guard `!a || !b`, and
`greatCircle` hands its `lon` and `lat`, both `undefined`, to `turf.greatCircle`, which
throws on coordinates that are not numbers. Nothing has been written by then. -/
def getArcCoords (greatCircle : Node → Node → List Coord) (A B : String)
    (w : World) : Outcome (List Coord) :=
  match mapGet w.ROUTE_MAP (routeKey A B) with
  | some cached => .ok cached w
  | none =>
      match objRead w.currentNodes A, objRead w.currentNodes B with
      | .undefined, _ => .ok [] w
      | _, .undefined => .ok [] w
      | .node a, .node b =>
          let coords := greatCircle a b
          .ok coords { w with ROUTE_MAP := storeBoth w.ROUTE_MAP A B coords }
      | _, _ => .threw w

/-- The loop of `rebuildRoutesFromPairs`: a pair whose curve has fewer than two points
adds no feature, and an exception in `getArcCoords` ends the loop. -/
def rebuildRoutesFromPairsLoop (greatCircle : Node → Node → List Coord) :
    List (String × String) → World → Outcome Unit
  | [], w => .ok () w
  | p :: rest, w =>
      match getArcCoords greatCircle p.1 p.2 w with
      | .threw w1 => .threw w1
      | .ok coords w1 =>
          if coords.length < 2 then rebuildRoutesFromPairsLoop greatCircle rest w1
          else
            rebuildRoutesFromPairsLoop greatCircle rest
              { w1 with ROUTES := w1.ROUTES ++ [⟨routeKey p.1 p.2, p.1, p.2, coords⟩] }

/-- `rebuildRoutesFromPairs(pairs)`. -/
def rebuildRoutesFromPairs (greatCircle : Node → Node → List Coord)
    (pairs : List (String × String)) (w : World) : Outcome Unit :=
  rebuildRoutesFromPairsLoop greatCircle pairs { w with ROUTES := [], ROUTE_MAP := [] }

/-! ## Highlight layers -/

/-- The key with its two codes swapped: `id.split("-").reverse().join("-")`. -/
def reverseKey (id : String) : String :=
  "-".intercalate (id.splitOn "-").reverse

/-- The features built by `setAlert` and `setFix`: for each id the cached coordinates,
those of the reversed key when the id itself is not cached, or no coordinates. -/
def highlightFeatures (m : RouteMap) (ids : List String) : List (String × List Coord) :=
  ids.map (fun id => (id, ((mapGet m id).orElse (fun _ => mapGet m (reverseKey id))).getD []))

/-- `setAlert(ids)`. -/
def setAlert (ids : List String) (w : World) : World :=
  { w with alert := highlightFeatures w.ROUTE_MAP ids }

/-- `clearAlert()`. -/
def clearAlert (w : World) : World :=
  { w with alert := [] }

/-- `setFix(ids)`. -/
def setFix (ids : List String) (w : World) : World :=
  { w with fix := highlightFeatures w.ROUTE_MAP ids }

/-- `clearFix()`. -/
def clearFix (w : World) : World :=
  { w with fix := [] }

/-! ## Mover registry -/

/-- `spawnShip(id, A, B)`: nothing is pushed when the curve has fewer than two points;
otherwise `Math.random` is called twice, first for `t`, then for `speed`. An exception
in `getArcCoords` passes through. -/
def spawnShip (greatCircle : Node → Node → List Coord) (rand : Nat → ℚ)
    (id A B : String) (w : World) : Outcome Unit :=
  match getArcCoords greatCircle A B w with
  | .threw w1 => .threw w1
  | .ok coords w1 =>
      if coords.length < 2 then .ok () w1
      else
        .ok ()
          { w1 with
            SHIPS := w1.SHIPS ++
              [{ id := id, A := A, B := B, path := coords, seg := 0,
                 t := rand w1.randCalls * 0.6,
                 speed := 0.62 + rand (w1.randCalls + 1) * 0.35,
                 paused := false, affected := false }]
            randCalls := w1.randCalls + 2 }

/-- The loop of `buildShipsForNodes` and `buildShipsForPairs`, with the counter `idx`:
two `spawnShip` calls for each pair, one in each direction. An exception ends the
loop. -/
def spawnPairs (greatCircle : Node → Node → List Coord) (rand : Nat → ℚ) :
    List (String × String) → Nat → World → Outcome Unit
  | [], _, w => .ok () w
  | p :: rest, idx, w =>
      match spawnShip greatCircle rand ("V" ++ toString idx) p.1 p.2 w with
      | .threw w1 => .threw w1
      | .ok _ w1 =>
          match spawnShip greatCircle rand ("V" ++ toString (idx + 1)) p.2 p.1 w1 with
          | .threw w2 => .threw w2
          | .ok _ w2 => spawnPairs greatCircle rand rest (idx + 2) w2

/-- `buildShipsForPairs(pairs)`. -/
def buildShipsForPairs (greatCircle : Node → Node → List Coord) (rand : Nat → ℚ)
    (pairs : List (String × String)) (w : World) : Outcome Unit :=
  spawnPairs greatCircle rand pairs 1 { w with SHIPS := [] }

/-- `buildShipsForNodes(nodeSet)`. Only the keys of `nodeSet` are used: `spawnShip`
looks the codes up in the route cache and in `currentNodes`. -/
def buildShipsForNodes (greatCircle : Node → Node → List Coord) (rand : Nat → ℚ)
    (nodeSet : NodeSet) (w : World) : Outcome Unit :=
  spawnPairs greatCircle rand (allPairs (objKeys nodeSet)) 1 { w with SHIPS := [] }

/-- The `while (V.t >= 1)` loop of `advanceShip` on `(seg, t)`, with a bound on the
number of iterations; the third component tells whether the wrap branch (the one
calling `Math.random`) was taken. `wrapT` is the progress assigned on wrapping. -/
def advanceLoop (pathLength : Nat) (wrapT : ℚ) : Nat → Nat → ℚ → Nat × ℚ × Bool
  | 0, seg, t => (seg, t, false)
  | fuel + 1, seg, t =>
      if 1 ≤ t then
        if (pathLength : Int) - 1 ≤ ((seg + 1 : Nat) : Int) then (0, wrapT, true)
        else advanceLoop pathLength wrapT fuel (seg + 1) (t - 1)
      else (seg, t, false)

/-- `advanceShip(V, dt)` at zoom level `zoom`, where `pxLen a b` is the on-screen
distance `Math.hypot` of the projections of `a` and `b`. `calls` counts the calls of
`Math.random` so far. The result is `none` when `V.path[V.seg]` is `undefined` and
reading its first component throws. Each iteration of the loop lowers `t` by one, so
`⌊t⌋ + 1` iterations are enough. -/
def advanceShip (rand : Nat → ℚ) (dt zoom : ℚ) (pxLen : Coord → Coord → ℚ)
    (V : Ship) (calls : Nat) : Option (Ship × Nat) :=
  if V.paused then some (V, calls)
  else
    match V.path[V.seg]? with
    | none => none
    | some a =>
        let pxPerSec := 70 * V.speed * (0.95 + (zoom - 4) * 0.18)
        let b := (V.path[V.seg + 1]?).getD a
        let segLen := max 1 (pxLen a b)
        let step := max (pxPerSec * dt / segLen) 0.005
        let t1 := V.t + step
        let r := advanceLoop V.path.length (rand calls * 0.2) (⌊t1⌋.toNat + 1) V.seg t1
        some ({ V with seg := r.1, t := r.2.1 }, if r.2.2 then calls + 1 else calls)

/-- The loop `for (const V of SHIPS) advanceShip(V, dt)` of `tick`: an exception
abandons the frame and leaves the remaining ships as they are. -/
def tickLoop (rand : Nat → ℚ) (dt zoom : ℚ) (pxLen : Coord → Coord → ℚ) :
    List Ship → Nat → List Ship × Nat
  | [], calls => ([], calls)
  | V :: rest, calls =>
      match advanceShip rand dt zoom pxLen V calls with
      | none => (V :: rest, calls)
      | some r =>
          let r' := tickLoop rand dt zoom pxLen rest r.2
          (r.1 :: r'.1, r'.2)

/-- One animation frame (`tick`), `elapsed` seconds after the previous one. -/
def tick (rand : Nat → ℚ) (elapsed zoom : ℚ) (pxLen : Coord → Coord → ℚ)
    (w : World) : World :=
  let r := tickLoop rand (min 0.05 elapsed) zoom pxLen w.SHIPS w.randCalls
  { w with SHIPS := r.1, randCalls := r.2 }

/-! ## Scenarios -/

/-- The comparison `x < y` of two strings: lexicographic on UTF-16 code units. -/
def utf16Units (s : String) : List Nat :=
  s.data.flatMap (fun c =>
    if c.toNat < 0x10000 then [c.toNat]
    else [0xD800 + (c.toNat - 0x10000) / 0x400, 0xDC00 + (c.toNat - 0x10000) % 0x400])

/-- Lexicographic order on code-unit lists. -/
def codeUnitsLt : List Nat → List Nat → Bool
  | _, [] => false
  | [], _ :: _ => true
  | x :: xs, y :: ys => if x < y then true else if y < x then false else codeUnitsLt xs ys

/-- The key `[X, Y].sort().join("-")`: the default sort swaps a two-element array
exactly when the second string is less than the first. -/
def sortedPairKey (X Y : String) : String :=
  if codeUnitsLt (utf16Units Y) (utf16Units X) then routeKey Y X else routeKey X Y

/-- The update of one ship in the loop of `startDisrupt`. -/
def disruptShip (V : Ship) : Ship :=
  if sortedPairKey V.A V.B = sortedPairKey DISRUPT_PAIR.1 DISRUPT_PAIR.2 then
    { V with paused := true, affected := true }
  else V

/-- `startDisrupt()`. The closing message reads `.name` of the two ports of the
disrupted pair; when one of them is missing that read throws and no message is
pushed. -/
def startDisrupt (w : World) : World :=
  if w.DISRUPTED then pushMsg "Disruption is already active." "system" w
  else
    let w1 := { w with DISRUPTED := true }
    let w2 := clearFix (setAlert [routeKey DISRUPT_PAIR.1 DISRUPT_PAIR.2] w1)
    let w3 := { w2 with SHIPS := w2.SHIPS.map disruptShip }
    match objGet w3.currentNodes DISRUPT_PAIR.1, objGet w3.currentNodes DISRUPT_PAIR.2 with
    | some a, some b =>
        pushMsg ("⚠️ Disruption: " ++ a.name ++ " ↔ " ++ b.name ++
          " corridor restricted. Affected vessels paused.") "system" w3
    | _, _ => w3

/-- The loop of `applyCorrect` that builds `forward`, from leg number `i` on: a leg
with fewer than two points is skipped, the first leg is pushed whole, a later one
without its first coordinate. An exception in `getArcCoords` ends the loop. -/
def buildForward (greatCircle : Node → Node → List Coord) :
    List (String × String) → Nat → List Coord → World → Outcome (List Coord)
  | [], _, forward, w => .ok forward w
  | leg :: rest, i, forward, w =>
      match getArcCoords greatCircle leg.1 leg.2 w with
      | .threw w1 => .threw w1
      | .ok seg w1 =>
          if seg.length < 2 then buildForward greatCircle rest (i + 1) forward w1
          else if i = 0 then buildForward greatCircle rest (i + 1) (forward ++ seg) w1
          else buildForward greatCircle rest (i + 1) (forward ++ seg.tail) w1

/-- The update of one ship in the loop of `applyCorrect`. -/
def correctShip (forward backward : List Coord) (V : Ship) : Ship :=
  if V.affected then
    let V1 : Ship :=
      if V.A = DISRUPT_PAIR.1 ∧ V.B = DISRUPT_PAIR.2 then
        { V with path := forward, seg := 0, t := 0 }
      else if V.A = DISRUPT_PAIR.2 ∧ V.B = DISRUPT_PAIR.1 then
        { V with path := backward, seg := 0, t := 0 }
      else V
    { V1 with paused := false }
  else V

/-- `applyCorrect()`: the state it leaves. An exception in the loop that builds
`forward` ends the function there. The closing message reads
`currentNodes["VN"].name`; when `VN` is missing that read throws and no message is
pushed. -/
def applyCorrect (greatCircle : Node → Node → List Coord) (w : World) : World :=
  if !w.DISRUPTED then pushMsg "No active disruption. Click Disrupt first." "system" w
  else
    let w1 := clearAlert (setFix (REROUTE_PATH.map (fun p => routeKey p.1 p.2)) w)
    match buildForward greatCircle REROUTE_PATH 0 [] w1 with
    | .threw w2 => w2
    | .ok forward w1' =>
        let backward := forward.reverse
        let w2 := { w1' with SHIPS := w1'.SHIPS.map (correctShip forward backward) }
        match objGet w2.currentNodes "VN" with
        | some vn =>
            pushMsg ("✅ Correction applied: rerouting via " ++ vn.name ++
              " (green) and resuming voyages.") "system" w2
        | none => w2

/-- `backToNormal()`: the state it leaves. An exception in `buildShipsForNodes` ends
the function there. -/
def backToNormal (greatCircle : Node → Node → List Coord) (rand : Nat → ℚ)
    (w : World) : World :=
  let w1 := clearFix (clearAlert { w with DISRUPTED := false })
  let w2 := rebuildRoutes greatCircle w1.currentNodes w1
  match buildShipsForNodes greatCircle rand w2.currentNodes w2 with
  | .threw w3 => w3
  | .ok _ w3 => pushMsg "Normal operations resumed. All sea lanes open." "system" w3

/-- The star-shaped pair list of `applyHubHK`: every key other than `HK`, paired
with `HK`. -/
def hubPairs (keys : List String) : List (String × String) :=
  (keys.filter (fun K => K ≠ "HK")).map (fun K => (K, "HK"))

/-- The first statement of `applyHubHK`: `HK` is added from `NEW_PORTS` when it is
absent. `NEW_PORTS` does hold `HK`, so the last branch is never taken. -/
def ensureHK (w : World) : World :=
  match objGet w.currentNodes "HK" with
  | some _ => w
  | none =>
      match objGet NEW_PORTS "HK" with
      | some hk => { w with currentNodes := mapSet w.currentNodes "HK" hk }
      | none => w

/-- `applyHubHK()`: the state it leaves. An exception in `rebuildRoutesFromPairs` or
in `buildShipsForPairs` ends the function there. -/
def applyHubHK (greatCircle : Node → Node → List Coord) (rand : Nat → ℚ)
    (w : World) : World :=
  let w0 := ensureHK w
  let w1 := clearFix (clearAlert { w0 with DISRUPTED := false })
  let pairs := hubPairs (objKeys w1.currentNodes)
  match rebuildRoutesFromPairs greatCircle pairs w1 with
  | .threw w2 => w2
  | .ok _ w2 =>
      match buildShipsForPairs greatCircle rand pairs w2 with
      | .threw w3 => w3
      | .ok _ w3 => pushMsg "🟡 Hub HK mode: all ports route via Hong Kong." "system" w3

/-- `addPortByCode(code)`: the state it leaves, where `none` is a missing argument
(`undefined`). An exception in `buildShipsForNodes` ends the function there.
`toUpperCase` is taken on ASCII letters only: the result is used for nothing but the
reads `NEW_PORTS[CODE]` and `currentNodes[CODE]`, and no other character has `P`, `H`
or `K` as its upper case, so the two agree on whether and which add-on port is
named. Every member name of `Object.prototype` holds a lower-case letter, so an
upper-cased string is none of them and both reads are reads of own properties. -/
def addPortByCode (greatCircle : Node → Node → List Coord) (rand : Nat → ℚ)
    (code : Option String) (w : World) : World :=
  let CODE := (code.getD "").toUpper
  match objGet NEW_PORTS CODE with
  | none => pushMsg ("Unknown code: " ++ code.getD "undefined") "system" w
  | some node =>
      match objGet w.currentNodes CODE with
      | some _ => pushMsg (node.name ++ " is already added.") "system" w
      | none =>
          let w1 := { w with currentNodes := mapSet w.currentNodes CODE node }
          let w2 := rebuildRoutes greatCircle w1.currentNodes w1
          match buildShipsForNodes greatCircle rand w2.currentNodes w2 with
          | .threw w3 => w3
          | .ok _ w3 =>
              pushMsg ("🆕 Added " ++ node.name ++
                ". New sea lanes to all ports are now active.") "system" w3

/-! ## Command dispatcher -/

/-- The code points `String.prototype.trim` strips: the white space and line
terminator characters of the language. -/
def isJsWhitespace (c : Char) : Bool :=
  decide (c.toNat ∈ [0x9, 0xA, 0xB, 0xC, 0xD, 0x20, 0xA0, 0x1680, 0x2000, 0x2001, 0x2002,
    0x2003, 0x2004, 0x2005, 0x2006, 0x2007, 0x2008, 0x2009, 0x200A, 0x2028, 0x2029,
    0x202F, 0x205F, 0x3000, 0xFEFF])

/-- `String.prototype.trim`. -/
def jsTrim (s : String) : String :=
  ⟨((s.data.dropWhile isJsWhitespace).reverse.dropWhile isJsWhitespace).reverse⟩

/-- `handleCommand(raw)`, where `none` is a missing argument. `toLowerCase` stands for
`String.prototype.toLowerCase`, which follows the Unicode case tables. An empty command
returns at once; any other is first echoed to the chat log as a `"user"` line. -/
def handleCommand (greatCircle : Node → Node → List Coord) (rand : Nat → ℚ)
    (toLowerCase : String → String) (raw : Option String) (w : World) : World :=
  let cmd := jsTrim (raw.getD "")
  if cmd = "" then w
  else
    let w1 := pushMsg cmd "user" w
    let k := toLowerCase cmd
    if k = "disrupt" then startDisrupt w1
    else if k = "correct" then applyCorrect greatCircle w1
    else if k = "normal" then backToNormal greatCircle rand w1
    else if k = "add ph" ∨ k = "addph" then addPortByCode greatCircle rand (some "PH") w1
    else if k = "add hk" ∨ k = "addhk" then addPortByCode greatCircle rand (some "HK") w1
    else if k = "hub hk" ∨ k = "hubhk" then applyHubHK greatCircle rand w1
    else pushMsg "Valid commands: Disrupt, Correct, Normal, Add PH, Add HK, Hub HK." "system" w1

/-! ## Boot and reachable states -/

/-- The state when the script has been read: the top-level initialisers. -/
def initWorld : World :=
  { currentNodes := NODES, ROUTES := [], ROUTE_MAP := [], SHIPS := [],
    DISRUPTED := false, alert := [], fix := [], msgs := [], randCalls := 0 }

/-- The state after the `load` handler has run. -/
def boot (greatCircle : Node → Node → List Coord) (rand : Nat → ℚ) : World :=
  let w1 := rebuildRoutes greatCircle initWorld.currentNodes initWorld
  match buildShipsForNodes greatCircle rand w1.currentNodes w1 with
  | .threw w2 => w2
  | .ok _ w2 =>
      pushMsg ("Type Disrupt, Correct, Normal, Add PH, Add HK, or Hub HK to drive " ++
        "the sea ports simulation.") "system" w2

/-- The states the page can be in after boot: any sequence of scenario actions,
chat lines (the echo `handleCommand` writes before it dispatches) and animation
frames. The last three constructors are the route-cache functions called on their
own, with any arguments; a call that throws leaves the state it had reached. -/
inductive Reachable (greatCircle : Node → Node → List Coord) (rand : Nat → ℚ) :
    World → Prop
  | boot : Reachable greatCircle rand (boot greatCircle rand)
  | disrupt {w : World} : Reachable greatCircle rand w →
      Reachable greatCircle rand (startDisrupt w)
  | correct {w : World} : Reachable greatCircle rand w →
      Reachable greatCircle rand (applyCorrect greatCircle w)
  | normal {w : World} : Reachable greatCircle rand w →
      Reachable greatCircle rand (backToNormal greatCircle rand w)
  | hub {w : World} : Reachable greatCircle rand w →
      Reachable greatCircle rand (applyHubHK greatCircle rand w)
  | addPort {w : World} (code : Option String) : Reachable greatCircle rand w →
      Reachable greatCircle rand (addPortByCode greatCircle rand code w)
  | frame {w : World} (elapsed zoom : ℚ) (pxLen : Coord → Coord → ℚ) :
      Reachable greatCircle rand w →
      Reachable greatCircle rand (tick rand elapsed zoom pxLen w)
  | echo {w : World} (t kind : String) : Reachable greatCircle rand w →
      Reachable greatCircle rand (pushMsg t kind w)
  | rebuild {w : World} : Reachable greatCircle rand w →
      Reachable greatCircle rand (rebuildRoutes greatCircle w.currentNodes w)
  | fromPairs {w : World} (pairs : List (String × String)) :
      Reachable greatCircle rand w →
      Reachable greatCircle rand (rebuildRoutesFromPairs greatCircle pairs w).world
  | getArc {w : World} (A B : String) : Reachable greatCircle rand w →
      Reachable greatCircle rand (getArcCoords greatCircle A B w).world

/-! ## The route cache and the registry on own properties

The functions above that call `getArcCoords`, with every read `currentNodes[k]` taken
as a read of an own property. They return in every state, and they are what the
functions above compute whenever no member of `Object.prototype` is read
(`getArcCoords_ok`, `spawnPairs_plain`, `buildForward_plain`); the proofs about the
scenario actions go through them. -/

/-- `getArcCoords(A, B)` on own properties: the returned sequence and the world after
the call. -/
def getArcCoordsOwn (greatCircle : Node → Node → List Coord) (A B : String)
    (w : World) : List Coord × World :=
  match mapGet w.ROUTE_MAP (routeKey A B) with
  | some cached => (cached, w)
  | none =>
      match objGet w.currentNodes A, objGet w.currentNodes B with
      | some a, some b =>
          let coords := greatCircle a b
          (coords, { w with ROUTE_MAP := storeBoth w.ROUTE_MAP A B coords })
      | _, _ => ([], w)

/-- One iteration of the loop of `rebuildRoutesFromPairs`, on own properties. -/
def rebuildRoutesFromPairsStepOwn (greatCircle : Node → Node → List Coord)
    (w : World) (p : String × String) : World :=
  let r := getArcCoordsOwn greatCircle p.1 p.2 w
  if r.1.length < 2 then r.2
  else { r.2 with ROUTES := r.2.ROUTES ++ [⟨routeKey p.1 p.2, p.1, p.2, r.1⟩] }

/-- `rebuildRoutesFromPairs(pairs)` on own properties. -/
def rebuildRoutesFromPairsOwn (greatCircle : Node → Node → List Coord)
    (pairs : List (String × String)) (w : World) : World :=
  pairs.foldl (rebuildRoutesFromPairsStepOwn greatCircle)
    { w with ROUTES := [], ROUTE_MAP := [] }

/-- `spawnShip(id, A, B)` on own properties. -/
def spawnShipOwn (greatCircle : Node → Node → List Coord) (rand : Nat → ℚ)
    (id A B : String) (w : World) : World :=
  let r := getArcCoordsOwn greatCircle A B w
  if r.1.length < 2 then r.2
  else
    { r.2 with
      SHIPS := r.2.SHIPS ++
        [{ id := id, A := A, B := B, path := r.1, seg := 0,
           t := rand r.2.randCalls * 0.6,
           speed := 0.62 + rand (r.2.randCalls + 1) * 0.35,
           paused := false, affected := false }]
      randCalls := r.2.randCalls + 2 }

/-- The body of the loop `spawnPairs` on own properties: the state is the world
together with the counter `idx`. -/
def spawnBothOwn (greatCircle : Node → Node → List Coord) (rand : Nat → ℚ)
    (s : World × Nat) (p : String × String) : World × Nat :=
  let w1 := spawnShipOwn greatCircle rand ("V" ++ toString s.2) p.1 p.2 s.1
  let w2 := spawnShipOwn greatCircle rand ("V" ++ toString (s.2 + 1)) p.2 p.1 w1
  (w2, s.2 + 2)

/-- `buildShipsForPairs(pairs)` on own properties. -/
def buildShipsForPairsOwn (greatCircle : Node → Node → List Coord) (rand : Nat → ℚ)
    (pairs : List (String × String)) (w : World) : World :=
  (pairs.foldl (spawnBothOwn greatCircle rand) ({ w with SHIPS := [] }, 1)).1

/-- `buildShipsForNodes(nodeSet)` on own properties. -/
def buildShipsForNodesOwn (greatCircle : Node → Node → List Coord) (rand : Nat → ℚ)
    (nodeSet : NodeSet) (w : World) : World :=
  ((allPairs (objKeys nodeSet)).foldl (spawnBothOwn greatCircle rand)
    ({ w with SHIPS := [] }, 1)).1

/-- The loop `buildForward` on own properties. -/
def buildForwardOwn (greatCircle : Node → Node → List Coord) :
    List (String × String) → Nat → List Coord → World → List Coord × World
  | [], _, forward, w => (forward, w)
  | leg :: rest, i, forward, w =>
      let r := getArcCoordsOwn greatCircle leg.1 leg.2 w
      if r.1.length < 2 then buildForwardOwn greatCircle rest (i + 1) forward r.2
      else if i = 0 then buildForwardOwn greatCircle rest (i + 1) (forward ++ r.1) r.2
      else buildForwardOwn greatCircle rest (i + 1) (forward ++ r.1.tail) r.2

/-! ## Notions used in the statements -/

/-- A code without the separator of route keys. -/
def NoHyphen (s : String) : Prop :=
  '-' ∉ s.data

instance (s : String) : Decidable (NoHyphen s) :=
  inferInstanceAs (Decidable ('-' ∉ s.data))

/-- Both directions of every pair of `allPairs`: the origin and destination pairs of
the ships spawned for a complete node set, in spawning order. -/
def directedPairs (keys : List String) : List (String × String) :=
  (allPairs keys).flatMap (fun p => [p, (p.2, p.1)])

/-- The two cache entries `rebuildRoutes` stores for one pair of `allPairs`. -/
def pairEntries (greatCircle : Node → Node → List Coord) (nodeSet : NodeSet)
    (p : String × String) : RouteMap :=
  match objGet nodeSet p.1, objGet nodeSet p.2 with
  | some a, some b =>
      [(routeKey p.1 p.2, greatCircle a b), (routeKey p.2 p.1, (greatCircle a b).reverse)]
  | _, _ => []

/-- A node set with two distinct identifiers, one of which holds a hyphen. -/
def hyphenNodes : NodeSet :=
  [("SG", ⟨"a", 0, 0⟩), ("SG-SG", ⟨"b", 1, 1⟩)]

/-- A two-point curve: the straight line between the two ports. -/
def straightLine (a b : Node) : List Coord :=
  [(a.lon, a.lat), (b.lon, b.lat)]

/-- The codes of the two catalogs. -/
def catalogCodes : List String :=
  ["SG", "TH", "VN", "ID", "JP", "PH", "HK"]

/-- The active node set is a well-formed object over the catalog: its keys are
distinct and each is a catalog code. -/
def NodesOK (w : World) : Prop :=
  (objKeys w.currentNodes).Nodup ∧ ∀ k ∈ objKeys w.currentNodes, k ∈ catalogCodes

/-- The symmetry invariant of the route cache: every key joins two hyphen-free codes,
and the entry under `B-A` is the reverse of the entry under `A-B`. -/
def CacheSym (m : RouteMap) : Prop :=
  (∀ key ∈ objKeys m, ∃ A B, NoHyphen A ∧ NoHyphen B ∧ key = routeKey A B) ∧
  (∀ A B c, NoHyphen A → NoHyphen B → mapGet m (routeKey A B) = some c →
    mapGet m (routeKey B A) = some c.reverse)

/-- The invariant of the node set and the route cache kept by every reachable state. -/
def RouteInv (w : World) : Prop :=
  NodesOK w ∧ CacheSym w.ROUTE_MAP

/-- The origin and destination of a ship. -/
def ends (V : Ship) : String × String :=
  (V.A, V.B)

/-- In state `w`, `getArcCoords` returns a curve of at least two points for every two
distinct codes of `keys`. -/
def CurvesOK (greatCircle : Node → Node → List Coord) (keys : List String)
    (w : World) : Prop :=
  ∀ A B, A ∈ keys → B ∈ keys → A ≠ B →
    ∃ c w1, getArcCoords greatCircle A B w = .ok c w1 ∧ 2 ≤ c.length

/-- Every curve that `getArcCoordsOwn` returns in state `w` for two distinct codes of
`keys` has at least two points. -/
def CurvesOKOwn (greatCircle : Node → Node → List Coord) (keys : List String)
    (w : World) : Prop :=
  ∀ A B, A ∈ keys → B ∈ keys → A ≠ B → 2 ≤ (getArcCoordsOwn greatCircle A B w).1.length

/-- A ship as `spawnShip` leaves it: at the start of its path, running and not
affected. -/
def Fresh (V : Ship) : Prop :=
  V.seg = 0 ∧ V.paused = false ∧ V.affected = false ∧ 2 ≤ V.path.length

/-- Every cached curve has at least two points. -/
def CacheLong (m : RouteMap) : Prop :=
  ∀ key c, mapGet m key = some c → 2 ≤ c.length

/-- Whether an origin and destination pair is the disrupted pair, in either order. -/
def isDisruptedPair (p : String × String) : Prop :=
  p = ("SG", "TH") ∨ p = ("TH", "SG")

instance (p : String × String) : Decidable (isDisruptedPair p) :=
  inferInstanceAs (Decidable (p = ("SG", "TH") ∨ p = ("TH", "SG")))

/-- The cache is `m` and every ship holds the cached curve of its own origin and
destination. -/
def PathsCached (m : RouteMap) (w : World) : Prop :=
  w.ROUTE_MAP = m ∧ ∀ V ∈ w.SHIPS, mapGet m (routeKey V.A V.B) = some V.path

/-- The concatenation of `getArcCoords(SG, VN)` with `getArcCoords(VN, TH)` less its
first coordinate, the two calls made in this order from state `w`. -/
def rerouteCurve (greatCircle : Node → Node → List Coord) (w : World) : List Coord :=
  match getArcCoords greatCircle "SG" "VN" w with
  | .threw _ => []
  | .ok first w1 =>
      match getArcCoords greatCircle "VN" "TH" w1 with
      | .threw _ => first
      | .ok second _ => first ++ second.tail

/-- What `applyCorrect` is to do to one ship when the alternate path is `forward`. -/
def reroutedShip (forward : List Coord) (V : Ship) : Ship :=
  if (V.A, V.B) = ("SG", "TH") then
    { V with path := forward, seg := 0, t := 0, paused := false }
  else if (V.A, V.B) = ("TH", "SG") then
    { V with path := forward.reverse, seg := 0, t := 0, paused := false }
  else V

/-- The spellings of the two add-on codes, in any letter case. -/
def addOnSpellings : List String :=
  ["PH", "Ph", "pH", "ph", "HK", "Hk", "hK", "hk"]

/-- The position invariant of a mover: a path of at least two points, a segment index
that has a next point, and a progress in `[0, 1)`. -/
def ShipOK (V : Ship) : Prop :=
  2 ≤ V.path.length ∧ V.seg + 2 ≤ V.path.length ∧ 0 ≤ V.t ∧ V.t < 1

/-- The progress `advanceShip` adds to `V.t`: the pixel speed times `dt` over the
on-screen length of the current segment, at least `0.005`. -/
def stepSize (dt zoom : ℚ) (pxLen : Coord → Coord → ℚ) (V : Ship) : ℚ :=
  match V.path[V.seg]? with
  | none => 0
  | some a =>
      max (70 * V.speed * (0.95 + (zoom - 4) * 0.18) * dt /
        max 1 (pxLen a ((V.path[V.seg + 1]?).getD a))) 0.005

/-- What `advanceShip` is to return for a running mover: the whole part of the new
progress is the number of segments passed; the mover moves on by that many segments
and keeps the remainder, unless that takes it past the last segment, in which case it
restarts at segment `0` with a fresh random progress. -/
def advancedShip (rand : Nat → ℚ) (dt zoom : ℚ) (pxLen : Coord → Coord → ℚ)
    (V : Ship) (calls : Nat) : Ship × Nat :=
  let t1 := V.t + stepSize dt zoom pxLen V
  if V.seg + ⌊t1⌋.toNat + 2 ≤ V.path.length then
    ({ V with seg := V.seg + ⌊t1⌋.toNat, t := t1 - ⌊t1⌋.toNat }, calls)
  else ({ V with seg := 0, t := rand calls * 0.2 }, calls + 1)

/-- The invariant behind the position invariant: the ships are in position, every
cached curve has two points, and the default ports are active. -/
def MoverInv (w : World) : Prop :=
  (∀ V ∈ w.SHIPS, ShipOK V) ∧ CacheLong w.ROUTE_MAP ∧
    ∀ k ∈ objKeys NODES, k ∈ objKeys w.currentNodes

/-- `toLowerCase` on strings of ASCII characters, where it only moves `A`..`Z` to
`a`..`z`. -/
def asciiLower (s : String) : String :=
  ⟨s.data.map Char.toLower⟩

/-- The tokens `handleCommand` recognises. -/
def commandTokens : List String :=
  ["disrupt", "correct", "normal", "add ph", "addph", "add hk", "addhk", "hub hk", "hubhk"]

/-- The help notice of `handleCommand`. -/
def helpNotice : Msg :=
  ⟨"Valid commands: Disrupt, Correct, Normal, Add PH, Add HK, Hub HK.", "system"⟩

/-- The fields of a ship that the animation leaves alone. -/
def tags (V : Ship) : Bool × Bool × String × String :=
  (V.paused, V.affected, V.A, V.B)

/-- The scenario invariant of a world: a paused or affected mover exists only while
the disruption flag is set, and its origin and destination are the disrupted pair. -/
def FlagInv (w : World) : Prop :=
  ∀ V ∈ w.SHIPS, V.paused = true ∨ V.affected = true →
    w.DISRUPTED = true ∧ isDisruptedPair (V.A, V.B)

/-- The state after the animation frames `fs` have been drawn from `w`, one after the
other; a frame is given by its elapsed time, zoom level and on-screen lengths. -/
def runFrames (rand : Nat → ℚ) : List (ℚ × ℚ × (Coord → Coord → ℚ)) → World → World
  | [], w => w
  | f :: rest, w => runFrames rand rest (tick rand f.1 f.2.1 f.2.2 w)

/-- A three-point curve: from the first port along its meridian to the latitude of the
second, then along that parallel. -/
def bentLine (a b : Node) : List Coord :=
  [(a.lon, a.lat), (a.lon, b.lat), (b.lon, b.lat)]

/-- The booted page with three-point curves, one frame later: at zoom `3`, with every
segment one pixel long on screen, each mover has gone on to its second segment. -/
def sailedBoot : World :=
  tick (fun _ => 0) 1 3 (fun _ _ => 1) (boot bentLine (fun _ => 0))

/-! # Theorems -/

/-! ## Dictionary lemmas -/

theorem objGet_eq_none_iff {β : Type} (m : List (String × β)) (k : String) :
    objGet m k = none ↔ k ∉ objKeys m := by
  induction m with
  | nil => simp [objGet, objKeys]
  | cons e rest ih =>
      obtain ⟨k', v⟩ := e
      by_cases h : k' = k
      · simp [objGet, objKeys, h]
      · have h' : ¬ k = k' := fun e => h e.symm
        simpa [objGet, objKeys, h, h'] using ih

theorem objGet_isSome_iff {β : Type} (m : List (String × β)) (k : String) :
    (∃ v, objGet m k = some v) ↔ k ∈ objKeys m := by
  rw [← not_iff_not, ← objGet_eq_none_iff]
  cases objGet m k <;> simp

theorem objGet_of_mem {β : Type} {m : List (String × β)} (hnd : (objKeys m).Nodup)
    {k : String} {v : β} (h : (k, v) ∈ m) : objGet m k = some v := by
  induction m with
  | nil => simp at h
  | cons e rest ih =>
      obtain ⟨k', v'⟩ := e
      simp only [objKeys, List.map_cons, List.nodup_cons] at hnd
      rcases List.mem_cons.1 h with h | h
      · cases h
        simp [objGet]
      · have hk : k ∈ objKeys rest := List.mem_map.2 ⟨(k, v), h, rfl⟩
        have hne : ¬ k' = k := fun e => hnd.1 (e ▸ hk)
        simpa [objGet, hne] using ih hnd.2 h

theorem mem_of_objGet {β : Type} {m : List (String × β)} {k : String} {v : β}
    (h : objGet m k = some v) : (k, v) ∈ m := by
  induction m with
  | nil => simp [objGet] at h
  | cons e rest ih =>
      obtain ⟨k', v'⟩ := e
      by_cases hk : k' = k
      · simp [objGet, hk] at h
        simp [hk, h]
      · simp only [objGet, hk, if_false] at h
        exact List.mem_cons_of_mem _ (ih h)

theorem mapGet_mapSet {β : Type} (m : List (String × β)) (k k' : String) (v : β) :
    mapGet (mapSet m k v) k' = if k = k' then some v else mapGet m k' := by
  induction m with
  | nil => simp [mapSet, mapGet, objGet]
  | cons e rest ih =>
      obtain ⟨k0, v0⟩ := e
      simp only [mapGet] at ih
      by_cases h0 : k0 = k
      · subst h0
        by_cases h1 : k0 = k' <;> simp [mapSet, mapGet, objGet, h1]
      · by_cases h1 : k0 = k'
        · subst h1
          have : ¬ k = k0 := fun e => h0 e.symm
          simp [mapSet, mapGet, objGet, h0, this]
        · simp [mapSet, mapGet, objGet, h0, h1, ih]

theorem mapSet_of_not_mem {β : Type} (m : List (String × β)) (k : String) (v : β)
    (h : k ∉ objKeys m) : mapSet m k v = m ++ [(k, v)] := by
  induction m with
  | nil => simp [mapSet]
  | cons e rest ih =>
      obtain ⟨k0, v0⟩ := e
      simp only [objKeys, List.map_cons, List.mem_cons, not_or] at h
      have h0 : ¬ k0 = k := fun e => h.1 e.symm
      simp [mapSet, h0, ih h.2]

theorem objKeys_mapSet_of_mem {β : Type} (m : List (String × β)) (k : String) (v : β)
    (h : k ∈ objKeys m) : objKeys (mapSet m k v) = objKeys m := by
  induction m with
  | nil => simp [objKeys] at h
  | cons e rest ih =>
      obtain ⟨k0, v0⟩ := e
      by_cases h0 : k0 = k
      · simp [mapSet, objKeys, h0]
      · have hk : k ∈ objKeys rest := by
          simp only [objKeys, List.map_cons, List.mem_cons] at h
          rcases h with h | h
          · exact absurd h.symm h0
          · exact h
        have := ih hk
        simp only [objKeys] at this
        simp [mapSet, objKeys, h0, this]

theorem mem_objKeys_mapSet {β : Type} (m : List (String × β)) (k k' : String) (v : β) :
    k' ∈ objKeys (mapSet m k v) ↔ k' = k ∨ k' ∈ objKeys m := by
  by_cases h : k ∈ objKeys m
  · rw [objKeys_mapSet_of_mem m k v h]
    constructor
    · exact Or.inr
    · rintro (rfl | h')
      · exact h
      · exact h'
  · rw [mapSet_of_not_mem m k v h]
    simp [objKeys, or_comm]

/-! ## Route keys -/

theorem append_cons_inj_left {x : Char} :
    ∀ (l₁ l₂ r₁ r₂ : List Char), x ∉ l₁ → x ∉ l₂ →
      l₁ ++ x :: r₁ = l₂ ++ x :: r₂ → l₁ = l₂ ∧ r₁ = r₂
  | [], [], _, _, _, _, h => by simpa using h
  | [], b :: l₂, _, _, _, h₂, h => by
      simp only [List.nil_append, List.cons_append, List.cons.injEq] at h
      exact absurd (h.1 ▸ List.mem_cons_self _ _) h₂
  | a :: l₁, [], _, _, h₁, _, h => by
      simp only [List.nil_append, List.cons_append, List.cons.injEq] at h
      exact absurd (h.1 ▸ List.mem_cons_self _ _) h₁
  | a :: l₁, b :: l₂, r₁, r₂, h₁, h₂, h => by
      simp only [List.cons_append, List.cons.injEq] at h
      have ih := append_cons_inj_left l₁ l₂ r₁ r₂
        (fun hx => h₁ (List.mem_cons_of_mem _ hx))
        (fun hx => h₂ (List.mem_cons_of_mem _ hx)) h.2
      exact ⟨by rw [h.1, ih.1], ih.2⟩

theorem routeKey_data (A B : String) : (routeKey A B).data = A.data ++ '-' :: B.data := by
  simp [routeKey, String.data_append]

/-- Route keys tell hyphen-free first codes apart. -/
theorem routeKey_inj {A B A' B' : String} (hA : NoHyphen A) (hA' : NoHyphen A')
    (h : routeKey A B = routeKey A' B') : A = A' ∧ B = B' := by
  have hd := congrArg String.data h
  rw [routeKey_data, routeKey_data] at hd
  have := append_cons_inj_left _ _ _ _ hA hA' hd
  exact ⟨String.ext this.1, String.ext this.2⟩

/-! ## Pairs -/

theorem allPairs_length (l : List String) :
    2 * (allPairs l).length = l.length * (l.length - 1) := by
  induction l with
  | nil => simp [allPairs]
  | cons a rest ih =>
      simp only [allPairs, List.length_append, List.length_map, List.length_cons,
        Nat.add_sub_cancel]
      rw [Nat.mul_add, ih]
      cases h : rest.length with
      | zero => simp
      | succ n => simp only [Nat.add_sub_cancel]; ring

theorem mem_allPairs {l : List String} {p : String × String} (h : p ∈ allPairs l) :
    p.1 ∈ l ∧ p.2 ∈ l := by
  induction l with
  | nil => simp [allPairs] at h
  | cons a rest ih =>
      simp only [allPairs, List.mem_append, List.mem_map] at h
      rcases h with ⟨b, hb, rfl⟩ | h
      · exact ⟨List.mem_cons_self _ _, List.mem_cons_of_mem _ hb⟩
      · exact ⟨List.mem_cons_of_mem _ (ih h).1, List.mem_cons_of_mem _ (ih h).2⟩

theorem ne_of_mem_allPairs {l : List String} (hnd : l.Nodup) {p : String × String}
    (h : p ∈ allPairs l) : p.1 ≠ p.2 := by
  induction l with
  | nil => simp [allPairs] at h
  | cons a rest ih =>
      rw [List.nodup_cons] at hnd
      simp only [allPairs, List.mem_append, List.mem_map] at h
      rcases h with ⟨b, hb, rfl⟩ | h
      · intro e
        have e' : a = b := e
        exact hnd.1 (e' ▸ hb)
      · exact ih hnd.2 h

theorem allPairs_total {l : List String} {A B : String} (hA : A ∈ l) (hB : B ∈ l)
    (hne : A ≠ B) : (A, B) ∈ allPairs l ∨ (B, A) ∈ allPairs l := by
  induction l with
  | nil => simp at hA
  | cons a rest ih =>
      simp only [allPairs, List.mem_append, List.mem_map, Prod.mk.injEq]
      rcases List.mem_cons.1 hA with rfl | hA' <;> rcases List.mem_cons.1 hB with rfl | hB'
      · exact absurd rfl hne
      · exact Or.inl (Or.inl ⟨B, hB', rfl, rfl⟩)
      · exact Or.inr (Or.inl ⟨A, hA', rfl, rfl⟩)
      · rcases ih hA' hB' with h | h
        · exact Or.inl (Or.inr h)
        · exact Or.inr (Or.inr h)

theorem directedPairs_cons (a : String) (rest : List String) :
    directedPairs (a :: rest) =
      rest.flatMap (fun b => [(a, b), (b, a)]) ++ directedPairs rest := by
  simp [directedPairs, allPairs, List.flatMap_append, List.flatMap_map]

theorem mem_directedPairs_imp {l : List String} {p : String × String}
    (h : p ∈ directedPairs l) : p.1 ∈ l ∧ p.2 ∈ l := by
  simp only [directedPairs, List.mem_flatMap, List.mem_cons, List.mem_singleton,
    List.not_mem_nil, or_false] at h
  obtain ⟨q, hq, rfl | rfl⟩ := h
  · exact mem_allPairs hq
  · exact ⟨(mem_allPairs hq).2, (mem_allPairs hq).1⟩

theorem nodup_directedPairs {l : List String} (hnd : l.Nodup) :
    (directedPairs l).Nodup := by
  induction l with
  | nil => simp [directedPairs, allPairs]
  | cons a rest ih =>
      rw [List.nodup_cons] at hnd
      rw [directedPairs_cons]
      refine List.Nodup.append ?_ (ih hnd.2) ?_
      · rw [List.nodup_flatMap]
        refine ⟨fun b hb => ?_, ?_⟩
        · have : a ≠ b := fun e => hnd.1 (e ▸ hb)
          simp [this]
        · refine List.Pairwise.imp ?_ hnd.2
          intro b c hbc
          simp only [Function.onFun, List.disjoint_left, List.mem_cons, List.mem_singleton,
            List.not_mem_nil, or_false, Prod.mk.injEq]
          rintro x (rfl | rfl) (h | h)
          · exact hbc (Prod.mk.inj h).2
          · exact hbc ((Prod.mk.inj h).2.trans (Prod.mk.inj h).1)
          · exact hbc ((Prod.mk.inj h).1.trans (Prod.mk.inj h).2)
          · exact hbc (Prod.mk.inj h).1
      · rw [List.disjoint_left]
        intro p hp hp'
        have h2 := mem_directedPairs_imp hp'
        simp only [List.mem_flatMap, List.mem_cons, List.mem_singleton, List.not_mem_nil,
          or_false] at hp
        obtain ⟨b, _, rfl | rfl⟩ := hp
        · exact hnd.1 h2.1
        · exact hnd.1 h2.2

theorem mem_directedPairs {l : List String} (hnd : l.Nodup) (A B : String) :
    (A, B) ∈ directedPairs l ↔ A ∈ l ∧ B ∈ l ∧ A ≠ B := by
  constructor
  · intro h
    refine ⟨(mem_directedPairs_imp h).1, (mem_directedPairs_imp h).2, ?_⟩
    simp only [directedPairs, List.mem_flatMap, List.mem_cons, List.mem_singleton,
      List.not_mem_nil, or_false] at h
    obtain ⟨q, hq, h | h⟩ := h
    · subst h; exact ne_of_mem_allPairs hnd hq
    · have := ne_of_mem_allPairs hnd hq
      rw [Prod.ext_iff] at h
      simp only at h
      rw [h.1, h.2]; exact fun e => this e.symm
  · rintro ⟨hA, hB, hne⟩
    simp only [directedPairs, List.mem_flatMap, List.mem_cons, List.mem_singleton,
      List.not_mem_nil, or_false]
    rcases allPairs_total hA hB hne with h | h
    · exact ⟨(A, B), h, Or.inl rfl⟩
    · exact ⟨(B, A), h, Or.inr rfl⟩

theorem directedPairs_length (l : List String) :
    (directedPairs l).length = l.length * (l.length - 1) := by
  rw [← allPairs_length]
  simp only [directedPairs, List.length_flatMap]
  induction allPairs l with
  | nil => simp
  | cons p ps ih => simp only [List.map_cons, List.sum_cons, ih, Function.comp]; simp; omega

/-! ## The route cache after `rebuildRoutes` -/

theorem storeBoth_fresh (m : RouteMap) (A B : String) (c : List Coord)
    (h1 : routeKey A B ∉ objKeys m) (h2 : routeKey B A ∉ objKeys m)
    (h3 : routeKey A B ≠ routeKey B A) :
    storeBoth m A B c = m ++ [(routeKey A B, c), (routeKey B A, c.reverse)] := by
  unfold storeBoth
  rw [mapSet_of_not_mem m _ _ h1, mapSet_of_not_mem]
  · simp
  · simp only [objKeys, List.map_append, List.map_cons, List.map_nil, List.mem_append,
      List.mem_singleton, not_or]
    exact ⟨h2, fun e => h3 e.symm⟩

theorem objKeys_append {β : Type} (l₁ l₂ : List (String × β)) :
    objKeys (l₁ ++ l₂) = objKeys l₁ ++ objKeys l₂ := by
  simp [objKeys]

theorem foldl_rebuildRoutesStep_map (greatCircle : Node → Node → List Coord)
    (nodeSet : NodeSet) (ps : List (String × String)) :
    ∀ w : World,
      (objKeys w.ROUTE_MAP ++ objKeys (ps.flatMap (pairEntries greatCircle nodeSet))).Nodup →
      (ps.foldl (rebuildRoutesStep greatCircle nodeSet) w).ROUTE_MAP =
        w.ROUTE_MAP ++ ps.flatMap (pairEntries greatCircle nodeSet) := by
  induction ps with
  | nil => intro w _; simp
  | cons p ps ih =>
      intro w h
      rw [List.foldl_cons, List.flatMap_cons]
      cases ha : objGet nodeSet p.1 with
      | none =>
          have e1 : rebuildRoutesStep greatCircle nodeSet w p = w := by
            simp [rebuildRoutesStep, ha]
          have e2 : pairEntries greatCircle nodeSet p = [] := by
            simp [pairEntries, ha]
          rw [e1, e2, List.nil_append]
          rw [List.flatMap_cons, e2, List.nil_append] at h
          exact ih w h
      | some a =>
          cases hb : objGet nodeSet p.2 with
          | none =>
              have e1 : rebuildRoutesStep greatCircle nodeSet w p = w := by
                simp [rebuildRoutesStep, ha, hb]
              have e2 : pairEntries greatCircle nodeSet p = [] := by
                simp [pairEntries, ha, hb]
              rw [e1, e2, List.nil_append]
              rw [List.flatMap_cons, e2, List.nil_append] at h
              exact ih w h
          | some b =>
              have e2 : pairEntries greatCircle nodeSet p =
                  [(routeKey p.1 p.2, greatCircle a b),
                   (routeKey p.2 p.1, (greatCircle a b).reverse)] := by
                simp [pairEntries, ha, hb]
              rw [List.flatMap_cons, e2] at h
              have hk : (objKeys w.ROUTE_MAP ++ (routeKey p.1 p.2 :: routeKey p.2 p.1 ::
                  objKeys (ps.flatMap (pairEntries greatCircle nodeSet)))).Nodup := by
                simpa [objKeys] using h
              have hk' := List.nodup_append.1 hk
              have hd := List.disjoint_left.1 hk'.2.2
              have h1 : routeKey p.1 p.2 ∉ objKeys w.ROUTE_MAP :=
                fun hm => hd hm (List.mem_cons_self _ _)
              have h2 : routeKey p.2 p.1 ∉ objKeys w.ROUTE_MAP :=
                fun hm => hd hm (List.mem_cons_of_mem _ (List.mem_cons_self _ _))
              have h3 : routeKey p.1 p.2 ≠ routeKey p.2 p.1 := by
                have := (List.nodup_cons.1 hk'.2.1).1
                intro e
                exact this (e ▸ List.mem_cons_self _ _)
              have e1 : (rebuildRoutesStep greatCircle nodeSet w p).ROUTE_MAP =
                  w.ROUTE_MAP ++ [(routeKey p.1 p.2, greatCircle a b),
                   (routeKey p.2 p.1, (greatCircle a b).reverse)] := by
                simp only [rebuildRoutesStep, ha, hb]
                exact storeBoth_fresh _ _ _ _ h1 h2 h3
              rw [ih _ (by rw [e1]; simpa [objKeys] using h), e1, e2]
              simp

theorem objKeys_pairEntries (greatCircle : Node → Node → List Coord) (nodeSet : NodeSet)
    (ps : List (String × String))
    (hps : ∀ p ∈ ps, p.1 ∈ objKeys nodeSet ∧ p.2 ∈ objKeys nodeSet) :
    objKeys (ps.flatMap (pairEntries greatCircle nodeSet)) =
      (ps.flatMap (fun p => [p, (p.2, p.1)])).map (fun p => routeKey p.1 p.2) := by
  induction ps with
  | nil => simp [objKeys]
  | cons p ps ih =>
      obtain ⟨a, ha⟩ := (objGet_isSome_iff nodeSet p.1).2 (hps p (List.mem_cons_self _ _)).1
      obtain ⟨b, hb⟩ := (objGet_isSome_iff nodeSet p.2).2 (hps p (List.mem_cons_self _ _)).2
      rw [List.flatMap_cons, List.flatMap_cons, objKeys_append, List.map_append,
        ih (fun q hq => hps q (List.mem_cons_of_mem _ hq))]
      simp [pairEntries, ha, hb, objKeys]

theorem nodup_routeKeys {keys : List String} (hnd : keys.Nodup)
    (hh : ∀ k ∈ keys, NoHyphen k) :
    ((directedPairs keys).map (fun p => routeKey p.1 p.2)).Nodup := by
  refine List.Nodup.map_on ?_ (nodup_directedPairs hnd)
  intro p hp q hq e
  have := routeKey_inj (hh _ (mem_directedPairs_imp hp).1) (hh _ (mem_directedPairs_imp hq).1) e
  exact Prod.ext this.1 this.2

/-- The cache built by `rebuildRoutes`, entry by entry. -/
theorem rebuildRoutes_map (greatCircle : Node → Node → List Coord) (nodeSet : NodeSet)
    (w : World) (hnd : (objKeys nodeSet).Nodup) (hh : ∀ k ∈ objKeys nodeSet, NoHyphen k) :
    (rebuildRoutes greatCircle nodeSet w).ROUTE_MAP =
      (allPairs (objKeys nodeSet)).flatMap (pairEntries greatCircle nodeSet) := by
  unfold rebuildRoutes
  rw [foldl_rebuildRoutesStep_map]
  · simp
  · simp only [objKeys, List.map_nil, List.nil_append]
    have := objKeys_pairEntries greatCircle nodeSet (allPairs (objKeys nodeSet))
      (fun p hp => mem_allPairs hp)
    simp only [objKeys] at this
    rw [this]
    exact nodup_routeKeys hnd hh

theorem rebuildRoutes_frame (greatCircle : Node → Node → List Coord) (nodeSet : NodeSet)
    (w : World) :
    rebuildRoutes greatCircle nodeSet w =
      { w with ROUTES := (rebuildRoutes greatCircle nodeSet w).ROUTES
               ROUTE_MAP := (rebuildRoutes greatCircle nodeSet w).ROUTE_MAP } := by
  unfold rebuildRoutes
  generalize (allPairs (objKeys nodeSet)) = ps
  have key : ∀ (ps : List (String × String)) (w0 w1 : World),
      w1 = { w0 with ROUTES := w1.ROUTES, ROUTE_MAP := w1.ROUTE_MAP } →
      ps.foldl (rebuildRoutesStep greatCircle nodeSet) w1 =
        { w0 with
          ROUTES := (ps.foldl (rebuildRoutesStep greatCircle nodeSet) w1).ROUTES
          ROUTE_MAP := (ps.foldl (rebuildRoutesStep greatCircle nodeSet) w1).ROUTE_MAP } := by
    intro ps
    induction ps with
    | nil => intro w0 w1 h; simpa using h
    | cons p ps ih =>
        intro w0 w1 h
        rw [List.foldl_cons]
        apply ih
        unfold rebuildRoutesStep
        split
        · rw [h]
        · exact h
  exact key ps w _ rfl

/-! ## C1 -/

/-- C1, as amended: for every node set whose `n` identifiers are distinct and free of
the hyphen that joins route keys, and whatever the world held before,
`rebuildRoutes(nodeSet)` leaves a cache of exactly `n * (n - 1)` entries under distinct
keys, the keys are exactly the `A-B` with `A`, `B` distinct identifiers of the set, and
the entry under `B-A` is the reverse of the entry under `A-B`. -/
theorem rebuildRoutes_complete_symmetric (greatCircle : Node → Node → List Coord)
    (nodeSet : NodeSet) (w : World) (hnd : (objKeys nodeSet).Nodup)
    (hh : ∀ k ∈ objKeys nodeSet, NoHyphen k) :
    ((rebuildRoutes greatCircle nodeSet w).ROUTE_MAP.length =
        (objKeys nodeSet).length * ((objKeys nodeSet).length - 1)) ∧
    (objKeys (rebuildRoutes greatCircle nodeSet w).ROUTE_MAP).Nodup ∧
    (∀ key, key ∈ objKeys (rebuildRoutes greatCircle nodeSet w).ROUTE_MAP ↔
        ∃ A B, A ∈ objKeys nodeSet ∧ B ∈ objKeys nodeSet ∧ A ≠ B ∧ key = routeKey A B) ∧
    (∀ A B, A ∈ objKeys nodeSet → B ∈ objKeys nodeSet → A ≠ B →
        ∃ c, mapGet (rebuildRoutes greatCircle nodeSet w).ROUTE_MAP (routeKey A B) = some c ∧
          mapGet (rebuildRoutes greatCircle nodeSet w).ROUTE_MAP (routeKey B A) =
            some c.reverse) := by
  have hkeys : objKeys (rebuildRoutes greatCircle nodeSet w).ROUTE_MAP =
      (directedPairs (objKeys nodeSet)).map (fun p => routeKey p.1 p.2) := by
    rw [rebuildRoutes_map greatCircle nodeSet w hnd hh]
    exact objKeys_pairEntries greatCircle nodeSet _ (fun p hp => mem_allPairs hp)
  have hndk : (objKeys (rebuildRoutes greatCircle nodeSet w).ROUTE_MAP).Nodup := by
    rw [hkeys]; exact nodup_routeKeys hnd hh
  refine ⟨?_, hndk, ?_, ?_⟩
  · have := congrArg List.length hkeys
    simpa [objKeys, directedPairs_length] using this
  · intro key
    rw [hkeys, List.mem_map]
    constructor
    · rintro ⟨⟨A, B⟩, hp, rfl⟩
      have := (mem_directedPairs hnd A B).1 hp
      exact ⟨A, B, this.1, this.2.1, this.2.2, rfl⟩
    · rintro ⟨A, B, hA, hB, hne, rfl⟩
      exact ⟨(A, B), (mem_directedPairs hnd A B).2 ⟨hA, hB, hne⟩, rfl⟩
  · have hmem : ∀ p ∈ allPairs (objKeys nodeSet), ∃ c,
        mapGet (rebuildRoutes greatCircle nodeSet w).ROUTE_MAP (routeKey p.1 p.2) = some c ∧
        mapGet (rebuildRoutes greatCircle nodeSet w).ROUTE_MAP (routeKey p.2 p.1) =
          some c.reverse := by
      intro p hp
      obtain ⟨a, ha⟩ := (objGet_isSome_iff nodeSet p.1).2 (mem_allPairs hp).1
      obtain ⟨b, hb⟩ := (objGet_isSome_iff nodeSet p.2).2 (mem_allPairs hp).2
      have hin : ∀ e ∈ pairEntries greatCircle nodeSet p,
          e ∈ (rebuildRoutes greatCircle nodeSet w).ROUTE_MAP := by
        intro e he
        rw [rebuildRoutes_map greatCircle nodeSet w hnd hh]
        exact List.mem_flatMap.2 ⟨p, hp, he⟩
      have he : pairEntries greatCircle nodeSet p =
          [(routeKey p.1 p.2, greatCircle a b),
           (routeKey p.2 p.1, (greatCircle a b).reverse)] := by
        simp [pairEntries, ha, hb]
      refine ⟨greatCircle a b, objGet_of_mem hndk (hin _ ?_), objGet_of_mem hndk (hin _ ?_)⟩
      · rw [he]; exact List.mem_cons_self _ _
      · rw [he]; exact List.mem_cons_of_mem _ (List.mem_cons_self _ _)
    intro A B hA hB hne
    rcases allPairs_total hA hB hne with h | h
    · exact hmem (A, B) h
    · obtain ⟨c, h1, h2⟩ := hmem (B, A) h
      exact ⟨c.reverse, h2, by simpa using h1⟩

/-- C1 on the five default ports: twenty entries. -/
theorem rebuildRoutes_complete_symmetric_witness :
    (objKeys NODES).Nodup ∧ (∀ k ∈ objKeys NODES, NoHyphen k) ∧
    (rebuildRoutes straightLine NODES initWorld).ROUTE_MAP.length = 5 * (5 - 1) :=
  ⟨by decide, by decide,
    (rebuildRoutes_complete_symmetric straightLine NODES initWorld
      (by decide) (by decide)).1⟩

/-- C1 as stated fails when an identifier holds a hyphen: for the two distinct
identifiers `SG` and `SG-SG` both directions get the key `SG-SG-SG`, so the cache ends
with one entry instead of `2 * (2 - 1)`, and the entry read under `B-A` is not the
reverse of the entry read under `A-B`. -/
theorem rebuildRoutes_hyphen_counterexample :
    (objKeys hyphenNodes).Nodup ∧
    (rebuildRoutes straightLine hyphenNodes initWorld).ROUTE_MAP.length ≠
      (objKeys hyphenNodes).length * ((objKeys hyphenNodes).length - 1) ∧
    mapGet (rebuildRoutes straightLine hyphenNodes initWorld).ROUTE_MAP
        (routeKey "SG-SG" "SG") ≠
      (mapGet (rebuildRoutes straightLine hyphenNodes initWorld).ROUTE_MAP
        (routeKey "SG" "SG-SG")).map List.reverse := by
  refine ⟨by decide, by decide, by decide⟩

/-! ## Symmetry of the route cache -/

theorem noHyphen_of_catalog {k : String} (h : k ∈ catalogCodes) : NoHyphen k := by
  have : ∀ k ∈ catalogCodes, NoHyphen k := by decide
  exact this k h

theorem noHyphen_of_routeKey_eq {A B X Y : String} (hX : NoHyphen X) (hY : NoHyphen Y)
    (h : routeKey A B = routeKey X Y) : NoHyphen A ∧ NoHyphen B := by
  have hd := congrArg (fun s => List.count '-' s.data) h
  simp only [routeKey_data, List.count_append, List.count_cons_self] at hd
  rw [List.count_eq_zero.2 hX, List.count_eq_zero.2 hY] at hd
  have hA : List.count '-' A.data = 0 := by omega
  have hB : List.count '-' B.data = 0 := by omega
  exact ⟨List.count_eq_zero.1 hA, List.count_eq_zero.1 hB⟩

theorem cacheSym_nil : CacheSym [] := by
  refine ⟨by simp [objKeys], ?_⟩
  intro A B c _ _ h
  simp [mapGet, objGet] at h

theorem mapGet_storeBoth (m : RouteMap) (A B : String) (c : List Coord) (k : String) :
    mapGet (storeBoth m A B c) k =
      if routeKey B A = k then some c.reverse
      else if routeKey A B = k then some c else mapGet m k := by
  simp [storeBoth, mapGet_mapSet]

theorem mem_objKeys_storeBoth (m : RouteMap) (A B : String) (c : List Coord) (k : String) :
    k ∈ objKeys (storeBoth m A B c) ↔ k = routeKey B A ∨ k = routeKey A B ∨ k ∈ objKeys m := by
  simp [storeBoth, mem_objKeys_mapSet]

theorem cacheSym_storeBoth {m : RouteMap} (hm : CacheSym m) {A B : String}
    (hA : NoHyphen A) (hB : NoHyphen B) (c : List Coord) (hc : A = B → c.reverse = c) :
    CacheSym (storeBoth m A B c) := by
  refine ⟨?_, ?_⟩
  · intro key hkey
    rcases (mem_objKeys_storeBoth m A B c key).1 hkey with h | h | h
    · exact ⟨B, A, hB, hA, h⟩
    · exact ⟨A, B, hA, hB, h⟩
    · exact hm.1 key h
  · intro X Y c' hX hY h
    rw [mapGet_storeBoth] at h ⊢
    by_cases h1 : routeKey B A = routeKey X Y
    · obtain ⟨rfl, rfl⟩ := routeKey_inj hB hX h1
      rw [if_pos h1] at h
      cases h
      by_cases h2 : routeKey B A = routeKey A B
      · have := (routeKey_inj hB hA h2).1
        rw [if_pos h2, List.reverse_reverse, hc this.symm]
      · rw [if_neg h2, if_pos rfl, List.reverse_reverse]
    · rw [if_neg h1] at h
      by_cases h2 : routeKey A B = routeKey X Y
      · obtain ⟨rfl, rfl⟩ := routeKey_inj hA hX h2
        rw [if_pos h2] at h
        cases h
        rw [if_pos rfl]
      · rw [if_neg h2] at h
        have h3 : ¬ routeKey B A = routeKey Y X := by
          intro e
          obtain ⟨rfl, rfl⟩ := routeKey_inj hB hY e
          exact h2 rfl
        have h4 : ¬ routeKey A B = routeKey Y X := by
          intro e
          obtain ⟨rfl, rfl⟩ := routeKey_inj hA hY e
          exact h1 rfl
        rw [if_neg h3, if_neg h4]
        exact hm.2 X Y c' hX hY h

theorem cacheSym_hit {m : RouteMap} (hm : CacheSym m) {A B : String} {c : List Coord}
    (h : mapGet m (routeKey A B) = some c) :
    mapGet m (routeKey B A) = some c.reverse := by
  have hk : routeKey A B ∈ objKeys m := (objGet_isSome_iff m _).1 ⟨c, h⟩
  obtain ⟨X, Y, hX, hY, e⟩ := hm.1 _ hk
  obtain ⟨hA, hB⟩ := noHyphen_of_routeKey_eq hX hY e
  exact hm.2 A B c hA hB h

theorem cacheSym_miss {m : RouteMap} (hm : CacheSym m) {A B : String}
    (h : mapGet m (routeKey A B) = none) : mapGet m (routeKey B A) = none := by
  cases h' : mapGet m (routeKey B A) with
  | none => rfl
  | some c => rw [cacheSym_hit hm h'] at h; cases h

/-! ## The invariant is kept by the route-cache functions -/

theorem routeInv_of_eq {w w' : World} (h1 : w'.currentNodes = w.currentNodes)
    (h2 : w'.ROUTE_MAP = w.ROUTE_MAP) (h : RouteInv w) : RouteInv w' := by
  unfold RouteInv NodesOK at *
  rw [h1, h2]
  exact h

theorem getArcCoordsOwn_frame (greatCircle : Node → Node → List Coord) (A B : String)
    (w : World) :
    (getArcCoordsOwn greatCircle A B w).2 =
      { w with ROUTE_MAP := (getArcCoordsOwn greatCircle A B w).2.ROUTE_MAP } := by
  unfold getArcCoordsOwn
  split
  · rfl
  · split <;> rfl

@[simp]
theorem getArcCoordsOwn_currentNodes (greatCircle : Node → Node → List Coord)
    (A B : String) (w : World) :
    (getArcCoordsOwn greatCircle A B w).2.currentNodes = w.currentNodes := by
  rw [getArcCoordsOwn_frame]

@[simp]
theorem getArcCoordsOwn_SHIPS (greatCircle : Node → Node → List Coord)
    (A B : String) (w : World) :
    (getArcCoordsOwn greatCircle A B w).2.SHIPS = w.SHIPS := by
  rw [getArcCoordsOwn_frame]

@[simp]
theorem getArcCoordsOwn_DISRUPTED (greatCircle : Node → Node → List Coord)
    (A B : String) (w : World) :
    (getArcCoordsOwn greatCircle A B w).2.DISRUPTED = w.DISRUPTED := by
  rw [getArcCoordsOwn_frame]

@[simp]
theorem getArcCoordsOwn_randCalls (greatCircle : Node → Node → List Coord)
    (A B : String) (w : World) :
    (getArcCoordsOwn greatCircle A B w).2.randCalls = w.randCalls := by
  rw [getArcCoordsOwn_frame]

@[simp]
theorem getArcCoordsOwn_msgs (greatCircle : Node → Node → List Coord)
    (A B : String) (w : World) :
    (getArcCoordsOwn greatCircle A B w).2.msgs = w.msgs := by
  rw [getArcCoordsOwn_frame]

theorem objGet_mem_keys {β : Type} {m : List (String × β)} {k : String} {v : β}
    (h : objGet m k = some v) : k ∈ objKeys m :=
  (objGet_isSome_iff m k).1 ⟨v, h⟩

theorem getArcCoordsOwn_inv {greatCircle : Node → Node → List Coord}
    (hself : ∀ a, (greatCircle a a).reverse = greatCircle a a) {w : World}
    (h : RouteInv w) (A B : String) : RouteInv (getArcCoordsOwn greatCircle A B w).2 := by
  refine ⟨by simpa [NodesOK] using h.1, ?_⟩
  unfold getArcCoordsOwn
  cases hc : mapGet w.ROUTE_MAP (routeKey A B) with
  | some c => exact h.2
  | none =>
      cases ha : objGet w.currentNodes A with
      | none => exact h.2
      | some a =>
          cases hb : objGet w.currentNodes B with
          | none => exact h.2
          | some b =>
              simp only
              refine cacheSym_storeBoth h.2 (noHyphen_of_catalog (h.1.2 _ (objGet_mem_keys ha)))
                (noHyphen_of_catalog (h.1.2 _ (objGet_mem_keys hb))) _ ?_
              intro e
              subst e
              rw [ha] at hb
              cases hb
              exact hself a

theorem rebuildRoutesFromPairsOwn_inv {greatCircle : Node → Node → List Coord}
    (hself : ∀ a, (greatCircle a a).reverse = greatCircle a a) {w : World}
    (h : RouteInv w) (pairs : List (String × String)) :
    RouteInv (rebuildRoutesFromPairsOwn greatCircle pairs w) := by
  unfold rebuildRoutesFromPairsOwn
  have h0 : RouteInv { w with ROUTES := [], ROUTE_MAP := [] } := ⟨h.1, cacheSym_nil⟩
  generalize ({ w with ROUTES := [], ROUTE_MAP := [] } : World) = w0 at h0
  induction pairs generalizing w0 with
  | nil => exact h0
  | cons p ps ih =>
      rw [List.foldl_cons]
      apply ih
      have := getArcCoordsOwn_inv hself h0 p.1 p.2
      unfold rebuildRoutesFromPairsStepOwn
      simp only
      split
      · exact this
      · exact routeInv_of_eq rfl rfl this

theorem rebuildRoutes_inv {greatCircle : Node → Node → List Coord}
    (hself : ∀ a, (greatCircle a a).reverse = greatCircle a a) {w : World}
    (h : RouteInv w) : RouteInv (rebuildRoutes greatCircle w.currentNodes w) := by
  refine ⟨?_, ?_⟩
  · rw [rebuildRoutes_frame]; exact h.1
  · unfold rebuildRoutes
    have h0 : CacheSym ({ w with ROUTES := [], ROUTE_MAP := [] } : World).ROUTE_MAP :=
      cacheSym_nil
    generalize ({ w with ROUTES := [], ROUTE_MAP := [] } : World) = w0 at h0
    have hps : ∀ p ∈ allPairs (objKeys w.currentNodes),
        p.1 ∈ objKeys w.currentNodes ∧ p.2 ∈ objKeys w.currentNodes :=
      fun p hp => mem_allPairs hp
    generalize allPairs (objKeys w.currentNodes) = ps at hps
    induction ps generalizing w0 with
    | nil => exact h0
    | cons p ps ih =>
        rw [List.foldl_cons]
        apply ih _ _ (fun q hq => hps q (List.mem_cons_of_mem _ hq))
        unfold rebuildRoutesStep
        cases ha : objGet w.currentNodes p.1 with
        | none => exact h0
        | some a =>
            cases hb : objGet w.currentNodes p.2 with
            | none => exact h0
            | some b =>
                simp only
                refine cacheSym_storeBoth h0
                  (noHyphen_of_catalog (h.1.2 _ (objGet_mem_keys ha)))
                  (noHyphen_of_catalog (h.1.2 _ (objGet_mem_keys hb))) _ ?_
                intro e
                rw [e, hb] at ha
                cases ha
                exact hself a

/-! ## The invariant is kept by the mover registry -/

@[simp]
theorem spawnShipOwn_currentNodes (greatCircle : Node → Node → List Coord) (rand : Nat → ℚ)
    (id A B : String) (w : World) :
    (spawnShipOwn greatCircle rand id A B w).currentNodes = w.currentNodes := by
  unfold spawnShipOwn
  simp only
  split <;> simp

theorem spawnShipOwn_ROUTE_MAP (greatCircle : Node → Node → List Coord) (rand : Nat → ℚ)
    (id A B : String) (w : World) :
    (spawnShipOwn greatCircle rand id A B w).ROUTE_MAP =
      (getArcCoordsOwn greatCircle A B w).2.ROUTE_MAP := by
  unfold spawnShipOwn
  simp only
  split <;> rfl

@[simp]
theorem spawnShipOwn_DISRUPTED (greatCircle : Node → Node → List Coord) (rand : Nat → ℚ)
    (id A B : String) (w : World) :
    (spawnShipOwn greatCircle rand id A B w).DISRUPTED = w.DISRUPTED := by
  unfold spawnShipOwn
  simp only
  split <;> simp

theorem spawnShipOwn_inv {greatCircle : Node → Node → List Coord} (rand : Nat → ℚ)
    (hself : ∀ a, (greatCircle a a).reverse = greatCircle a a) {w : World}
    (h : RouteInv w) (id A B : String) : RouteInv (spawnShipOwn greatCircle rand id A B w) :=
  routeInv_of_eq (by simp) (spawnShipOwn_ROUTE_MAP greatCircle rand id A B w)
    (getArcCoordsOwn_inv hself h A B)

theorem foldl_spawnBothOwn_induction (greatCircle : Node → Node → List Coord)
    (rand : Nat → ℚ) (P : World → Prop)
    (hP : ∀ id A B w, P w → P (spawnShipOwn greatCircle rand id A B w)) :
    ∀ (ps : List (String × String)) (s : World × Nat), P s.1 →
      P (ps.foldl (spawnBothOwn greatCircle rand) s).1 := by
  intro ps
  induction ps with
  | nil => intro s h; exact h
  | cons p ps ih =>
      intro s h
      rw [List.foldl_cons]
      apply ih
      exact hP _ _ _ _ (hP _ _ _ _ h)

theorem buildShipsForPairsOwn_inv {greatCircle : Node → Node → List Coord} (rand : Nat → ℚ)
    (hself : ∀ a, (greatCircle a a).reverse = greatCircle a a) {w : World}
    (h : RouteInv w) (pairs : List (String × String)) :
    RouteInv (buildShipsForPairsOwn greatCircle rand pairs w) :=
  foldl_spawnBothOwn_induction greatCircle rand RouteInv
    (fun id A B _ hw => spawnShipOwn_inv rand hself hw id A B) pairs _
    (routeInv_of_eq rfl rfl h)

theorem buildShipsForNodesOwn_inv {greatCircle : Node → Node → List Coord} (rand : Nat → ℚ)
    (hself : ∀ a, (greatCircle a a).reverse = greatCircle a a) {w : World}
    (h : RouteInv w) (nodeSet : NodeSet) :
    RouteInv (buildShipsForNodesOwn greatCircle rand nodeSet w) :=
  foldl_spawnBothOwn_induction greatCircle rand RouteInv
    (fun id A B _ hw => spawnShipOwn_inv rand hself hw id A B) _ _
    (routeInv_of_eq rfl rfl h)

/-! ## Reads through the prototype chain -/

theorem objRead_inherited_iff (obj : NodeSet) (k : String) :
    objRead obj k = .inherited ↔ k ∉ objKeys obj ∧ k ∈ prototypeNames := by
  unfold objRead
  cases h : objGet obj k with
  | some n =>
      have hk : k ∈ objKeys obj := (objGet_isSome_iff obj k).1 ⟨n, h⟩
      simp [hk]
  | none =>
      have hk : k ∉ objKeys obj := (objGet_eq_none_iff obj k).1 h
      by_cases hp : k ∈ prototypeNames <;> simp [hk, hp]

theorem objRead_of_mem {obj : NodeSet} {k : String} (h : k ∈ objKeys obj) :
    objRead obj k ≠ .inherited :=
  fun e => ((objRead_inherited_iff obj k).1 e).1 h

theorem objRead_of_not_prototype (obj : NodeSet) {k : String} (h : k ∉ prototypeNames) :
    objRead obj k ≠ .inherited :=
  fun e => h ((objRead_inherited_iff obj k).1 e).2

/-- A call of `getArcCoords` returns what the function on own properties returns, or
it throws on an inherited member, in which case the function on own properties
returns `[]`; either way the state is left the same. -/
theorem getArcCoords_cases (greatCircle : Node → Node → List Coord) (A B : String)
    (w : World) :
    getArcCoords greatCircle A B w =
        .ok (getArcCoordsOwn greatCircle A B w).1 (getArcCoordsOwn greatCircle A B w).2 ∨
      (getArcCoords greatCircle A B w = .threw w ∧
        getArcCoordsOwn greatCircle A B w = ([], w) ∧
        (objRead w.currentNodes A = .inherited ∨ objRead w.currentNodes B = .inherited)) := by
  unfold getArcCoords getArcCoordsOwn
  cases hm : mapGet w.ROUTE_MAP (routeKey A B) with
  | some c => exact Or.inl rfl
  | none =>
      unfold objRead
      cases ha : objGet w.currentNodes A with
      | some a =>
          cases hb : objGet w.currentNodes B with
          | some b => exact Or.inl rfl
          | none =>
              by_cases hB : B ∈ prototypeNames
              · simp [hB]
              · simp [hB]
      | none =>
          by_cases hA : A ∈ prototypeNames
          · cases hb : objGet w.currentNodes B with
            | some b => simp [hA]
            | none =>
                by_cases hB : B ∈ prototypeNames
                · simp [hA, hB]
                · simp [hA, hB]
          · simp [hA]

theorem getArcCoords_world (greatCircle : Node → Node → List Coord) (A B : String)
    (w : World) :
    (getArcCoords greatCircle A B w).world = (getArcCoordsOwn greatCircle A B w).2 := by
  rcases getArcCoords_cases greatCircle A B w with h | ⟨h, h', _⟩
  · rw [h]; rfl
  · rw [h, h']; rfl

theorem getArcCoords_plain (greatCircle : Node → Node → List Coord) {A B : String}
    {w : World} (hA : objRead w.currentNodes A ≠ .inherited)
    (hB : objRead w.currentNodes B ≠ .inherited) :
    getArcCoords greatCircle A B w =
      .ok (getArcCoordsOwn greatCircle A B w).1 (getArcCoordsOwn greatCircle A B w).2 := by
  rcases getArcCoords_cases greatCircle A B w with h | ⟨_, _, h | h⟩
  · exact h
  · exact absurd h hA
  · exact absurd h hB

theorem getArcCoords_of_long (greatCircle : Node → Node → List Coord) {A B : String}
    {w : World} (h : 2 ≤ (getArcCoordsOwn greatCircle A B w).1.length) :
    getArcCoords greatCircle A B w =
      .ok (getArcCoordsOwn greatCircle A B w).1 (getArcCoordsOwn greatCircle A B w).2 := by
  rcases getArcCoords_cases greatCircle A B w with h1 | ⟨_, h1, _⟩
  · exact h1
  · rw [h1] at h
    simp at h

theorem getArcCoords_ok {greatCircle : Node → Node → List Coord} {A B : String}
    {w w1 : World} {c : List Coord} (h : getArcCoords greatCircle A B w = .ok c w1) :
    getArcCoordsOwn greatCircle A B w = (c, w1) := by
  rcases getArcCoords_cases greatCircle A B w with h1 | ⟨h1, _, _⟩
  · rw [h1] at h
    injection h with h2 h3
    exact Prod.ext h2 h3
  · rw [h1] at h
    cases h

theorem spawnShip_of_arc (greatCircle : Node → Node → List Coord) (rand : Nat → ℚ)
    (id : String) {A B : String} {w : World}
    (h : getArcCoords greatCircle A B w =
      .ok (getArcCoordsOwn greatCircle A B w).1 (getArcCoordsOwn greatCircle A B w).2) :
    spawnShip greatCircle rand id A B w = .ok () (spawnShipOwn greatCircle rand id A B w) := by
  unfold spawnShip spawnShipOwn
  rw [h]
  simp only
  split <;> rfl

/-- The loop `spawnPairs` runs to its end, as the loop on own properties does, when no
pair names an inherited member. -/
theorem spawnPairs_plain (greatCircle : Node → Node → List Coord) (rand : Nat → ℚ)
    (nodes : NodeSet) :
    ∀ (ps : List (String × String)) (idx : Nat) (w : World), w.currentNodes = nodes →
      (∀ p ∈ ps, objRead nodes p.1 ≠ .inherited ∧ objRead nodes p.2 ≠ .inherited) →
      spawnPairs greatCircle rand ps idx w =
        .ok () (ps.foldl (spawnBothOwn greatCircle rand) (w, idx)).1 := by
  intro ps
  induction ps with
  | nil => intro idx w _ _; rfl
  | cons p ps ih =>
      intro idx w hw hps
      have hp := hps p (List.mem_cons_self _ _)
      have h1 : spawnShip greatCircle rand ("V" ++ toString idx) p.1 p.2 w =
          .ok () (spawnShipOwn greatCircle rand ("V" ++ toString idx) p.1 p.2 w) :=
        spawnShip_of_arc greatCircle rand _
          (getArcCoords_plain greatCircle (hw ▸ hp.1) (hw ▸ hp.2))
      have hw1 : (spawnShipOwn greatCircle rand ("V" ++ toString idx) p.1 p.2 w).currentNodes =
          nodes := by rw [spawnShipOwn_currentNodes, hw]
      have h2 : spawnShip greatCircle rand ("V" ++ toString (idx + 1)) p.2 p.1
            (spawnShipOwn greatCircle rand ("V" ++ toString idx) p.1 p.2 w) =
          .ok () (spawnShipOwn greatCircle rand ("V" ++ toString (idx + 1)) p.2 p.1
            (spawnShipOwn greatCircle rand ("V" ++ toString idx) p.1 p.2 w)) :=
        spawnShip_of_arc greatCircle rand _
          (getArcCoords_plain greatCircle (hw1 ▸ hp.2) (hw1 ▸ hp.1))
      unfold spawnPairs
      rw [h1]
      simp only
      rw [h2]
      simp only
      rw [ih (idx + 2) _ (by rw [spawnShipOwn_currentNodes, hw1])
        (fun q hq => hps q (List.mem_cons_of_mem _ hq))]
      rfl

theorem buildShipsForPairs_plain (greatCircle : Node → Node → List Coord) (rand : Nat → ℚ)
    {pairs : List (String × String)} {w : World}
    (h : ∀ p ∈ pairs, objRead w.currentNodes p.1 ≠ .inherited ∧
      objRead w.currentNodes p.2 ≠ .inherited) :
    buildShipsForPairs greatCircle rand pairs w =
      .ok () (buildShipsForPairsOwn greatCircle rand pairs w) :=
  spawnPairs_plain greatCircle rand w.currentNodes pairs 1 _ rfl h

/-- Spawning for the active node set itself reads own properties only. -/
theorem buildShipsForNodes_self (greatCircle : Node → Node → List Coord) (rand : Nat → ℚ)
    (w : World) :
    buildShipsForNodes greatCircle rand w.currentNodes w =
      .ok () (buildShipsForNodesOwn greatCircle rand w.currentNodes w) :=
  spawnPairs_plain greatCircle rand w.currentNodes _ 1 _ rfl
    (fun _ hp => ⟨objRead_of_mem (mem_allPairs hp).1, objRead_of_mem (mem_allPairs hp).2⟩)

theorem rebuildRoutesFromPairsStepOwn_nodes (greatCircle : Node → Node → List Coord)
    (w : World) (p : String × String) :
    (rebuildRoutesFromPairsStepOwn greatCircle w p).currentNodes = w.currentNodes := by
  unfold rebuildRoutesFromPairsStepOwn
  simp only
  split
  · exact getArcCoordsOwn_currentNodes greatCircle _ _ w
  · exact getArcCoordsOwn_currentNodes greatCircle _ _ w

theorem rebuildRoutesFromPairsStep_of_arc (greatCircle : Node → Node → List Coord)
    (p : String × String) (rest : List (String × String)) (w : World)
    (h : getArcCoords greatCircle p.1 p.2 w =
      .ok (getArcCoordsOwn greatCircle p.1 p.2 w).1 (getArcCoordsOwn greatCircle p.1 p.2 w).2) :
    rebuildRoutesFromPairsLoop greatCircle (p :: rest) w =
      rebuildRoutesFromPairsLoop greatCircle rest (rebuildRoutesFromPairsStepOwn greatCircle w p) := by
  rw [rebuildRoutesFromPairsLoop, h]
  unfold rebuildRoutesFromPairsStepOwn
  simp only
  split <;> rfl

theorem rebuildRoutesFromPairsLoop_plain (greatCircle : Node → Node → List Coord)
    (nodes : NodeSet) :
    ∀ (ps : List (String × String)) (w : World), w.currentNodes = nodes →
      (∀ p ∈ ps, objRead nodes p.1 ≠ .inherited ∧ objRead nodes p.2 ≠ .inherited) →
      rebuildRoutesFromPairsLoop greatCircle ps w =
        .ok () (ps.foldl (rebuildRoutesFromPairsStepOwn greatCircle) w) := by
  intro ps
  induction ps with
  | nil => intro w _ _; rfl
  | cons p ps ih =>
      intro w hw hps
      have hp := hps p (List.mem_cons_self _ _)
      rw [rebuildRoutesFromPairsStep_of_arc greatCircle p ps w
        (getArcCoords_plain greatCircle (hw ▸ hp.1) (hw ▸ hp.2)), List.foldl_cons]
      exact ih _ (by rw [rebuildRoutesFromPairsStepOwn_nodes, hw])
        (fun q hq => hps q (List.mem_cons_of_mem _ hq))

theorem rebuildRoutesFromPairs_plain (greatCircle : Node → Node → List Coord)
    {pairs : List (String × String)} {w : World}
    (h : ∀ p ∈ pairs, objRead w.currentNodes p.1 ≠ .inherited ∧
      objRead w.currentNodes p.2 ≠ .inherited) :
    rebuildRoutesFromPairs greatCircle pairs w =
      .ok () (rebuildRoutesFromPairsOwn greatCircle pairs w) :=
  rebuildRoutesFromPairsLoop_plain greatCircle w.currentNodes pairs _ rfl h

/-- However `rebuildRoutesFromPairs` ends, it leaves the state that the function on
own properties leaves on the pairs it has gone through. -/
theorem rebuildRoutesFromPairs_world (greatCircle : Node → Node → List Coord)
    (pairs : List (String × String)) (w : World) :
    ∃ done : List (String × String),
      (rebuildRoutesFromPairs greatCircle pairs w).world =
        rebuildRoutesFromPairsOwn greatCircle done w := by
  unfold rebuildRoutesFromPairs rebuildRoutesFromPairsOwn
  generalize ({ w with ROUTES := [], ROUTE_MAP := [] } : World) = w0
  suffices h : ∀ (ps : List (String × String)) (w1 : World),
      ∃ done : List (String × String),
        (rebuildRoutesFromPairsLoop greatCircle ps w1).world =
          done.foldl (rebuildRoutesFromPairsStepOwn greatCircle) w1 from h pairs w0
  intro ps
  induction ps with
  | nil => intro w1; exact ⟨[], rfl⟩
  | cons p ps ih =>
      intro w1
      rcases getArcCoords_cases greatCircle p.1 p.2 w1 with h | ⟨h, _, _⟩
      · obtain ⟨done, hd⟩ := ih (rebuildRoutesFromPairsStepOwn greatCircle w1 p)
        refine ⟨p :: done, ?_⟩
        rw [rebuildRoutesFromPairsStep_of_arc greatCircle p ps w1 h, hd, List.foldl_cons]
      · refine ⟨[], ?_⟩
        rw [rebuildRoutesFromPairsLoop, h]
        rfl

/-- The loop `buildForward` runs to its end, as the loop on own properties does, when
no leg names an inherited member. -/
theorem buildForward_plain (greatCircle : Node → Node → List Coord) :
    ∀ (legs : List (String × String)) (i : Nat) (forward : List Coord) (w : World),
      (∀ leg ∈ legs, leg.1 ∉ prototypeNames ∧ leg.2 ∉ prototypeNames) →
      buildForward greatCircle legs i forward w =
        .ok (buildForwardOwn greatCircle legs i forward w).1
          (buildForwardOwn greatCircle legs i forward w).2
  | [], _, _, _, _ => rfl
  | leg :: rest, i, forward, w, h => by
      have hl := h leg (List.mem_cons_self _ _)
      have hr : ∀ l ∈ rest, l.1 ∉ prototypeNames ∧ l.2 ∉ prototypeNames :=
        fun l hl => h l (List.mem_cons_of_mem _ hl)
      rw [buildForward, getArcCoords_plain greatCircle (objRead_of_not_prototype _ hl.1)
        (objRead_of_not_prototype _ hl.2)]
      unfold buildForwardOwn
      simp only
      split
      · exact buildForward_plain greatCircle rest _ _ _ hr
      · split
        · exact buildForward_plain greatCircle rest _ _ _ hr
        · exact buildForward_plain greatCircle rest _ _ _ hr

/-! ## The scenario actions read own properties only

The codes the scenario actions hand to `getArcCoords` are keys of the active node set
or one of `SG`, `VN`, `TH`, `HK`, so no call throws and each action is what it is with
the functions on own properties. -/

theorem applyCorrect_eq (greatCircle : Node → Node → List Coord) (w : World) :
    applyCorrect greatCircle w =
      if !w.DISRUPTED then pushMsg "No active disruption. Click Disrupt first." "system" w
      else
        let w1 := clearAlert (setFix (REROUTE_PATH.map (fun p => routeKey p.1 p.2)) w)
        let r := buildForwardOwn greatCircle REROUTE_PATH 0 [] w1
        let forward := r.1
        let backward := forward.reverse
        let w2 := { r.2 with SHIPS := r.2.SHIPS.map (correctShip forward backward) }
        match objGet w2.currentNodes "VN" with
        | some vn =>
            pushMsg ("✅ Correction applied: rerouting via " ++ vn.name ++
              " (green) and resuming voyages.") "system" w2
        | none => w2 := by
  unfold applyCorrect
  split
  · rfl
  · simp only [buildForward_plain greatCircle REROUTE_PATH 0 [] _ (by decide)]

theorem backToNormal_eq (greatCircle : Node → Node → List Coord) (rand : Nat → ℚ)
    (w : World) :
    backToNormal greatCircle rand w =
      let w1 := clearFix (clearAlert { w with DISRUPTED := false })
      let w2 := rebuildRoutes greatCircle w1.currentNodes w1
      let w3 := buildShipsForNodesOwn greatCircle rand w2.currentNodes w2
      pushMsg "Normal operations resumed. All sea lanes open." "system" w3 := by
  unfold backToNormal
  simp only [buildShipsForNodes_self]

theorem hubPairs_plain (nodes : NodeSet) :
    ∀ p ∈ hubPairs (objKeys nodes),
      objRead nodes p.1 ≠ .inherited ∧ objRead nodes p.2 ≠ .inherited := by
  intro p hp
  unfold hubPairs at hp
  obtain ⟨K, hK, rfl⟩ := List.mem_map.1 hp
  exact ⟨objRead_of_mem (List.mem_filter.1 hK).1,
    objRead_of_not_prototype nodes (show "HK" ∉ prototypeNames by decide)⟩

theorem rebuildRoutesFromPairsOwn_nodes (greatCircle : Node → Node → List Coord)
    (pairs : List (String × String)) (w : World) :
    (rebuildRoutesFromPairsOwn greatCircle pairs w).currentNodes = w.currentNodes := by
  unfold rebuildRoutesFromPairsOwn
  have h0 : ({ w with ROUTES := [], ROUTE_MAP := [] } : World).currentNodes = w.currentNodes :=
    rfl
  generalize ({ w with ROUTES := [], ROUTE_MAP := [] } : World) = w0 at h0
  induction pairs generalizing w0 with
  | nil => exact h0
  | cons p ps ih =>
      rw [List.foldl_cons]
      exact ih _ (by rw [rebuildRoutesFromPairsStepOwn_nodes, h0])

theorem applyHubHK_eq (greatCircle : Node → Node → List Coord) (rand : Nat → ℚ)
    (w : World) :
    applyHubHK greatCircle rand w =
      let w0 := ensureHK w
      let w1 := clearFix (clearAlert { w0 with DISRUPTED := false })
      let pairs := hubPairs (objKeys w1.currentNodes)
      let w2 := rebuildRoutesFromPairsOwn greatCircle pairs w1
      let w3 := buildShipsForPairsOwn greatCircle rand pairs w2
      pushMsg "🟡 Hub HK mode: all ports route via Hong Kong." "system" w3 := by
  unfold applyHubHK
  simp only
  rw [rebuildRoutesFromPairs_plain greatCircle (hubPairs_plain _)]
  simp only
  rw [buildShipsForPairs_plain greatCircle rand
    (by rw [rebuildRoutesFromPairsOwn_nodes]; exact hubPairs_plain _)]

theorem addPortByCode_eq (greatCircle : Node → Node → List Coord) (rand : Nat → ℚ)
    (code : Option String) (w : World) :
    addPortByCode greatCircle rand code w =
      let CODE := (code.getD "").toUpper
      match objGet NEW_PORTS CODE with
      | none => pushMsg ("Unknown code: " ++ code.getD "undefined") "system" w
      | some node =>
          match objGet w.currentNodes CODE with
          | some _ => pushMsg (node.name ++ " is already added.") "system" w
          | none =>
              let w1 := { w with currentNodes := mapSet w.currentNodes CODE node }
              let w2 := rebuildRoutes greatCircle w1.currentNodes w1
              let w3 := buildShipsForNodesOwn greatCircle rand w2.currentNodes w2
              pushMsg ("🆕 Added " ++ node.name ++
                ". New sea lanes to all ports are now active.") "system" w3 := by
  unfold addPortByCode
  simp only [buildShipsForNodes_self]

theorem boot_eq (greatCircle : Node → Node → List Coord) (rand : Nat → ℚ) :
    boot greatCircle rand =
      let w1 := rebuildRoutes greatCircle initWorld.currentNodes initWorld
      let w2 := buildShipsForNodesOwn greatCircle rand w1.currentNodes w1
      pushMsg ("Type Disrupt, Correct, Normal, Add PH, Add HK, or Hub HK to drive " ++
        "the sea ports simulation.") "system" w2 := by
  unfold boot
  simp only [buildShipsForNodes_self]

/-! ## The invariant is kept by the scenario actions -/

theorem pushMsg_inv (t kind : String) {w : World} (h : RouteInv w) :
    RouteInv (pushMsg t kind w) :=
  routeInv_of_eq rfl rfl h

theorem startDisrupt_inv {w : World} (h : RouteInv w) : RouteInv (startDisrupt w) := by
  unfold startDisrupt
  split
  · exact routeInv_of_eq rfl rfl h
  · simp only
    split <;> exact routeInv_of_eq rfl rfl h

theorem buildForwardOwn_inv {greatCircle : Node → Node → List Coord}
    (hself : ∀ a, (greatCircle a a).reverse = greatCircle a a) :
    ∀ (legs : List (String × String)) (i : Nat) (forward : List Coord) (w : World),
      RouteInv w → RouteInv (buildForwardOwn greatCircle legs i forward w).2
  | [], _, _, _, h => h
  | leg :: rest, i, forward, w, h => by
      have h1 := getArcCoordsOwn_inv hself h leg.1 leg.2
      unfold buildForwardOwn
      simp only
      split
      · exact buildForwardOwn_inv hself rest _ _ _ h1
      · split
        · exact buildForwardOwn_inv hself rest _ _ _ h1
        · exact buildForwardOwn_inv hself rest _ _ _ h1

theorem applyCorrect_inv {greatCircle : Node → Node → List Coord}
    (hself : ∀ a, (greatCircle a a).reverse = greatCircle a a) {w : World}
    (h : RouteInv w) : RouteInv (applyCorrect greatCircle w) := by
  rw [applyCorrect_eq]
  split
  · exact routeInv_of_eq rfl rfl h
  · have h1 : RouteInv (clearAlert (setFix (REROUTE_PATH.map (fun p => routeKey p.1 p.2)) w)) :=
      routeInv_of_eq rfl rfl h
    have h2 := buildForwardOwn_inv hself REROUTE_PATH 0 [] _ h1
    simp only
    split <;> exact routeInv_of_eq rfl rfl h2

theorem backToNormal_inv {greatCircle : Node → Node → List Coord} (rand : Nat → ℚ)
    (hself : ∀ a, (greatCircle a a).reverse = greatCircle a a) {w : World}
    (h : RouteInv w) : RouteInv (backToNormal greatCircle rand w) := by
  rw [backToNormal_eq]
  have h1 : RouteInv (clearFix (clearAlert { w with DISRUPTED := false })) :=
    routeInv_of_eq rfl rfl h
  have h2 := rebuildRoutes_inv hself h1
  have h3 := buildShipsForNodesOwn_inv rand hself h2
    (rebuildRoutes greatCircle (clearFix (clearAlert { w with DISRUPTED := false })).currentNodes
      (clearFix (clearAlert { w with DISRUPTED := false }))).currentNodes
  exact routeInv_of_eq rfl rfl h3

theorem nodesOK_insert {w : World} (h : NodesOK w) {k : String} (node : Node)
    (hk : objGet w.currentNodes k = none) (hc : k ∈ catalogCodes) :
    NodesOK { w with currentNodes := mapSet w.currentNodes k node } := by
  have hk' : k ∉ objKeys w.currentNodes := (objGet_eq_none_iff _ _).1 hk
  unfold NodesOK
  simp only [mapSet_of_not_mem _ _ _ hk', objKeys_append]
  refine ⟨?_, ?_⟩
  · refine List.Nodup.append h.1 (by simp [objKeys]) ?_
    simpa [objKeys, List.disjoint_left] using hk'
  · intro x hx
    rcases List.mem_append.1 hx with hx | hx
    · exact h.2 x hx
    · simp [objKeys] at hx
      rw [hx]; exact hc

theorem ensureHK_inv {w : World} (h : RouteInv w) : RouteInv (ensureHK w) := by
  unfold ensureHK
  cases hk : objGet w.currentNodes "HK" with
  | some _ => exact h
  | none =>
      simp only
      split
      · exact ⟨nodesOK_insert h.1 _ hk (by decide), h.2⟩
      · exact h

theorem applyHubHK_inv {greatCircle : Node → Node → List Coord} (rand : Nat → ℚ)
    (hself : ∀ a, (greatCircle a a).reverse = greatCircle a a) {w : World}
    (h : RouteInv w) : RouteInv (applyHubHK greatCircle rand w) := by
  rw [applyHubHK_eq]
  have h1 : RouteInv (clearFix (clearAlert { ensureHK w with DISRUPTED := false })) :=
    routeInv_of_eq rfl rfl (ensureHK_inv h)
  have h2 := rebuildRoutesFromPairsOwn_inv hself h1
    (hubPairs (objKeys (clearFix (clearAlert { ensureHK w with DISRUPTED := false })).currentNodes))
  have h3 := buildShipsForPairsOwn_inv rand hself h2
    (hubPairs (objKeys (clearFix (clearAlert { ensureHK w with DISRUPTED := false })).currentNodes))
  exact routeInv_of_eq rfl rfl h3

theorem newPorts_code {CODE : String} {node : Node} (h : objGet NEW_PORTS CODE = some node) :
    CODE ∈ catalogCodes := by
  have hk := objGet_mem_keys h
  have : ∀ k ∈ objKeys NEW_PORTS, k ∈ catalogCodes := by decide
  exact this _ hk

theorem addPortByCode_inv {greatCircle : Node → Node → List Coord} (rand : Nat → ℚ)
    (hself : ∀ a, (greatCircle a a).reverse = greatCircle a a) {w : World}
    (h : RouteInv w) (code : Option String) :
    RouteInv (addPortByCode greatCircle rand code w) := by
  rw [addPortByCode_eq]
  simp only
  cases hn : objGet NEW_PORTS (code.getD "").toUpper with
  | none => exact routeInv_of_eq rfl rfl h
  | some node =>
      cases hk : objGet w.currentNodes (code.getD "").toUpper with
      | some _ => exact routeInv_of_eq rfl rfl h
      | none =>
          simp only
          have h1 : RouteInv
              { w with currentNodes := mapSet w.currentNodes (code.getD "").toUpper node } :=
            ⟨nodesOK_insert h.1 _ hk (newPorts_code hn), h.2⟩
          have h2 := rebuildRoutes_inv hself h1
          have h3 := buildShipsForNodesOwn_inv rand hself h2
            (rebuildRoutes greatCircle
              (mapSet w.currentNodes (code.getD "").toUpper node)
              { w with currentNodes := mapSet w.currentNodes (code.getD "").toUpper node }).currentNodes
          exact routeInv_of_eq rfl rfl h3

theorem initWorld_inv : RouteInv initWorld := by
  refine ⟨⟨by decide, ?_⟩, cacheSym_nil⟩
  simp [initWorld, NODES, objKeys, catalogCodes]

theorem boot_inv {greatCircle : Node → Node → List Coord} (rand : Nat → ℚ)
    (hself : ∀ a, (greatCircle a a).reverse = greatCircle a a) :
    RouteInv (boot greatCircle rand) := by
  rw [boot_eq]
  have h2 := rebuildRoutes_inv hself initWorld_inv
  have h3 := buildShipsForNodesOwn_inv rand hself h2
    (rebuildRoutes greatCircle initWorld.currentNodes initWorld).currentNodes
  exact pushMsg_inv _ _ h3

/-- Every reachable state keeps the node set well formed and the cache symmetric. -/
theorem reachable_routeInv {greatCircle : Node → Node → List Coord} {rand : Nat → ℚ}
    (hself : ∀ a, (greatCircle a a).reverse = greatCircle a a) {w : World}
    (h : Reachable greatCircle rand w) : RouteInv w := by
  induction h with
  | boot => exact boot_inv rand hself
  | disrupt _ ih => exact startDisrupt_inv ih
  | correct _ ih => exact applyCorrect_inv hself ih
  | normal _ ih => exact backToNormal_inv rand hself ih
  | hub _ ih => exact applyHubHK_inv rand hself ih
  | addPort code _ ih => exact addPortByCode_inv rand hself ih code
  | frame elapsed zoom pxLen _ ih => exact routeInv_of_eq rfl rfl ih
  | echo t kind _ ih => exact pushMsg_inv t kind ih
  | rebuild _ ih => exact rebuildRoutes_inv hself ih
  | fromPairs pairs _ ih =>
      obtain ⟨done, hd⟩ := rebuildRoutesFromPairs_world greatCircle pairs _
      rw [hd]
      exact rebuildRoutesFromPairsOwn_inv hself ih done
  | getArc A B _ ih =>
      rw [getArcCoords_world]
      exact getArcCoordsOwn_inv hself ih A B

/-! ## Reversal on own properties -/

theorem getArcCoordsOwn_reverse_of_inv (greatCircle : Node → Node → List Coord) {w : World}
    (h : CacheSym w.ROUTE_MAP) (A B : String) :
    (getArcCoordsOwn greatCircle B A (getArcCoordsOwn greatCircle A B w).2).1 =
      (getArcCoordsOwn greatCircle A B w).1.reverse := by
  cases hc : mapGet w.ROUTE_MAP (routeKey A B) with
  | some c =>
      have h1 : getArcCoordsOwn greatCircle A B w = (c, w) := by
        simp [getArcCoordsOwn, hc]
      rw [h1]
      simp [getArcCoordsOwn, cacheSym_hit h hc]
  | none =>
      have hc' := cacheSym_miss h hc
      cases ha : objGet w.currentNodes A with
      | none =>
          have h1 : getArcCoordsOwn greatCircle A B w = ([], w) := by
            simp [getArcCoordsOwn, hc, ha]
          rw [h1]
          cases hb : objGet w.currentNodes B <;> simp [getArcCoordsOwn, hc', ha, hb]
      | some a =>
          cases hb : objGet w.currentNodes B with
          | none =>
              have h1 : getArcCoordsOwn greatCircle A B w = ([], w) := by
                simp [getArcCoordsOwn, hc, ha, hb]
              rw [h1]
              simp [getArcCoordsOwn, hc', ha, hb]
          | some b =>
              have h1 : getArcCoordsOwn greatCircle A B w =
                  (greatCircle a b,
                    { w with ROUTE_MAP := storeBoth w.ROUTE_MAP A B (greatCircle a b) }) := by
                simp [getArcCoordsOwn, hc, ha, hb]
              rw [h1]
              simp [getArcCoordsOwn, mapGet_storeBoth]

/-! ## Spawning -/

theorem getArcCoordsOwn_fst_congr (greatCircle : Node → Node → List Coord) (A B : String)
    {w w' : World} (h1 : w'.ROUTE_MAP = w.ROUTE_MAP) (h2 : w'.currentNodes = w.currentNodes) :
    (getArcCoordsOwn greatCircle A B w').1 = (getArcCoordsOwn greatCircle A B w).1 := by
  unfold getArcCoordsOwn
  rw [h1, h2]
  cases mapGet w.ROUTE_MAP (routeKey A B) with
  | some c => rfl
  | none =>
      cases objGet w.currentNodes A with
      | none => rfl
      | some a => cases objGet w.currentNodes B <;> rfl

theorem getArcCoordsOwn_after (greatCircle : Node → Node → List Coord) (X Y A B : String)
    (w : World) :
    (getArcCoordsOwn greatCircle A B (getArcCoordsOwn greatCircle X Y w).2).1 =
        (getArcCoordsOwn greatCircle A B w).1 ∨
    (getArcCoordsOwn greatCircle A B (getArcCoordsOwn greatCircle X Y w).2).1 =
        (getArcCoordsOwn greatCircle X Y w).1 ∨
    (getArcCoordsOwn greatCircle A B (getArcCoordsOwn greatCircle X Y w).2).1 =
        (getArcCoordsOwn greatCircle X Y w).1.reverse := by
  cases hc : mapGet w.ROUTE_MAP (routeKey X Y) with
  | some c =>
      have h1 : getArcCoordsOwn greatCircle X Y w = (c, w) := by simp [getArcCoordsOwn, hc]
      rw [h1]; exact Or.inl rfl
  | none =>
      cases ha : objGet w.currentNodes X with
      | none =>
          have h1 : getArcCoordsOwn greatCircle X Y w = ([], w) := by
            simp [getArcCoordsOwn, hc, ha]
          rw [h1]; exact Or.inl rfl
      | some a =>
          cases hb : objGet w.currentNodes Y with
          | none =>
              have h1 : getArcCoordsOwn greatCircle X Y w = ([], w) := by
                simp [getArcCoordsOwn, hc, ha, hb]
              rw [h1]; exact Or.inl rfl
          | some b =>
              have h1 : getArcCoordsOwn greatCircle X Y w =
                  (greatCircle a b,
                    { w with ROUTE_MAP := storeBoth w.ROUTE_MAP X Y (greatCircle a b) }) := by
                simp [getArcCoordsOwn, hc, ha, hb]
              rw [h1]
              by_cases k1 : routeKey Y X = routeKey A B
              · right; right
                simp [getArcCoordsOwn, mapGet_storeBoth, k1]
              · by_cases k2 : routeKey X Y = routeKey A B
                · right; left
                  simp [getArcCoordsOwn, mapGet_storeBoth, k1, k2]
                · left
                  simp only [getArcCoordsOwn, mapGet_storeBoth, k1, k2, if_false]
                  cases mapGet w.ROUTE_MAP (routeKey A B) with
                  | some c => rfl
                  | none =>
                      cases objGet w.currentNodes A <;> cases objGet w.currentNodes B <;> rfl

theorem curvesOK_congr {greatCircle : Node → Node → List Coord} {keys : List String}
    {w w' : World} (h : CurvesOKOwn greatCircle keys w) (h1 : w'.ROUTE_MAP = w.ROUTE_MAP)
    (h2 : w'.currentNodes = w.currentNodes) : CurvesOKOwn greatCircle keys w' := by
  intro A B hA hB hne
  rw [getArcCoordsOwn_fst_congr greatCircle A B h1 h2]
  exact h A B hA hB hne

theorem curvesOK_getArcCoordsOwn {greatCircle : Node → Node → List Coord} {keys : List String}
    {w : World} (h : CurvesOKOwn greatCircle keys w) (X Y : String)
    (hXY : 2 ≤ (getArcCoordsOwn greatCircle X Y w).1.length) :
    CurvesOKOwn greatCircle keys (getArcCoordsOwn greatCircle X Y w).2 := by
  intro A B hA hB hne
  rcases getArcCoordsOwn_after greatCircle X Y A B w with e | e | e
  · rw [e]; exact h A B hA hB hne
  · rw [e]; exact hXY
  · rw [e, List.length_reverse]; exact hXY

theorem spawnShipOwn_SHIPS (greatCircle : Node → Node → List Coord) (rand : Nat → ℚ)
    (id A B : String) (w : World) (h : 2 ≤ (getArcCoordsOwn greatCircle A B w).1.length) :
    (spawnShipOwn greatCircle rand id A B w).SHIPS =
      w.SHIPS ++
        [{ id := id, A := A, B := B, path := (getArcCoordsOwn greatCircle A B w).1, seg := 0,
           t := rand w.randCalls * 0.6, speed := 0.62 + rand (w.randCalls + 1) * 0.35,
           paused := false, affected := false }] := by
  unfold spawnShipOwn
  simp only
  rw [if_neg (by omega)]
  simp

theorem spawnShipOwn_SHIPS_short (greatCircle : Node → Node → List Coord) (rand : Nat → ℚ)
    (id A B : String) (w : World) (h : (getArcCoordsOwn greatCircle A B w).1.length < 2) :
    (spawnShipOwn greatCircle rand id A B w).SHIPS = w.SHIPS := by
  unfold spawnShipOwn
  simp only
  rw [if_pos h]
  simp

theorem curvesOK_spawnShipOwn {greatCircle : Node → Node → List Coord} (rand : Nat → ℚ)
    {keys : List String} {w : World} (h : CurvesOKOwn greatCircle keys w) (id X Y : String)
    (hXY : 2 ≤ (getArcCoordsOwn greatCircle X Y w).1.length) :
    CurvesOKOwn greatCircle keys (spawnShipOwn greatCircle rand id X Y w) :=
  curvesOK_congr (curvesOK_getArcCoordsOwn h X Y hXY)
    (spawnShipOwn_ROUTE_MAP greatCircle rand id X Y w) (by simp)

theorem foldl_spawnBothOwn_ends (greatCircle : Node → Node → List Coord) (rand : Nat → ℚ)
    (keys : List String) :
    ∀ (ps : List (String × String)) (s : World × Nat),
      (∀ p ∈ ps, p.1 ∈ keys ∧ p.2 ∈ keys ∧ p.1 ≠ p.2) → CurvesOKOwn greatCircle keys s.1 →
      (ps.foldl (spawnBothOwn greatCircle rand) s).1.SHIPS.map ends =
          s.1.SHIPS.map ends ++ ps.flatMap (fun p => [p, (p.2, p.1)]) ∧
        CurvesOKOwn greatCircle keys (ps.foldl (spawnBothOwn greatCircle rand) s).1 := by
  intro ps
  induction ps with
  | nil => intro s _ h; simpa using h
  | cons p ps ih =>
      intro s hps h
      obtain ⟨h1, h2, hne⟩ := hps p (List.mem_cons_self _ _)
      have l1 := h p.1 p.2 h1 h2 hne
      have c1 := curvesOK_spawnShipOwn rand h ("V" ++ toString s.2) p.1 p.2 l1
      have l2 := c1 p.2 p.1 h2 h1 (fun e => hne e.symm)
      have c2 := curvesOK_spawnShipOwn rand c1 ("V" ++ toString (s.2 + 1)) p.2 p.1 l2
      have := ih (spawnBothOwn greatCircle rand s p)
        (fun q hq => hps q (List.mem_cons_of_mem _ hq)) c2
      rw [List.foldl_cons]
      refine ⟨?_, this.2⟩
      rw [this.1]
      simp only [spawnBothOwn]
      rw [spawnShipOwn_SHIPS _ _ _ _ _ _ l2, spawnShipOwn_SHIPS _ _ _ _ _ _ l1]
      simp [ends]

theorem fresh_spawnShipOwn (greatCircle : Node → Node → List Coord) (rand : Nat → ℚ)
    (id A B : String) (w : World) (h : ∀ V ∈ w.SHIPS, Fresh V) :
    ∀ V ∈ (spawnShipOwn greatCircle rand id A B w).SHIPS, Fresh V := by
  by_cases hl : (getArcCoordsOwn greatCircle A B w).1.length < 2
  · rw [spawnShipOwn_SHIPS_short _ _ _ _ _ _ hl]; exact h
  · rw [spawnShipOwn_SHIPS _ _ _ _ _ _ (by omega)]
    intro V hV
    rcases List.mem_append.1 hV with hV | hV
    · exact h V hV
    · rw [List.mem_singleton] at hV
      subst hV
      exact ⟨rfl, rfl, rfl, by simp only; omega⟩

theorem fresh_buildShipsForPairsOwn (greatCircle : Node → Node → List Coord) (rand : Nat → ℚ)
    (pairs : List (String × String)) (w : World) :
    ∀ V ∈ (buildShipsForPairsOwn greatCircle rand pairs w).SHIPS, Fresh V :=
  foldl_spawnBothOwn_induction greatCircle rand (fun w => ∀ V ∈ w.SHIPS, Fresh V)
    (fun id A B w h => fresh_spawnShipOwn greatCircle rand id A B w h) pairs _
    (by intro V hV; cases hV)

theorem buildShipsForNodesOwn_eq (greatCircle : Node → Node → List Coord) (rand : Nat → ℚ)
    (nodeSet : NodeSet) (w : World) :
    buildShipsForNodesOwn greatCircle rand nodeSet w =
      buildShipsForPairsOwn greatCircle rand (allPairs (objKeys nodeSet)) w :=
  rfl

/-- The origins and destinations of the ships built for a list of pairs. -/
theorem buildShipsForPairsOwn_ends (greatCircle : Node → Node → List Coord) (rand : Nat → ℚ)
    (keys : List String) (pairs : List (String × String)) (w : World)
    (hps : ∀ p ∈ pairs, p.1 ∈ keys ∧ p.2 ∈ keys ∧ p.1 ≠ p.2)
    (h : CurvesOKOwn greatCircle keys w) :
    (buildShipsForPairsOwn greatCircle rand pairs w).SHIPS.map ends =
      pairs.flatMap (fun p => [p, (p.2, p.1)]) := by
  have h0 : CurvesOKOwn greatCircle keys { w with SHIPS := [] } := curvesOK_congr h rfl rfl
  have := (foldl_spawnBothOwn_ends greatCircle rand keys pairs ({ w with SHIPS := [] }, 1) hps
    h0).1
  simpa [buildShipsForPairsOwn] using this

/-! ## The registry of a complete node set -/

theorem countP_eq_one_of_nodup (l : List (String × String)) (a : String × String)
    (hnd : l.Nodup) (hm : a ∈ l) : l.countP (fun x => decide (x = a)) = 1 := by
  induction l with
  | nil => cases hm
  | cons x xs ih =>
      rw [List.nodup_cons] at hnd
      by_cases hx : x = a
      · subst hx
        have h0 : xs.countP (fun y => decide (y = x)) = 0 := by
          rw [List.countP_eq_zero]
          intro y hy
          simp only [decide_eq_true_eq]
          intro e
          exact hnd.1 (e ▸ hy)
        simp [List.countP_cons, h0]
      · have hm' : a ∈ xs := by
          rcases List.mem_cons.1 hm with e | e
          · exact absurd e.symm hx
          · exact e
        simp [List.countP_cons, hx, ih hnd.2 hm']

theorem countP_ends_eq_one (S : List Ship) (A B : String) (hnd : (S.map ends).Nodup)
    (hm : (A, B) ∈ S.map ends) :
    S.countP (fun V => decide (V.A = A ∧ V.B = B)) = 1 := by
  have h := countP_eq_one_of_nodup _ _ hnd hm
  rw [List.countP_map] at h
  rw [← h]
  apply List.countP_congr
  intro V _
  simp [ends, Prod.ext_iff]

/-- For every node set of `n` distinct nodes whose pairwise curves, as
`getArcCoordsOwn` gives them, have at least two points each, `buildShipsForNodesOwn`
leaves exactly `n * (n - 1)` movers: exactly one for every ordered pair of distinct
nodes, none for anything else, and every mover unpaused. -/
theorem buildShipsForNodesOwn_all_pairs (greatCircle : Node → Node → List Coord)
    (rand : Nat → ℚ) (nodeSet : NodeSet) (w : World) (hnd : (objKeys nodeSet).Nodup)
    (hcurves : CurvesOKOwn greatCircle (objKeys nodeSet) w) :
    (buildShipsForNodesOwn greatCircle rand nodeSet w).SHIPS.length =
        (objKeys nodeSet).length * ((objKeys nodeSet).length - 1) ∧
    (∀ A B, A ∈ objKeys nodeSet → B ∈ objKeys nodeSet → A ≠ B →
        (buildShipsForNodesOwn greatCircle rand nodeSet w).SHIPS.countP
          (fun V => decide (V.A = A ∧ V.B = B)) = 1) ∧
    (∀ V ∈ (buildShipsForNodesOwn greatCircle rand nodeSet w).SHIPS,
        V.A ∈ objKeys nodeSet ∧ V.B ∈ objKeys nodeSet ∧ V.A ≠ V.B) ∧
    (∀ V ∈ (buildShipsForNodesOwn greatCircle rand nodeSet w).SHIPS, V.paused = false) := by
  have hends : (buildShipsForNodesOwn greatCircle rand nodeSet w).SHIPS.map ends =
      directedPairs (objKeys nodeSet) :=
    buildShipsForPairsOwn_ends greatCircle rand (objKeys nodeSet) _ w
      (fun p hp => ⟨(mem_allPairs hp).1, (mem_allPairs hp).2, ne_of_mem_allPairs hnd hp⟩)
      hcurves
  refine ⟨?_, ?_, ?_, ?_⟩
  · have := congrArg List.length hends
    rwa [List.length_map, directedPairs_length] at this
  · intro A B hA hB hne
    apply countP_ends_eq_one
    · rw [hends]; exact nodup_directedPairs hnd
    · rw [hends]; exact (mem_directedPairs hnd A B).2 ⟨hA, hB, hne⟩
  · intro V hV
    have : ends V ∈ directedPairs (objKeys nodeSet) := by
      rw [← hends]; exact List.mem_map_of_mem _ hV
    exact (mem_directedPairs hnd V.A V.B).1 this
  · intro V hV
    exact (fresh_buildShipsForPairsOwn greatCircle rand _ w V hV).2.1

theorem curvesOK_of_resolvable {greatCircle : Node → Node → List Coord}
    (hgc : ∀ a b, 2 ≤ (greatCircle a b).length) {keys : List String} {w : World}
    (hres : ∀ k ∈ keys, k ∈ objKeys w.currentNodes)
    (hcache : ∀ key c, mapGet w.ROUTE_MAP key = some c → 2 ≤ c.length) :
    CurvesOKOwn greatCircle keys w := by
  intro A B hA hB _
  obtain ⟨a, ha⟩ := (objGet_isSome_iff _ A).2 (hres A hA)
  obtain ⟨b, hb⟩ := (objGet_isSome_iff _ B).2 (hres B hB)
  unfold getArcCoordsOwn
  cases hc : mapGet w.ROUTE_MAP (routeKey A B) with
  | some c => exact hcache _ c hc
  | none => simp only [ha, hb]; exact hgc a b

theorem straightLine_length (a b : Node) : 2 ≤ (straightLine a b).length :=
  le_refl 2

/-! ## Long curves -/

theorem cacheLong_nil : CacheLong [] := by
  intro key c h
  simp [mapGet, objGet] at h

theorem cacheLong_storeBoth {m : RouteMap} (hm : CacheLong m) (A B : String)
    {c : List Coord} (hc : 2 ≤ c.length) : CacheLong (storeBoth m A B c) := by
  intro key c' h
  rw [mapGet_storeBoth] at h
  split at h
  · cases h; simpa using hc
  · split at h
    · cases h; exact hc
    · exact hm key c' h

theorem cacheLong_getArcCoordsOwn {greatCircle : Node → Node → List Coord}
    (hgc : ∀ a b, 2 ≤ (greatCircle a b).length) {w : World} (h : CacheLong w.ROUTE_MAP)
    (A B : String) : CacheLong (getArcCoordsOwn greatCircle A B w).2.ROUTE_MAP := by
  unfold getArcCoordsOwn
  cases mapGet w.ROUTE_MAP (routeKey A B) with
  | some c => exact h
  | none =>
      cases objGet w.currentNodes A with
      | none => exact h
      | some a =>
          cases objGet w.currentNodes B with
          | none => exact h
          | some b => exact cacheLong_storeBoth h A B (hgc a b)

theorem cacheLong_rebuildRoutes {greatCircle : Node → Node → List Coord}
    (hgc : ∀ a b, 2 ≤ (greatCircle a b).length) (nodeSet : NodeSet) (w : World) :
    CacheLong (rebuildRoutes greatCircle nodeSet w).ROUTE_MAP := by
  unfold rebuildRoutes
  have h0 : CacheLong ({ w with ROUTES := [], ROUTE_MAP := [] } : World).ROUTE_MAP :=
    cacheLong_nil
  generalize ({ w with ROUTES := [], ROUTE_MAP := [] } : World) = w0 at h0
  generalize allPairs (objKeys nodeSet) = ps
  induction ps generalizing w0 with
  | nil => exact h0
  | cons p ps ih =>
      rw [List.foldl_cons]
      apply ih
      unfold rebuildRoutesStep
      cases objGet nodeSet p.1 with
      | none => exact h0
      | some a =>
          cases objGet nodeSet p.2 with
          | none => exact h0
          | some b => exact cacheLong_storeBoth h0 _ _ (hgc a b)

theorem cacheLong_rebuildRoutesFromPairsOwn {greatCircle : Node → Node → List Coord}
    (hgc : ∀ a b, 2 ≤ (greatCircle a b).length) (pairs : List (String × String))
    (w : World) : CacheLong (rebuildRoutesFromPairsOwn greatCircle pairs w).ROUTE_MAP := by
  unfold rebuildRoutesFromPairsOwn
  have h0 : CacheLong ({ w with ROUTES := [], ROUTE_MAP := [] } : World).ROUTE_MAP :=
    cacheLong_nil
  generalize ({ w with ROUTES := [], ROUTE_MAP := [] } : World) = w0 at h0
  induction pairs generalizing w0 with
  | nil => exact h0
  | cons p ps ih =>
      rw [List.foldl_cons]
      apply ih
      have := cacheLong_getArcCoordsOwn hgc h0 p.1 p.2
      unfold rebuildRoutesFromPairsStepOwn
      simp only
      split
      · exact this
      · exact this

/-! ## The registry at boot -/

@[simp]
theorem rebuildRoutes_currentNodes (greatCircle : Node → Node → List Coord)
    (nodeSet : NodeSet) (w : World) :
    (rebuildRoutes greatCircle nodeSet w).currentNodes = w.currentNodes := by
  rw [rebuildRoutes_frame]

@[simp]
theorem rebuildRoutes_DISRUPTED (greatCircle : Node → Node → List Coord)
    (nodeSet : NodeSet) (w : World) :
    (rebuildRoutes greatCircle nodeSet w).DISRUPTED = w.DISRUPTED := by
  rw [rebuildRoutes_frame]

@[simp]
theorem pushMsg_SHIPS (t kind : String) (w : World) : (pushMsg t kind w).SHIPS = w.SHIPS :=
  rfl

theorem initWorld_currentNodes : initWorld.currentNodes = NODES :=
  rfl

theorem boot_SHIPS (greatCircle : Node → Node → List Coord) (rand : Nat → ℚ) :
    (boot greatCircle rand).SHIPS =
      (buildShipsForNodesOwn greatCircle rand NODES
        (rebuildRoutes greatCircle NODES initWorld)).SHIPS := by
  rw [boot_eq]
  simp only [pushMsg_SHIPS, rebuildRoutes_currentNodes, initWorld_currentNodes]

theorem boot_ends {greatCircle : Node → Node → List Coord} (rand : Nat → ℚ)
    (hgc : ∀ a b, 2 ≤ (greatCircle a b).length) :
    (boot greatCircle rand).SHIPS.map ends = directedPairs (objKeys NODES) := by
  rw [boot_SHIPS]
  refine buildShipsForPairsOwn_ends greatCircle rand (objKeys NODES) _ _
    (fun p hp => ⟨(mem_allPairs hp).1, (mem_allPairs hp).2,
      ne_of_mem_allPairs (by decide) hp⟩) ?_
  refine curvesOK_of_resolvable hgc ?_ (cacheLong_rebuildRoutes hgc _ _)
  intro k hk
  rw [rebuildRoutes_currentNodes, initWorld_currentNodes]
  exact hk

theorem boot_fresh (greatCircle : Node → Node → List Coord) (rand : Nat → ℚ) :
    ∀ V ∈ (boot greatCircle rand).SHIPS, Fresh V := by
  rw [boot_SHIPS]
  exact fresh_buildShipsForPairsOwn greatCircle rand _ _

/-! ## C4 -/

theorem sortedPairKey_target :
    sortedPairKey DISRUPT_PAIR.1 DISRUPT_PAIR.2 = routeKey "SG" "TH" := by
  decide

theorem sortedPairKey_eq_iff (X Y : String) :
    sortedPairKey X Y = sortedPairKey DISRUPT_PAIR.1 DISRUPT_PAIR.2 ↔
      isDisruptedPair (X, Y) := by
  rw [sortedPairKey_target]
  have hS : NoHyphen "SG" := by decide
  have hT : NoHyphen "TH" := by decide
  constructor
  · intro h
    unfold sortedPairKey at h
    split at h
    · have hn := noHyphen_of_routeKey_eq hS hT h
      have := routeKey_inj hn.1 hS h
      exact Or.inr (Prod.ext this.2 this.1)
    · have hn := noHyphen_of_routeKey_eq hS hT h
      have := routeKey_inj hn.1 hS h
      exact Or.inl (Prod.ext this.1 this.2)
  · rintro (h | h)
    · cases h; decide
    · cases h; decide

theorem disruptShip_eq (V : Ship) :
    disruptShip V =
      if isDisruptedPair (ends V) then { V with paused := true, affected := true } else V := by
  unfold disruptShip
  by_cases h : isDisruptedPair (ends V)
  · rw [if_pos h, if_pos ((sortedPairKey_eq_iff V.A V.B).2 h)]
  · rw [if_neg h, if_neg (fun e => h ((sortedPairKey_eq_iff V.A V.B).1 e))]

theorem startDisrupt_fields {w : World} (h : w.DISRUPTED = false) :
    (startDisrupt w).DISRUPTED = true ∧ (startDisrupt w).SHIPS = w.SHIPS.map disruptShip ∧
      (startDisrupt w).currentNodes = w.currentNodes ∧
      (startDisrupt w).ROUTE_MAP = w.ROUTE_MAP := by
  unfold startDisrupt
  rw [if_neg (by simp [h])]
  simp only
  split <;> exact ⟨rfl, rfl, rfl, rfl⟩

theorem paused_after_disrupt (S : List Ship) (h : ∀ V ∈ S, V.paused = false) :
    ((S.map disruptShip).filter (fun V => V.paused)).map ends =
      (S.map ends).filter (fun p => decide (isDisruptedPair p)) := by
  induction S with
  | nil => rfl
  | cons V S ih =>
      have hV := h V (List.mem_cons_self _ _)
      have ih' := ih (fun U hU => h U (List.mem_cons_of_mem _ hU))
      rw [List.map_cons, List.map_cons, disruptShip_eq]
      by_cases hp : isDisruptedPair (ends V)
      · rw [if_pos hp, List.filter_cons_of_pos (by simp), List.filter_cons_of_pos (by simpa using hp),
          List.map_cons, ih']
        rfl
      · rw [if_neg hp, List.filter_cons_of_neg (by simp [hV]),
          List.filter_cons_of_neg (by simpa using hp), ih']

theorem buildShipsForPairsOwn_DISRUPTED (greatCircle : Node → Node → List Coord)
    (rand : Nat → ℚ) (pairs : List (String × String)) (w : World) :
    (buildShipsForPairsOwn greatCircle rand pairs w).DISRUPTED = w.DISRUPTED :=
  foldl_spawnBothOwn_induction greatCircle rand (fun w' => w'.DISRUPTED = w.DISRUPTED)
    (fun id A B w' h => by simpa using h) pairs _ rfl

theorem buildShipsForPairsOwn_currentNodes (greatCircle : Node → Node → List Coord)
    (rand : Nat → ℚ) (pairs : List (String × String)) (w : World) :
    (buildShipsForPairsOwn greatCircle rand pairs w).currentNodes = w.currentNodes :=
  foldl_spawnBothOwn_induction greatCircle rand (fun w' => w'.currentNodes = w.currentNodes)
    (fun id A B w' h => by simpa using h) pairs _ rfl

@[simp]
theorem pushMsg_DISRUPTED (t kind : String) (w : World) :
    (pushMsg t kind w).DISRUPTED = w.DISRUPTED :=
  rfl

@[simp]
theorem pushMsg_currentNodes (t kind : String) (w : World) :
    (pushMsg t kind w).currentNodes = w.currentNodes :=
  rfl

@[simp]
theorem pushMsg_ROUTE_MAP (t kind : String) (w : World) :
    (pushMsg t kind w).ROUTE_MAP = w.ROUTE_MAP :=
  rfl

theorem boot_DISRUPTED (greatCircle : Node → Node → List Coord) (rand : Nat → ℚ) :
    (boot greatCircle rand).DISRUPTED = false := by
  rw [boot_eq]
  simp only [pushMsg_DISRUPTED, buildShipsForNodesOwn_eq, buildShipsForPairsOwn_DISRUPTED,
    rebuildRoutes_DISRUPTED]
  rfl

/-- C4: called while the disruption flag is false, `startDisrupt` sets the flag and
sets `paused` and `affected` on exactly the movers whose origin and destination are `SG`
and `TH` in either order; every other mover, and every other field, is kept. On the
registry built at boot from the five default ports (curves of at least two points) the
paused movers are then exactly two, `SG -> TH` and `TH -> SG`, out of twenty. -/
theorem startDisrupt_pauses_pair (greatCircle : Node → Node → List Coord) (rand : Nat → ℚ)
    (w : World) (hflag : w.DISRUPTED = false)
    (hgc : ∀ a b, 2 ≤ (greatCircle a b).length) :
    (startDisrupt w).DISRUPTED = true ∧
    (startDisrupt w).SHIPS = w.SHIPS.map (fun V =>
      if isDisruptedPair (V.A, V.B) then { V with paused := true, affected := true } else V) ∧
    (startDisrupt (boot greatCircle rand)).SHIPS.length = 20 ∧
    ((startDisrupt (boot greatCircle rand)).SHIPS.filter (fun V => V.paused)).map ends =
      [("SG", "TH"), ("TH", "SG")] ∧
    (∀ V ∈ (startDisrupt (boot greatCircle rand)).SHIPS,
      ¬ isDisruptedPair (V.A, V.B) → V.paused = false) := by
  have hb := startDisrupt_fields (boot_DISRUPTED greatCircle rand)
  have hfr := boot_fresh greatCircle rand
  refine ⟨(startDisrupt_fields hflag).1, ?_, ?_, ?_, ?_⟩
  · rw [(startDisrupt_fields hflag).2.1]
    exact List.map_congr_left (fun V _ => disruptShip_eq V)
  · rw [hb.2.1, List.length_map, ← List.length_map _ ends, boot_ends rand hgc,
      directedPairs_length]
    rfl
  · rw [hb.2.1, paused_after_disrupt _ (fun V hV => (hfr V hV).2.1), boot_ends rand hgc]
    decide
  · intro V hV hn
    rw [hb.2.1, List.mem_map] at hV
    obtain ⟨U, hU, rfl⟩ := hV
    rw [disruptShip_eq] at hn ⊢
    by_cases hp : isDisruptedPair (ends U)
    · rw [if_pos hp] at hn
      exact absurd hp hn
    · rw [if_neg hp]
      exact (hfr U hU).2.1

/-- C4 from the initial world, with straight two-point curves. -/
theorem startDisrupt_pauses_pair_witness :
    initWorld.DISRUPTED = false ∧ (∀ a b, 2 ≤ (straightLine a b).length) ∧
    (startDisrupt initWorld).DISRUPTED = true ∧
    ((startDisrupt (boot straightLine (fun _ => 0))).SHIPS.filter (fun V => V.paused)).map ends =
      [("SG", "TH"), ("TH", "SG")] :=
  ⟨rfl, straightLine_length,
    (startDisrupt_pauses_pair straightLine (fun _ => 0) initWorld rfl straightLine_length).1,
    (startDisrupt_pauses_pair straightLine (fun _ => 0) initWorld rfl
      straightLine_length).2.2.2.1⟩

/-! ## Building ships from a fully cached pair list -/

theorem getArcCoordsOwn_hit (greatCircle : Node → Node → List Coord) {A B : String} {w : World}
    {c : List Coord} (h : mapGet w.ROUTE_MAP (routeKey A B) = some c) :
    getArcCoordsOwn greatCircle A B w = (c, w) := by
  simp [getArcCoordsOwn, h]

theorem foldl_spawnBothOwn_induction_on (greatCircle : Node → Node → List Coord)
    (rand : Nat → ℚ) (P : World → Prop) (ps : List (String × String))
    (hP : ∀ p ∈ ps, ∀ id w, P w →
      P (spawnShipOwn greatCircle rand id p.1 p.2 w) ∧
      P (spawnShipOwn greatCircle rand id p.2 p.1 w)) :
    ∀ (s : World × Nat), P s.1 → P (ps.foldl (spawnBothOwn greatCircle rand) s).1 := by
  induction ps with
  | nil => intro s h; exact h
  | cons p ps ih =>
      intro s h
      rw [List.foldl_cons]
      apply ih (fun q hq => hP q (List.mem_cons_of_mem _ hq))
      have h1 := (hP p (List.mem_cons_self _ _) ("V" ++ toString s.2) s.1 h).1
      exact (hP p (List.mem_cons_self _ _) ("V" ++ toString (s.2 + 1)) _ h1).2

theorem pathsCached_spawnShipOwn (greatCircle : Node → Node → List Coord) (rand : Nat → ℚ)
    {m : RouteMap} {w : World} (h : PathsCached m w) (id A B : String)
    (hc : ∃ c, mapGet m (routeKey A B) = some c) :
    PathsCached m (spawnShipOwn greatCircle rand id A B w) := by
  obtain ⟨c, hc⟩ := hc
  have hit : getArcCoordsOwn greatCircle A B w = (c, w) :=
    getArcCoordsOwn_hit greatCircle (by rw [h.1]; exact hc)
  refine ⟨?_, ?_⟩
  · rw [spawnShipOwn_ROUTE_MAP, hit]; exact h.1
  · by_cases hl : (getArcCoordsOwn greatCircle A B w).1.length < 2
    · rw [spawnShipOwn_SHIPS_short _ _ _ _ _ _ hl]; exact h.2
    · rw [spawnShipOwn_SHIPS _ _ _ _ _ _ (by omega)]
      intro V hV
      rcases List.mem_append.1 hV with hV | hV
      · exact h.2 V hV
      · rw [List.mem_singleton] at hV
        subst hV
        simp only [hit]
        exact hc

theorem pathsCached_buildShipsForPairsOwn (greatCircle : Node → Node → List Coord)
    (rand : Nat → ℚ) (pairs : List (String × String)) (w : World)
    (hc : ∀ p ∈ pairs, (∃ c, mapGet w.ROUTE_MAP (routeKey p.1 p.2) = some c) ∧
      ∃ c, mapGet w.ROUTE_MAP (routeKey p.2 p.1) = some c) :
    PathsCached w.ROUTE_MAP (buildShipsForPairsOwn greatCircle rand pairs w) :=
  foldl_spawnBothOwn_induction_on greatCircle rand (PathsCached w.ROUTE_MAP) pairs
    (fun p hp id w' h =>
      ⟨pathsCached_spawnShipOwn greatCircle rand h id p.1 p.2 (hc p hp).1,
        pathsCached_spawnShipOwn greatCircle rand h id p.2 p.1 (hc p hp).2⟩)
    _ ⟨rfl, by intro V hV; cases hV⟩

/-! ## The cache at boot -/

theorem rebuildRoutes_get (greatCircle : Node → Node → List Coord) (nodeSet : NodeSet)
    (w : World) (hnd : (objKeys nodeSet).Nodup) (hh : ∀ k ∈ objKeys nodeSet, NoHyphen k)
    {p : String × String} (hp : p ∈ allPairs (objKeys nodeSet)) {a b : Node}
    (ha : objGet nodeSet p.1 = some a) (hb : objGet nodeSet p.2 = some b) :
    mapGet (rebuildRoutes greatCircle nodeSet w).ROUTE_MAP (routeKey p.1 p.2) =
        some (greatCircle a b) ∧
      mapGet (rebuildRoutes greatCircle nodeSet w).ROUTE_MAP (routeKey p.2 p.1) =
        some (greatCircle a b).reverse := by
  have hkeys : objKeys (rebuildRoutes greatCircle nodeSet w).ROUTE_MAP =
      (directedPairs (objKeys nodeSet)).map (fun p => routeKey p.1 p.2) := by
    rw [rebuildRoutes_map greatCircle nodeSet w hnd hh]
    exact objKeys_pairEntries greatCircle nodeSet _ (fun p hp => mem_allPairs hp)
  have hndk : (objKeys (rebuildRoutes greatCircle nodeSet w).ROUTE_MAP).Nodup := by
    rw [hkeys]; exact nodup_routeKeys hnd hh
  have hin : ∀ e ∈ pairEntries greatCircle nodeSet p,
      e ∈ (rebuildRoutes greatCircle nodeSet w).ROUTE_MAP := by
    intro e he
    rw [rebuildRoutes_map greatCircle nodeSet w hnd hh]
    exact List.mem_flatMap.2 ⟨p, hp, he⟩
  have he : pairEntries greatCircle nodeSet p =
      [(routeKey p.1 p.2, greatCircle a b),
       (routeKey p.2 p.1, (greatCircle a b).reverse)] := by
    simp [pairEntries, ha, hb]
  refine ⟨objGet_of_mem hndk (hin _ ?_), objGet_of_mem hndk (hin _ ?_)⟩
  · rw [he]; exact List.mem_cons_self _ _
  · rw [he]; exact List.mem_cons_of_mem _ (List.mem_cons_self _ _)

theorem rebuildRoutes_cached (greatCircle : Node → Node → List Coord) (nodeSet : NodeSet)
    (w : World) (hnd : (objKeys nodeSet).Nodup) (hh : ∀ k ∈ objKeys nodeSet, NoHyphen k) :
    ∀ p ∈ allPairs (objKeys nodeSet),
      (∃ c, mapGet (rebuildRoutes greatCircle nodeSet w).ROUTE_MAP (routeKey p.1 p.2) = some c) ∧
      ∃ c, mapGet (rebuildRoutes greatCircle nodeSet w).ROUTE_MAP (routeKey p.2 p.1) = some c := by
  intro p hp
  obtain ⟨a, ha⟩ := (objGet_isSome_iff nodeSet p.1).2 (mem_allPairs hp).1
  obtain ⟨b, hb⟩ := (objGet_isSome_iff nodeSet p.2).2 (mem_allPairs hp).2
  have := rebuildRoutes_get greatCircle nodeSet w hnd hh hp ha hb
  exact ⟨⟨_, this.1⟩, ⟨_, this.2⟩⟩

theorem nodes_nodup : (objKeys NODES).Nodup := by
  decide

theorem nodes_noHyphen : ∀ k ∈ objKeys NODES, NoHyphen k := by
  decide

theorem boot_ROUTE_MAP (greatCircle : Node → Node → List Coord) (rand : Nat → ℚ) :
    (boot greatCircle rand).ROUTE_MAP = (rebuildRoutes greatCircle NODES initWorld).ROUTE_MAP := by
  rw [boot_eq]
  simp only [pushMsg_ROUTE_MAP, rebuildRoutes_currentNodes, initWorld_currentNodes,
    buildShipsForNodesOwn_eq]
  exact (pathsCached_buildShipsForPairsOwn greatCircle rand _ _
    (rebuildRoutes_cached greatCircle NODES initWorld nodes_nodup nodes_noHyphen)).1

theorem boot_currentNodes (greatCircle : Node → Node → List Coord) (rand : Nat → ℚ) :
    (boot greatCircle rand).currentNodes = NODES := by
  rw [boot_eq]
  simp only [pushMsg_currentNodes, buildShipsForNodesOwn_eq, buildShipsForPairsOwn_currentNodes,
    rebuildRoutes_currentNodes, initWorld_currentNodes]

/-! ## The correction on cached legs -/

theorem correctShip_eq (forward : List Coord) (V : Ship)
    (hV : V.affected = true ↔ isDisruptedPair (V.A, V.B)) :
    correctShip forward forward.reverse V = reroutedShip forward V := by
  unfold correctShip reroutedShip
  by_cases ha : V.affected = true
  · rcases hV.1 ha with hp | hp
    · have e1 : V.A = "SG" := (Prod.mk.inj hp).1
      have e2 : V.B = "TH" := (Prod.mk.inj hp).2
      simp [ha, e1, e2, DISRUPT_PAIR]
    · have e1 : V.A = "TH" := (Prod.mk.inj hp).1
      have e2 : V.B = "SG" := (Prod.mk.inj hp).2
      simp [ha, e1, e2, DISRUPT_PAIR]
  · have hn : ¬ isDisruptedPair (V.A, V.B) := fun hp => ha (hV.2 hp)
    have n1 : ¬ (V.A, V.B) = ("SG", "TH") := fun e => hn (Or.inl e)
    have n2 : ¬ (V.A, V.B) = ("TH", "SG") := fun e => hn (Or.inr e)
    rw [if_neg ha, if_neg n1, if_neg n2]

theorem ends_disruptShip (U : Ship) : ends (disruptShip U) = ends U := by
  rw [disruptShip_eq]
  split <;> rfl

/-! ## The active node set in reachable states -/

theorem startDisrupt_currentNodes (w : World) :
    (startDisrupt w).currentNodes = w.currentNodes := by
  unfold startDisrupt
  split
  · rfl
  · simp only
    split <;> rfl

theorem buildForwardOwn_currentNodes (greatCircle : Node → Node → List Coord) :
    ∀ (legs : List (String × String)) (i : Nat) (forward : List Coord) (w : World),
      (buildForwardOwn greatCircle legs i forward w).2.currentNodes = w.currentNodes
  | [], _, _, _ => rfl
  | leg :: rest, i, forward, w => by
      unfold buildForwardOwn
      simp only
      split
      · rw [buildForwardOwn_currentNodes greatCircle rest]; simp
      · split
        · rw [buildForwardOwn_currentNodes greatCircle rest]; simp
        · rw [buildForwardOwn_currentNodes greatCircle rest]; simp

theorem applyCorrect_currentNodes (greatCircle : Node → Node → List Coord) (w : World) :
    (applyCorrect greatCircle w).currentNodes = w.currentNodes := by
  rw [applyCorrect_eq]
  split
  · rfl
  · simp only
    split
    · simp only [pushMsg_currentNodes, buildForwardOwn_currentNodes]; rfl
    · simp only [buildForwardOwn_currentNodes]; rfl

theorem backToNormal_currentNodes (greatCircle : Node → Node → List Coord) (rand : Nat → ℚ)
    (w : World) : (backToNormal greatCircle rand w).currentNodes = w.currentNodes := by
  rw [backToNormal_eq]
  simp only [pushMsg_currentNodes, buildShipsForNodesOwn_eq, buildShipsForPairsOwn_currentNodes,
    rebuildRoutes_currentNodes]
  rfl

theorem rebuildRoutesFromPairsOwn_currentNodes (greatCircle : Node → Node → List Coord)
    (pairs : List (String × String)) (w : World) :
    (rebuildRoutesFromPairsOwn greatCircle pairs w).currentNodes = w.currentNodes := by
  unfold rebuildRoutesFromPairsOwn
  have h0 : ({ w with ROUTES := [], ROUTE_MAP := [] } : World).currentNodes = w.currentNodes :=
    rfl
  generalize ({ w with ROUTES := [], ROUTE_MAP := [] } : World) = w0 at h0
  induction pairs generalizing w0 with
  | nil => exact h0
  | cons p ps ih =>
      rw [List.foldl_cons]
      apply ih
      unfold rebuildRoutesFromPairsStepOwn
      simp only
      split <;> simpa using h0

theorem rebuildRoutesFromPairsOwn_DISRUPTED (greatCircle : Node → Node → List Coord)
    (pairs : List (String × String)) (w : World) :
    (rebuildRoutesFromPairsOwn greatCircle pairs w).DISRUPTED = w.DISRUPTED := by
  unfold rebuildRoutesFromPairsOwn
  have h0 : ({ w with ROUTES := [], ROUTE_MAP := [] } : World).DISRUPTED = w.DISRUPTED :=
    rfl
  generalize ({ w with ROUTES := [], ROUTE_MAP := [] } : World) = w0 at h0
  induction pairs generalizing w0 with
  | nil => exact h0
  | cons p ps ih =>
      rw [List.foldl_cons]
      apply ih
      unfold rebuildRoutesFromPairsStepOwn
      simp only
      split <;> simpa using h0

theorem applyHubHK_currentNodes (greatCircle : Node → Node → List Coord) (rand : Nat → ℚ)
    (w : World) : (applyHubHK greatCircle rand w).currentNodes = (ensureHK w).currentNodes := by
  rw [applyHubHK_eq]
  simp only [pushMsg_currentNodes, buildShipsForPairsOwn_currentNodes,
    rebuildRoutesFromPairsOwn_currentNodes]
  rfl

theorem ensureHK_nodesOK {w : World} (h : NodesOK w) : NodesOK (ensureHK w) := by
  unfold ensureHK
  cases hk : objGet w.currentNodes "HK" with
  | some _ => exact h
  | none =>
      simp only
      split
      · exact nodesOK_insert h _ hk (by decide)
      · exact h

theorem nodesOK_of_eq {w w' : World} (h : NodesOK w) (e : w'.currentNodes = w.currentNodes) :
    NodesOK w' := by
  unfold NodesOK at *
  rw [e]; exact h

theorem addPortByCode_nodesOK (greatCircle : Node → Node → List Coord) (rand : Nat → ℚ)
    {w : World} (h : NodesOK w) (code : Option String) :
    NodesOK (addPortByCode greatCircle rand code w) := by
  rw [addPortByCode_eq]
  simp only
  cases hn : objGet NEW_PORTS (code.getD "").toUpper with
  | none => exact nodesOK_of_eq h rfl
  | some node =>
      cases hk : objGet w.currentNodes (code.getD "").toUpper with
      | some _ => exact nodesOK_of_eq h rfl
      | none =>
          simp only
          refine nodesOK_of_eq (nodesOK_insert h node hk (newPorts_code hn)) ?_
          simp only [pushMsg_currentNodes, buildShipsForNodesOwn_eq,
            buildShipsForPairsOwn_currentNodes, rebuildRoutes_currentNodes]

/-- In every reachable state the active node set has distinct keys, all of them
catalog codes. -/
theorem reachable_nodesOK {greatCircle : Node → Node → List Coord} {rand : Nat → ℚ}
    {w : World} (h : Reachable greatCircle rand w) : NodesOK w := by
  induction h with
  | boot => exact nodesOK_of_eq initWorld_inv.1 (boot_currentNodes greatCircle rand)
  | disrupt _ ih => exact nodesOK_of_eq ih (startDisrupt_currentNodes _)
  | correct _ ih => exact nodesOK_of_eq ih (applyCorrect_currentNodes _ _)
  | normal _ ih => exact nodesOK_of_eq ih (backToNormal_currentNodes _ _ _)
  | hub _ ih => exact nodesOK_of_eq (ensureHK_nodesOK ih) (applyHubHK_currentNodes _ _ _)
  | addPort code _ ih => exact addPortByCode_nodesOK greatCircle rand ih code
  | frame elapsed zoom pxLen _ ih => exact nodesOK_of_eq ih rfl
  | echo t kind _ ih => exact nodesOK_of_eq ih rfl
  | rebuild _ ih => exact nodesOK_of_eq ih (rebuildRoutes_currentNodes _ _ _)
  | fromPairs pairs _ ih =>
      obtain ⟨done, hd⟩ := rebuildRoutesFromPairs_world greatCircle pairs _
      rw [hd]
      exact nodesOK_of_eq ih (rebuildRoutesFromPairsOwn_currentNodes _ _ _)
  | getArc A B _ ih =>
      rw [getArcCoords_world]
      exact nodesOK_of_eq ih (getArcCoordsOwn_currentNodes _ _ _ _)

/-! ## C6 -/

theorem two_mul_choose_two (n : Nat) : 2 * Nat.choose n 2 = n * (n - 1) := by
  rw [Nat.choose_two_right]
  exact Nat.two_mul_div_two_of_even (Nat.even_mul_pred_self n)

/-- The registry and cache after `rebuildRoutes(currentNodes)` followed by
`buildShipsForNodes(currentNodes)`, on own properties. -/
theorem completeBuild (greatCircle : Node → Node → List Coord) (rand : Nat → ℚ)
    (hgc : ∀ a b, 2 ≤ (greatCircle a b).length) (w : World)
    (hnd : (objKeys w.currentNodes).Nodup) (hh : ∀ k ∈ objKeys w.currentNodes, NoHyphen k) :
    (buildShipsForNodesOwn greatCircle rand w.currentNodes
        (rebuildRoutes greatCircle w.currentNodes w)).SHIPS.map ends =
      directedPairs (objKeys w.currentNodes) ∧
    PathsCached (rebuildRoutes greatCircle w.currentNodes w).ROUTE_MAP
      (buildShipsForNodesOwn greatCircle rand w.currentNodes
        (rebuildRoutes greatCircle w.currentNodes w)) := by
  refine ⟨?_, ?_⟩
  · refine buildShipsForPairsOwn_ends greatCircle rand (objKeys w.currentNodes) _ _
      (fun p hp => ⟨(mem_allPairs hp).1, (mem_allPairs hp).2, ne_of_mem_allPairs hnd hp⟩) ?_
    refine curvesOK_of_resolvable hgc ?_ (cacheLong_rebuildRoutes hgc _ _)
    intro k hk
    rw [rebuildRoutes_currentNodes]
    exact hk
  · exact pathsCached_buildShipsForPairsOwn greatCircle rand _ _
      (rebuildRoutes_cached greatCircle w.currentNodes w hnd hh)

/-- The cached curve of two distinct active nodes after `rebuildRoutes` is the direct
curve between them, in the direction it was computed or reversed. -/
theorem rebuildRoutes_direct (greatCircle : Node → Node → List Coord) (nodeSet : NodeSet)
    (w : World) (hnd : (objKeys nodeSet).Nodup) (hh : ∀ k ∈ objKeys nodeSet, NoHyphen k)
    {A B : String} (hA : A ∈ objKeys nodeSet) (hB : B ∈ objKeys nodeSet) (hne : A ≠ B) :
    ∃ a b, objGet nodeSet A = some a ∧ objGet nodeSet B = some b ∧
      (mapGet (rebuildRoutes greatCircle nodeSet w).ROUTE_MAP (routeKey A B) =
          some (greatCircle a b) ∨
        mapGet (rebuildRoutes greatCircle nodeSet w).ROUTE_MAP (routeKey A B) =
          some (greatCircle b a).reverse) := by
  obtain ⟨a, ha⟩ := (objGet_isSome_iff nodeSet A).2 hA
  obtain ⟨b, hb⟩ := (objGet_isSome_iff nodeSet B).2 hB
  refine ⟨a, b, ha, hb, ?_⟩
  rcases allPairs_total hA hB hne with h | h
  · exact Or.inl (rebuildRoutes_get greatCircle nodeSet w hnd hh h ha hb).1
  · exact Or.inr (rebuildRoutes_get greatCircle nodeSet w hnd hh h hb ha).2

theorem backToNormal_fields (greatCircle : Node → Node → List Coord) (rand : Nat → ℚ)
    (w : World) :
    (backToNormal greatCircle rand w).DISRUPTED = false ∧
    (backToNormal greatCircle rand w).SHIPS =
      (buildShipsForNodesOwn greatCircle rand w.currentNodes
        (rebuildRoutes greatCircle w.currentNodes
          (clearFix (clearAlert { w with DISRUPTED := false })))).SHIPS ∧
    (backToNormal greatCircle rand w).ROUTE_MAP =
      (buildShipsForNodesOwn greatCircle rand w.currentNodes
        (rebuildRoutes greatCircle w.currentNodes
          (clearFix (clearAlert { w with DISRUPTED := false })))).ROUTE_MAP := by
  rw [backToNormal_eq]
  simp only [pushMsg_DISRUPTED, pushMsg_SHIPS, pushMsg_ROUTE_MAP, buildShipsForNodesOwn_eq,
    buildShipsForPairsOwn_DISRUPTED, rebuildRoutes_DISRUPTED, rebuildRoutes_currentNodes]
  exact ⟨rfl, rfl, rfl⟩

/-- C6: from every reachable state (curves of at least two points), after
`backToNormal()` the disruption flag is false, the node set is as before, the registry
has exactly `2 * C(n, 2)` movers for the `n` active nodes, no mover is paused, and the
path of every mover is the entry cached under its own origin and destination, which is
the direct curve between those two nodes. -/
theorem backToNormal_resets (greatCircle : Node → Node → List Coord) (rand : Nat → ℚ)
    (hgc : ∀ a b, 2 ≤ (greatCircle a b).length) (w : World)
    (hw : Reachable greatCircle rand w) :
    (backToNormal greatCircle rand w).DISRUPTED = false ∧
    (backToNormal greatCircle rand w).currentNodes = w.currentNodes ∧
    (backToNormal greatCircle rand w).SHIPS.length =
      2 * Nat.choose (objKeys (backToNormal greatCircle rand w).currentNodes).length 2 ∧
    (∀ V ∈ (backToNormal greatCircle rand w).SHIPS,
      V.paused = false ∧
      mapGet (backToNormal greatCircle rand w).ROUTE_MAP (routeKey V.A V.B) = some V.path ∧
      ∃ a b, objGet w.currentNodes V.A = some a ∧ objGet w.currentNodes V.B = some b ∧
        (V.path = greatCircle a b ∨ V.path = (greatCircle b a).reverse)) := by
  have hok := reachable_nodesOK hw
  have hnd := hok.1
  have hh : ∀ k ∈ objKeys w.currentNodes, NoHyphen k :=
    fun k hk => noHyphen_of_catalog (hok.2 k hk)
  obtain ⟨fD, fS, fM⟩ := backToNormal_fields greatCircle rand w
  have hcb := completeBuild greatCircle rand hgc
    (clearFix (clearAlert { w with DISRUPTED := false })) hnd hh
  have hends : (backToNormal greatCircle rand w).SHIPS.map ends =
      directedPairs (objKeys w.currentNodes) := by
    rw [fS]; exact hcb.1
  refine ⟨fD, backToNormal_currentNodes greatCircle rand w, ?_, ?_⟩
  · rw [backToNormal_currentNodes, two_mul_choose_two, ← directedPairs_length, ← hends,
      List.length_map]
  · intro V hV
    have hV' := hV
    rw [fS] at hV'
    have hp : mapGet (rebuildRoutes greatCircle w.currentNodes
        (clearFix (clearAlert { w with DISRUPTED := false }))).ROUTE_MAP
        (routeKey V.A V.B) = some V.path := hcb.2.2 V hV'
    refine ⟨(fresh_buildShipsForPairsOwn greatCircle rand _ _ V hV').2.1, ?_, ?_⟩
    · have hM2 : (backToNormal greatCircle rand w).ROUTE_MAP =
          (rebuildRoutes greatCircle w.currentNodes
            (clearFix (clearAlert { w with DISRUPTED := false }))).ROUTE_MAP :=
        fM.trans hcb.2.1
      rw [hM2]; exact hp
    · have hmem : ends V ∈ directedPairs (objKeys w.currentNodes) := by
        rw [← hends]; exact List.mem_map_of_mem _ hV
      obtain ⟨hA, hB, hne⟩ := (mem_directedPairs hnd V.A V.B).1 hmem
      obtain ⟨a, b, ha, hb, hc⟩ := rebuildRoutes_direct greatCircle w.currentNodes
        (clearFix (clearAlert { w with DISRUPTED := false })) hnd hh hA hB hne
      refine ⟨a, b, ha, hb, ?_⟩
      rcases hc with hc | hc
      · rw [hp] at hc; exact Or.inl (Option.some.inj hc)
      · rw [hp] at hc; exact Or.inr (Option.some.inj hc)

/-- C6 after disrupting and correcting the booted page. -/
theorem backToNormal_resets_witness :
    (∀ a b, 2 ≤ (straightLine a b).length) ∧
    Reachable straightLine (fun _ => 0)
      (applyCorrect straightLine (startDisrupt (boot straightLine (fun _ => 0)))) ∧
    (backToNormal straightLine (fun _ => 0)
      (applyCorrect straightLine (startDisrupt (boot straightLine (fun _ => 0))))).DISRUPTED =
        false :=
  ⟨straightLine_length, Reachable.correct (Reachable.disrupt Reachable.boot),
    (backToNormal_resets straightLine (fun _ => 0) straightLine_length _
      (Reachable.correct (Reachable.disrupt Reachable.boot))).1⟩

/-! ## C7 -/

theorem hubPairs_length {keys : List String} (hnd : keys.Nodup) (hk : "HK" ∈ keys) :
    (hubPairs keys).length = keys.length - 1 := by
  unfold hubPairs
  rw [List.length_map, ← List.length_erase_of_mem hk, hnd.erase_eq_filter]
  congr 1
  apply List.filter_congr
  intro x _
  by_cases hx : x = "HK" <;> simp [hx]

theorem mem_hubPairs {keys : List String} {p : String × String} :
    p ∈ hubPairs keys ↔ p.1 ∈ keys ∧ p.1 ≠ "HK" ∧ p.2 = "HK" := by
  unfold hubPairs
  simp only [List.mem_map, List.mem_filter, decide_eq_true_eq]
  constructor
  · rintro ⟨K, ⟨h1, h2⟩, rfl⟩
    exact ⟨h1, h2, rfl⟩
  · rintro ⟨h1, h2, h3⟩
    exact ⟨p.1, ⟨h1, h2⟩, Prod.ext rfl h3.symm⟩

theorem nodup_hubPairs {keys : List String} (hnd : keys.Nodup) : (hubPairs keys).Nodup := by
  unfold hubPairs
  refine List.Nodup.map_on ?_ (hnd.filter _)
  intro x _ y _ e
  exact (Prod.mk.inj e).1

/-- The two directions of the star pairs are pairwise distinct. -/
theorem nodup_hubBoth {keys : List String} (hnd : keys.Nodup) :
    ((hubPairs keys).flatMap (fun p => [p, (p.2, p.1)])).Nodup := by
  rw [List.nodup_flatMap]
  refine ⟨?_, ?_⟩
  · intro p hp
    obtain ⟨_, h2, h3⟩ := mem_hubPairs.1 hp
    have : p ≠ (p.2, p.1) := by
      intro e
      have := congrArg Prod.fst e
      simp only at this
      exact h2 (this.trans h3)
    simp [this]
  · have hpw : (hubPairs keys).Pairwise (fun p q => p ≠ q ∧ p.2 = "HK" ∧ q.2 = "HK" ∧
        p.1 ≠ "HK" ∧ q.1 ≠ "HK") := by
      rw [List.pairwise_iff_forall_sublist]
      intro p q hs
      have hp : p ∈ hubPairs keys := hs.subset (List.mem_cons_self _ _)
      have hq : q ∈ hubPairs keys :=
        hs.subset (List.mem_cons_of_mem _ (List.mem_cons_self _ _))
      have hne : p ≠ q := by
        have := (nodup_hubPairs hnd).sublist hs
        simp only [List.nodup_cons, List.mem_singleton, List.not_mem_nil, not_false_eq_true,
          List.nodup_nil, and_true] at this
        exact this
      exact ⟨hne, (mem_hubPairs.1 hp).2.2, (mem_hubPairs.1 hq).2.2,
        (mem_hubPairs.1 hp).2.1, (mem_hubPairs.1 hq).2.1⟩
    refine List.Pairwise.imp ?_ hpw
    rintro ⟨p1, p2⟩ ⟨q1, q2⟩ ⟨hne, hp2, hq2, hp1, hq1⟩
    simp only at hp2 hq2 hp1 hq1
    subst hp2 hq2
    simp only [Function.onFun, List.disjoint_left, List.mem_cons, List.mem_singleton,
      List.not_mem_nil, or_false]
    rintro x (rfl | rfl) (h | h)
    · exact hne h
    · exact hp1 (Prod.mk.inj h).1
    · exact hq1 (Prod.mk.inj h).1.symm
    · exact hne (Prod.ext (Prod.mk.inj h).2 rfl)

theorem objGet_ensureHK (w : World) :
    (∃ hk, objGet (ensureHK w).currentNodes "HK" = some hk) ∧
    (∀ k v, objGet w.currentNodes k = some v → objGet (ensureHK w).currentNodes k = some v) ∧
    (∀ k, k ∈ objKeys (ensureHK w).currentNodes → k = "HK" ∨ k ∈ objKeys w.currentNodes) := by
  unfold ensureHK
  cases hk : objGet w.currentNodes "HK" with
  | some n => exact ⟨⟨n, hk⟩, fun _ _ h => h, fun _ h => Or.inr h⟩
  | none =>
      have hn : ∃ n, objGet NEW_PORTS "HK" = some n := ⟨_, rfl⟩
      obtain ⟨n, hn⟩ := hn
      simp only [hn]
      have hg := fun k' => mapGet_mapSet w.currentNodes "HK" k' n
      simp only [mapGet] at hg
      refine ⟨⟨n, by rw [hg]; simp⟩, ?_, ?_⟩
      · intro k v h
        rw [hg]
        by_cases e : "HK" = k
        · subst e; rw [hk] at h; cases h
        · rw [if_neg e]; exact h
      · intro k h
        exact (mem_objKeys_mapSet _ _ _ _).1 h

theorem applyHubHK_fields (greatCircle : Node → Node → List Coord) (rand : Nat → ℚ)
    (w : World) :
    (applyHubHK greatCircle rand w).DISRUPTED = false ∧
    (applyHubHK greatCircle rand w).SHIPS =
      (buildShipsForPairsOwn greatCircle rand (hubPairs (objKeys (ensureHK w).currentNodes))
        (rebuildRoutesFromPairsOwn greatCircle (hubPairs (objKeys (ensureHK w).currentNodes))
          (clearFix (clearAlert { ensureHK w with DISRUPTED := false })))).SHIPS := by
  rw [applyHubHK_eq]
  simp only [pushMsg_DISRUPTED, pushMsg_SHIPS, buildShipsForPairsOwn_DISRUPTED,
    rebuildRoutesFromPairsOwn_DISRUPTED]
  exact ⟨rfl, rfl⟩

theorem length_bothDirections (ps : List (String × String)) :
    (ps.flatMap (fun p => [p, (p.2, p.1)])).length = 2 * ps.length := by
  induction ps with
  | nil => rfl
  | cons p ps ih =>
      rw [List.flatMap_cons, List.length_append, ih, List.length_cons, List.length_cons,
        List.length_cons, List.length_nil]
      omega

/-- C7: from every reachable state (curves of at least two points), after
`applyHubHK()` the node `HK` is active, every node that was active still is and nothing
else was added, the disruption flag is false, and the registry has for each active node
`K` other than `HK` exactly one mover `K -> HK` and one mover `HK -> K`, and no mover
between two nodes other than `HK`: `2 * (n - 1)` movers for `n` active nodes. -/
theorem applyHubHK_star (greatCircle : Node → Node → List Coord) (rand : Nat → ℚ)
    (hgc : ∀ a b, 2 ≤ (greatCircle a b).length) (w : World)
    (hw : Reachable greatCircle rand w) :
    (∃ hk, objGet (applyHubHK greatCircle rand w).currentNodes "HK" = some hk) ∧
    (∀ k v, objGet w.currentNodes k = some v →
      objGet (applyHubHK greatCircle rand w).currentNodes k = some v) ∧
    (∀ k ∈ objKeys (applyHubHK greatCircle rand w).currentNodes,
      k = "HK" ∨ k ∈ objKeys w.currentNodes) ∧
    (applyHubHK greatCircle rand w).DISRUPTED = false ∧
    (applyHubHK greatCircle rand w).SHIPS.length =
      2 * ((objKeys (applyHubHK greatCircle rand w).currentNodes).length - 1) ∧
    (∀ K ∈ objKeys (applyHubHK greatCircle rand w).currentNodes, K ≠ "HK" →
      (applyHubHK greatCircle rand w).SHIPS.countP
          (fun V => decide (V.A = K ∧ V.B = "HK")) = 1 ∧
      (applyHubHK greatCircle rand w).SHIPS.countP
          (fun V => decide (V.A = "HK" ∧ V.B = K)) = 1) ∧
    (∀ V ∈ (applyHubHK greatCircle rand w).SHIPS,
      (V.A = "HK" ∨ V.B = "HK") ∧ V.A ≠ V.B ∧
      V.A ∈ objKeys (applyHubHK greatCircle rand w).currentNodes ∧
      V.B ∈ objKeys (applyHubHK greatCircle rand w).currentNodes) := by
  have hok := ensureHK_nodesOK (reachable_nodesOK hw)
  obtain ⟨hHK, hkeep, hnew⟩ := objGet_ensureHK w
  obtain ⟨fD, fS⟩ := applyHubHK_fields greatCircle rand w
  have hN := applyHubHK_currentNodes greatCircle rand w
  have hHKmem : "HK" ∈ objKeys (ensureHK w).currentNodes := by
    obtain ⟨hk, h⟩ := hHK
    exact objGet_mem_keys h
  have hps : ∀ p ∈ hubPairs (objKeys (ensureHK w).currentNodes),
      p.1 ∈ objKeys (ensureHK w).currentNodes ∧ p.2 ∈ objKeys (ensureHK w).currentNodes ∧
        p.1 ≠ p.2 := by
    intro p hp
    obtain ⟨h1, h2, h3⟩ := mem_hubPairs.1 hp
    exact ⟨h1, h3 ▸ hHKmem, fun e => h2 (e.trans h3)⟩
  have hends : (applyHubHK greatCircle rand w).SHIPS.map ends =
      (hubPairs (objKeys (ensureHK w).currentNodes)).flatMap (fun p => [p, (p.2, p.1)]) := by
    rw [fS]
    refine buildShipsForPairsOwn_ends greatCircle rand (objKeys (ensureHK w).currentNodes) _ _
      hps ?_
    refine curvesOK_of_resolvable hgc ?_ (cacheLong_rebuildRoutesFromPairsOwn hgc _ _)
    intro k hk
    rw [rebuildRoutesFromPairsOwn_currentNodes]
    exact hk
  have hmemV : ∀ V ∈ (applyHubHK greatCircle rand w).SHIPS,
      ∃ p ∈ hubPairs (objKeys (ensureHK w).currentNodes),
        ends V = p ∨ ends V = (p.2, p.1) := by
    intro V hV
    have : ends V ∈ (applyHubHK greatCircle rand w).SHIPS.map ends :=
      List.mem_map_of_mem _ hV
    rw [hends, List.mem_flatMap] at this
    obtain ⟨p, hp, h⟩ := this
    simp only [List.mem_cons, List.mem_singleton, List.not_mem_nil, or_false] at h
    exact ⟨p, hp, h⟩
  rw [hN]
  refine ⟨hHK, hkeep, hnew, fD, ?_, ?_, ?_⟩
  · rw [← List.length_map _ ends, hends, length_bothDirections, hubPairs_length hok.1 hHKmem]
  · intro K hK hne
    have hp : (K, "HK") ∈ hubPairs (objKeys (ensureHK w).currentNodes) :=
      mem_hubPairs.2 ⟨hK, hne, rfl⟩
    have hnd : ((applyHubHK greatCircle rand w).SHIPS.map ends).Nodup := by
      rw [hends]; exact nodup_hubBoth hok.1
    refine ⟨countP_ends_eq_one _ _ _ hnd ?_, countP_ends_eq_one _ _ _ hnd ?_⟩
    · rw [hends, List.mem_flatMap]
      exact ⟨_, hp, List.mem_cons_self _ _⟩
    · rw [hends, List.mem_flatMap]
      exact ⟨_, hp, List.mem_cons_of_mem _ (List.mem_cons_self _ _)⟩
  · intro V hV
    obtain ⟨p, hp, h⟩ := hmemV V hV
    obtain ⟨h1, h2, h3⟩ := hps p hp
    have hp2 := (mem_hubPairs.1 hp).2.2
    rcases h with h | h
    · have eA : V.A = p.1 := congrArg Prod.fst h
      have eB : V.B = p.2 := congrArg Prod.snd h
      rw [eA, eB]
      exact ⟨Or.inr hp2, h3, h1, h2⟩
    · have eA : V.A = p.2 := congrArg Prod.fst h
      have eB : V.B = p.1 := congrArg Prod.snd h
      rw [eA, eB]
      exact ⟨Or.inl hp2, fun e => h3 e.symm, h2, h1⟩

/-- C7 on the booted page: Hong Kong is added and ten movers run. -/
theorem applyHubHK_star_witness :
    (∀ a b, 2 ≤ (straightLine a b).length) ∧
    Reachable straightLine (fun _ => 0) (boot straightLine (fun _ => 0)) ∧
    (applyHubHK straightLine (fun _ => 0) (boot straightLine (fun _ => 0))).SHIPS.length =
      2 * ((objKeys (applyHubHK straightLine (fun _ => 0)
        (boot straightLine (fun _ => 0))).currentNodes).length - 1) :=
  ⟨straightLine_length, Reachable.boot,
    (applyHubHK_star straightLine (fun _ => 0) straightLine_length _
      Reachable.boot).2.2.2.2.1⟩

/-! ## C8 -/

theorem rebuildRoutes_length (greatCircle : Node → Node → List Coord) (nodeSet : NodeSet)
    (w : World) (hnd : (objKeys nodeSet).Nodup) (hh : ∀ k ∈ objKeys nodeSet, NoHyphen k) :
    (rebuildRoutes greatCircle nodeSet w).ROUTE_MAP.length =
      (objKeys nodeSet).length * ((objKeys nodeSet).length - 1) := by
  have hkeys : objKeys (rebuildRoutes greatCircle nodeSet w).ROUTE_MAP =
      (directedPairs (objKeys nodeSet)).map (fun p => routeKey p.1 p.2) := by
    rw [rebuildRoutes_map greatCircle nodeSet w hnd hh]
    exact objKeys_pairEntries greatCircle nodeSet _ (fun p hp => mem_allPairs hp)
  have := congrArg List.length hkeys
  simpa [objKeys, directedPairs_length] using this

theorem addOn_upper {code : String} (h : code ∈ addOnSpellings) :
    code.toUpper = "PH" ∨ code.toUpper = "HK" := by
  simp only [addOnSpellings, List.mem_cons, List.mem_singleton, List.not_mem_nil,
    or_false] at h
  rcases h with h | h | h | h | h | h | h | h <;> subst h <;>
    simp [String.toUpper, String.map_eq]

/-- The state after the three rebuilding steps of `addPortByCode`. -/
theorem addPortByCode_success (greatCircle : Node → Node → List Coord) (rand : Nat → ℚ)
    (w : World) (code : String) {node : Node}
    (hn : objGet NEW_PORTS code.toUpper = some node)
    (hk : objGet w.currentNodes code.toUpper = none) :
    (addPortByCode greatCircle rand (some code) w).currentNodes =
      w.currentNodes ++ [(code.toUpper, node)] ∧
    (addPortByCode greatCircle rand (some code) w).ROUTE_MAP =
      (buildShipsForNodesOwn greatCircle rand (w.currentNodes ++ [(code.toUpper, node)])
        (rebuildRoutes greatCircle (w.currentNodes ++ [(code.toUpper, node)])
          { w with currentNodes := w.currentNodes ++ [(code.toUpper, node)] })).ROUTE_MAP := by
  have hk' : code.toUpper ∉ objKeys w.currentNodes := (objGet_eq_none_iff _ _).1 hk
  rw [addPortByCode_eq]
  simp only [Option.getD_some, hn, hk, mapSet_of_not_mem _ _ _ hk', pushMsg_currentNodes,
    pushMsg_ROUTE_MAP, buildShipsForNodesOwn_eq, buildShipsForPairsOwn_currentNodes,
    rebuildRoutes_currentNodes]
  exact ⟨trivial, trivial⟩

/-- C8: in every reachable state, for every spelling of `PH` or `HK` whose port is not
yet active, `addPortByCode(code)` appends exactly that port to the active set (the
count goes from `n` to `n + 1`, the earlier nodes are kept) and leaves a route cache of
exactly `(n + 1) * n` entries; on the booted page `addPortByCode("PH")` gives 6 nodes
and 30 entries. -/
theorem addPortByCode_adds (greatCircle : Node → Node → List Coord) (rand : Nat → ℚ)
    (w : World) (hw : Reachable greatCircle rand w) (code : String)
    (hcode : code ∈ addOnSpellings) (habs : code.toUpper ∉ objKeys w.currentNodes) :
    (∃ node, objGet NEW_PORTS code.toUpper = some node ∧
      (addPortByCode greatCircle rand (some code) w).currentNodes =
        w.currentNodes ++ [(code.toUpper, node)]) ∧
    (objKeys (addPortByCode greatCircle rand (some code) w).currentNodes).length =
      (objKeys w.currentNodes).length + 1 ∧
    (addPortByCode greatCircle rand (some code) w).ROUTE_MAP.length =
      (objKeys (addPortByCode greatCircle rand (some code) w).currentNodes).length *
        ((objKeys (addPortByCode greatCircle rand (some code) w).currentNodes).length - 1) ∧
    (objKeys (addPortByCode greatCircle rand (some "PH")
      (boot greatCircle rand)).currentNodes).length = 6 ∧
    (addPortByCode greatCircle rand (some "PH") (boot greatCircle rand)).ROUTE_MAP.length =
      30 := by
  have main : ∀ (w : World), NodesOK w → ∀ code : String, code ∈ addOnSpellings →
      code.toUpper ∉ objKeys w.currentNodes →
      (∃ node, objGet NEW_PORTS code.toUpper = some node ∧
        (addPortByCode greatCircle rand (some code) w).currentNodes =
          w.currentNodes ++ [(code.toUpper, node)]) ∧
      (objKeys (addPortByCode greatCircle rand (some code) w).currentNodes).length =
        (objKeys w.currentNodes).length + 1 ∧
      (addPortByCode greatCircle rand (some code) w).ROUTE_MAP.length =
        (objKeys (addPortByCode greatCircle rand (some code) w).currentNodes).length *
          ((objKeys (addPortByCode greatCircle rand (some code) w).currentNodes).length - 1) := by
    intro w hok code hcode habs
    have hk : objGet w.currentNodes code.toUpper = none := (objGet_eq_none_iff _ _).2 habs
    obtain ⟨node, hn⟩ : ∃ node, objGet NEW_PORTS code.toUpper = some node := by
      rcases addOn_upper hcode with e | e <;> rw [e] <;> exact ⟨_, rfl⟩
    obtain ⟨eN, eM⟩ := addPortByCode_success greatCircle rand w code hn hk
    have hok' : NodesOK { w with currentNodes := w.currentNodes ++ [(code.toUpper, node)] } := by
      have := nodesOK_insert hok node hk (newPorts_code hn)
      rwa [mapSet_of_not_mem _ _ _ habs] at this
    have hh : ∀ k ∈ objKeys (w.currentNodes ++ [(code.toUpper, node)]), NoHyphen k :=
      fun k hk => noHyphen_of_catalog (hok'.2 k hk)
    refine ⟨⟨node, hn, eN⟩, ?_, ?_⟩
    · rw [eN]; simp [objKeys]
    · rw [eM, eN]
      have hc := (pathsCached_buildShipsForPairsOwn greatCircle rand
        (allPairs (objKeys (w.currentNodes ++ [(code.toUpper, node)])))
        (rebuildRoutes greatCircle (w.currentNodes ++ [(code.toUpper, node)])
          { w with currentNodes := w.currentNodes ++ [(code.toUpper, node)] })
        (rebuildRoutes_cached greatCircle _ _ hok'.1 hh)).1
      rw [buildShipsForNodesOwn_eq, hc]
      exact rebuildRoutes_length greatCircle _ _ hok'.1 hh
  have hb := main (boot greatCircle rand) (reachable_nodesOK Reachable.boot) "PH"
    (by decide) (by
      rw [boot_currentNodes]
      have : "PH".toUpper = "PH" := by simp [String.toUpper, String.map_eq]
      rw [this]
      decide)
  have h6 : (objKeys (addPortByCode greatCircle rand (some "PH")
      (boot greatCircle rand)).currentNodes).length = 6 := by
    rw [hb.2.1, boot_currentNodes]
    rfl
  obtain ⟨m1, m2, m3⟩ := main w (reachable_nodesOK hw) code hcode habs
  refine ⟨m1, m2, m3, h6, ?_⟩
  rw [hb.2.2, h6]

/-- C8 for the spelling `hk` on the booted page. -/
theorem addPortByCode_adds_witness :
    Reachable straightLine (fun _ => 0) (boot straightLine (fun _ => 0)) ∧
    "hk" ∈ addOnSpellings ∧
    "hk".toUpper ∉ objKeys (boot straightLine (fun _ => 0)).currentNodes ∧
    (objKeys (addPortByCode straightLine (fun _ => 0) (some "hk")
      (boot straightLine (fun _ => 0))).currentNodes).length =
      (objKeys (boot straightLine (fun _ => 0)).currentNodes).length + 1 :=
  ⟨Reachable.boot, by decide,
    by
      rw [boot_currentNodes]
      have : "hk".toUpper = "HK" := by simp [String.toUpper, String.map_eq]
      rw [this]
      decide,
    (addPortByCode_adds straightLine (fun _ => 0) _ Reachable.boot "hk" (by decide)
      (by
        rw [boot_currentNodes]
        have : "hk".toUpper = "HK" := by simp [String.toUpper, String.map_eq]
        rw [this]
        decide)).2.1⟩

/-! ## C9 -/

theorem lower_of_range (c : Char) (h1 : 97 ≤ c.toNat) (h2 : c.toNat ≤ 122) :
    c ∈ ("abcdefghijklmnopqrstuvwxyz".data) := by
  have hc : c = Char.ofNat c.toNat := (Char.ofNat_toNat c).symm
  generalize c.toNat = n at h1 h2 hc
  subst hc
  interval_cases n <;> decide

theorem toUpper_preimage (c : Char) (t : Char) (ht : t ∈ ['P', 'H', 'K'])
    (h : c.toUpper = t) : c = t ∨ c = t.toLower := by
  by_cases hr : 97 ≤ c.toNat ∧ c.toNat ≤ 122
  · have hm := lower_of_range c hr.1 hr.2
    simp only [List.mem_cons, List.mem_singleton, List.not_mem_nil, or_false] at ht
    simp only [String.data, List.mem_cons, List.mem_singleton, List.not_mem_nil,
      or_false] at hm
    rcases ht with rfl | rfl | rfl <;>
      rcases hm with rfl | rfl | rfl | rfl | rfl | rfl | rfl | rfl | rfl | rfl | rfl | rfl |
        rfl | rfl | rfl | rfl | rfl | rfl | rfl | rfl | rfl | rfl | rfl | rfl | rfl | rfl <;>
      revert h <;> decide
  · left
    unfold Char.toUpper at h
    simp only [ge_iff_le] at h
    rw [if_neg hr] at h
    exact h

theorem toUpper_two {s : String} (t1 t2 : Char) (h1 : t1 ∈ ['P', 'H', 'K'])
    (h2 : t2 ∈ ['P', 'H', 'K']) (h : s.toUpper = ⟨[t1, t2]⟩) :
    s = ⟨[t1, t2]⟩ ∨ s = ⟨[t1, t2.toLower]⟩ ∨ s = ⟨[t1.toLower, t2]⟩ ∨
      s = ⟨[t1.toLower, t2.toLower]⟩ := by
  rw [String.toUpper, String.map_eq] at h
  have hd : s.data.map Char.toUpper = [t1, t2] := congrArg String.data h
  obtain ⟨l⟩ := s
  simp only at hd
  match l, hd with
  | [c1, c2], hd =>
      simp only [List.map_cons, List.map_nil, List.cons.injEq, and_true] at hd
      rcases toUpper_preimage c1 t1 h1 hd.1 with e1 | e1 <;>
        rcases toUpper_preimage c2 t2 h2 hd.2 with e2 | e2 <;> subst e1 <;> subst e2 <;> simp

/-- A code whose upper case is `PH` or `HK` is one of the eight spellings. -/
theorem addOn_of_upper {s : String} (h : s.toUpper = "PH" ∨ s.toUpper = "HK") :
    s ∈ addOnSpellings := by
  rcases h with h | h
  · have := toUpper_two 'P' 'H' (by decide) (by decide) h
    rcases this with e | e | e | e <;> subst e <;> decide
  · have := toUpper_two 'H' 'K' (by decide) (by decide) h
    rcases this with e | e | e | e <;> subst e <;> decide

/-- C9: when the code names no add-on port (it is none of the spellings of `PH` and
`HK`: a missing or empty argument, the code of a default port, anything else), or when
it names an add-on port that is already active, `addPortByCode(code)` changes nothing
but the chat log, which gains exactly one notice. -/
theorem addPortByCode_rejects (greatCircle : Node → Node → List Coord) (rand : Nat → ℚ)
    (w : World) (code : Option String)
    (hrej : (∀ s ∈ addOnSpellings, code ≠ some s) ∨
      (∃ s ∈ addOnSpellings, code = some s ∧ s.toUpper ∈ objKeys w.currentNodes)) :
    ∃ t, addPortByCode greatCircle rand code w =
      { w with msgs := w.msgs ++ [⟨t, "system"⟩] } := by
  rcases hrej with h | ⟨s, hs, rfl, hin⟩
  · have hn : objGet NEW_PORTS (code.getD "").toUpper = none := by
      rw [objGet_eq_none_iff]
      intro hk
      have hup : (code.getD "").toUpper = "PH" ∨ (code.getD "").toUpper = "HK" := by
        simpa [NEW_PORTS, objKeys] using hk
      have hsp := addOn_of_upper hup
      cases code with
      | none => revert hsp; decide
      | some s => exact h s hsp rfl
    refine ⟨"Unknown code: " ++ code.getD "undefined", ?_⟩
    rw [addPortByCode_eq]
    simp only [hn]
    rfl
  · obtain ⟨node, hn⟩ : ∃ node, objGet NEW_PORTS s.toUpper = some node := by
      rcases addOn_upper hs with e | e <;> rw [e] <;> exact ⟨_, rfl⟩
    obtain ⟨v, hv⟩ := (objGet_isSome_iff _ _).2 hin
    refine ⟨node.name ++ " is already added.", ?_⟩
    rw [addPortByCode_eq]
    simp only [Option.getD_some, hn, hv]
    rfl

/-- C9 for the default code `SG` on the initial world. -/
theorem addPortByCode_rejects_witness :
    ((∀ s ∈ addOnSpellings, (some "SG" : Option String) ≠ some s) ∨
      (∃ s ∈ addOnSpellings, (some "SG" : Option String) = some s ∧
        s.toUpper ∈ objKeys initWorld.currentNodes)) ∧
    ∃ t, addPortByCode straightLine (fun _ => 0) (some "SG") initWorld =
      { initWorld with msgs := initWorld.msgs ++ [⟨t, "system"⟩] } :=
  ⟨Or.inl (by decide),
    addPortByCode_rejects straightLine (fun _ => 0) initWorld (some "SG")
      (Or.inl (by decide))⟩

/-! ## C10 -/

theorem startDisrupt_DISRUPTED (w : World) : (startDisrupt w).DISRUPTED = true := by
  cases h : w.DISRUPTED with
  | false => exact (startDisrupt_fields h).1
  | true =>
      unfold startDisrupt
      rw [if_pos h]
      exact h

/-- C10: `startDisrupt()` called while the flag is true, and so any second
`startDisrupt()` in a row, and `applyCorrect()` called while the flag is false, and so
on the booted page with no disruption started, change nothing but the chat log, which
gains exactly the one notice of the guard. -/
theorem guarded_actions_noop (greatCircle : Node → Node → List Coord) (rand : Nat → ℚ)
    (w : World) :
    (w.DISRUPTED = true → startDisrupt w =
      { w with msgs := w.msgs ++ [⟨"Disruption is already active.", "system"⟩] }) ∧
    (startDisrupt (startDisrupt w) =
      { startDisrupt w with
        msgs := (startDisrupt w).msgs ++ [⟨"Disruption is already active.", "system"⟩] }) ∧
    (w.DISRUPTED = false → applyCorrect greatCircle w =
      { w with
        msgs := w.msgs ++ [⟨"No active disruption. Click Disrupt first.", "system"⟩] }) ∧
    (applyCorrect greatCircle (boot greatCircle rand) =
      { boot greatCircle rand with
        msgs := (boot greatCircle rand).msgs ++
          [⟨"No active disruption. Click Disrupt first.", "system"⟩] }) := by
  have h1 : ∀ w : World, w.DISRUPTED = true → startDisrupt w =
      { w with msgs := w.msgs ++ [⟨"Disruption is already active.", "system"⟩] } := by
    intro w h
    unfold startDisrupt
    rw [if_pos h]
    rfl
  have h2 : ∀ w : World, w.DISRUPTED = false → applyCorrect greatCircle w =
      { w with
        msgs := w.msgs ++ [⟨"No active disruption. Click Disrupt first.", "system"⟩] } := by
    intro w h
    rw [applyCorrect_eq]
    rw [if_pos (by simp [h])]
    rfl
  exact ⟨h1 w, h1 _ (startDisrupt_DISRUPTED w), h2 w,
    h2 _ (boot_DISRUPTED greatCircle rand)⟩

/-- C10 on a disrupted and on an undisrupted copy of the initial world. -/
theorem guarded_actions_noop_witness :
    ({ initWorld with DISRUPTED := true } : World).DISRUPTED = true ∧
    startDisrupt { initWorld with DISRUPTED := true } =
      { initWorld with
        DISRUPTED := true
        msgs := [⟨"Disruption is already active.", "system"⟩] } ∧
    initWorld.DISRUPTED = false ∧
    applyCorrect straightLine initWorld =
      { initWorld with
        msgs := [⟨"No active disruption. Click Disrupt first.", "system"⟩] } :=
  ⟨rfl,
    (guarded_actions_noop straightLine (fun _ => 0)
      { initWorld with DISRUPTED := true }).1 rfl,
    rfl,
    (guarded_actions_noop straightLine (fun _ => 0) initWorld).2.2.1 rfl⟩

/-! ## The animation step -/

theorem advanceLoop_eq (pathLength : Nat) (wrapT : ℚ) :
    ∀ (fuel seg : Nat) (t : ℚ), 0 ≤ t → ⌊t⌋.toNat < fuel → seg + 2 ≤ pathLength →
      advanceLoop pathLength wrapT fuel seg t =
        if seg + ⌊t⌋.toNat + 2 ≤ pathLength then (seg + ⌊t⌋.toNat, t - ⌊t⌋.toNat, false)
        else (0, wrapT, true) := by
  intro fuel
  induction fuel with
  | zero => intro seg t _ h; omega
  | succ fuel ih =>
      intro seg t ht hf hs
      unfold advanceLoop
      by_cases h1 : 1 ≤ t
      · rw [if_pos h1]
        have hfl : ⌊t⌋ = ⌊t - 1⌋ + 1 := by rw [Int.floor_sub_one]; ring
        have hnn : 0 ≤ ⌊t - 1⌋ := Int.floor_nonneg.2 (by linarith)
        have hn : ⌊t⌋.toNat = ⌊t - 1⌋.toNat + 1 := by
          rw [hfl]; omega
        by_cases hw : (pathLength : Int) - 1 ≤ ((seg + 1 : Nat) : Int)
        · rw [if_pos hw, if_neg (by push_cast at hw; omega)]
        · rw [if_neg hw]
          rw [ih (seg + 1) (t - 1) (by linarith) (by omega) (by push_cast at hw; omega)]
          rw [hn]
          by_cases hc : seg + 1 + ⌊t - 1⌋.toNat + 2 ≤ pathLength
          · rw [if_pos hc, if_pos (by omega)]
            refine Prod.ext (by simp only; omega) (Prod.ext ?_ rfl)
            simp only
            push_cast
            ring
          · rw [if_neg hc, if_neg (by omega)]
      · rw [if_neg h1]
        have h0 : ⌊t⌋ = 0 := Int.floor_eq_zero_iff.2 ⟨ht, by linarith⟩
        simp [h0, hs]

/-- Any supply of iterations beyond `⌊t⌋ + 1` leaves the result of the loop as it
is. -/
theorem advanceLoop_fuel (pathLength : Nat) (wrapT : ℚ) (seg : Nat) (t : ℚ) (ht : 0 ≤ t)
    (hs : seg + 2 ≤ pathLength) (extra : Nat) :
    advanceLoop pathLength wrapT (⌊t⌋.toNat + 1 + extra) seg t =
      advanceLoop pathLength wrapT (⌊t⌋.toNat + 1) seg t := by
  rw [advanceLoop_eq pathLength wrapT _ seg t ht (by omega) hs,
    advanceLoop_eq pathLength wrapT _ seg t ht (by omega) hs]

theorem stepSize_pos (dt zoom : ℚ) (pxLen : Coord → Coord → ℚ) {V : Ship}
    (hV : ShipOK V) : 0 < stepSize dt zoom pxLen V := by
  unfold stepSize
  have hlt : V.seg < V.path.length := by have := hV.2.1; omega
  rw [List.getElem?_eq_getElem hlt]
  simp only
  exact lt_of_lt_of_le (by norm_num) (le_max_right _ _)

/-- A running mover in position is advanced as `advancedShip` says. -/
theorem advanceShip_eq (rand : Nat → ℚ) (dt zoom : ℚ) (pxLen : Coord → Coord → ℚ)
    {V : Ship} (hV : ShipOK V) (hp : V.paused = false) (calls : Nat) :
    advanceShip rand dt zoom pxLen V calls =
      some (advancedShip rand dt zoom pxLen V calls) := by
  have hlt : V.seg < V.path.length := by have := hV.2.1; omega
  have hpos := stepSize_pos dt zoom pxLen hV
  have ht1 : 0 ≤ V.t + stepSize dt zoom pxLen V := by linarith [hV.2.2.1]
  unfold advanceShip advancedShip
  unfold stepSize at ht1 ⊢
  rw [List.getElem?_eq_getElem hlt] at ht1 ⊢
  simp only [hp, Bool.false_eq_true, if_false] at ht1 ⊢
  rw [advanceLoop_eq _ _ _ _ _ ht1 (by omega) hV.2.1]
  split <;> rfl

/-! ## The position invariant is kept -/

theorem shipOK_advancedShip {rand : Nat → ℚ} (hrand : ∀ i, 0 ≤ rand i ∧ rand i < 1)
    (dt zoom : ℚ) (pxLen : Coord → Coord → ℚ) {V : Ship} (hV : ShipOK V) (calls : Nat) :
    ShipOK (advancedShip rand dt zoom pxLen V calls).1 := by
  have hpos := stepSize_pos dt zoom pxLen hV
  have ht1 : 0 ≤ V.t + stepSize dt zoom pxLen V := by linarith [hV.2.2.1]
  unfold advancedShip
  simp only
  split
  · rename_i h
    refine ⟨hV.1, h, ?_, ?_⟩
    · simp only
      have hc : ((⌊V.t + stepSize dt zoom pxLen V⌋.toNat : Nat) : ℚ) =
          ((⌊V.t + stepSize dt zoom pxLen V⌋ : Int) : ℚ) := by
        have := Int.toNat_of_nonneg (Int.floor_nonneg.2 ht1)
        exact_mod_cast congrArg (fun z : Int => (z : ℚ)) this
      rw [hc]
      linarith [Int.floor_le (V.t + stepSize dt zoom pxLen V)]
    · simp only
      have hc : ((⌊V.t + stepSize dt zoom pxLen V⌋.toNat : Nat) : ℚ) =
          ((⌊V.t + stepSize dt zoom pxLen V⌋ : Int) : ℚ) := by
        have := Int.toNat_of_nonneg (Int.floor_nonneg.2 ht1)
        exact_mod_cast congrArg (fun z : Int => (z : ℚ)) this
      rw [hc]
      linarith [Int.lt_floor_add_one (V.t + stepSize dt zoom pxLen V)]
  · refine ⟨hV.1, by simp only; have := hV.1; omega, ?_, ?_⟩
    · simp only
      have := (hrand calls).1
      norm_num
      linarith
    · simp only
      have := (hrand calls).2
      norm_num
      linarith

/-- `advanceShip` never throws on a mover in position and leaves it in position. -/
theorem shipOK_advanceShip {rand : Nat → ℚ} (hrand : ∀ i, 0 ≤ rand i ∧ rand i < 1)
    (dt zoom : ℚ) (pxLen : Coord → Coord → ℚ) {V : Ship} (hV : ShipOK V) (calls : Nat) :
    ∃ r, advanceShip rand dt zoom pxLen V calls = some r ∧ ShipOK r.1 := by
  cases hp : V.paused with
  | true =>
      refine ⟨(V, calls), ?_, hV⟩
      unfold advanceShip
      rw [if_pos hp]
  | false =>
      exact ⟨_, advanceShip_eq rand dt zoom pxLen hV hp calls,
        shipOK_advancedShip hrand dt zoom pxLen hV calls⟩

theorem shipOK_tickLoop {rand : Nat → ℚ} (hrand : ∀ i, 0 ≤ rand i ∧ rand i < 1)
    (dt zoom : ℚ) (pxLen : Coord → Coord → ℚ) :
    ∀ (S : List Ship) (calls : Nat), (∀ V ∈ S, ShipOK V) →
      ∀ V ∈ (tickLoop rand dt zoom pxLen S calls).1, ShipOK V
  | [], _, _ => by intro V hV; simp [tickLoop] at hV
  | U :: rest, calls, h => by
      obtain ⟨r, hr, hok⟩ := shipOK_advanceShip hrand dt zoom pxLen
        (h U (List.mem_cons_self _ _)) calls
      have ih := shipOK_tickLoop hrand dt zoom pxLen rest r.2
        (fun V hV => h V (List.mem_cons_of_mem _ hV))
      intro V hV
      unfold tickLoop at hV
      rw [hr] at hV
      simp only [List.mem_cons] at hV
      rcases hV with rfl | hV
      · exact hok
      · exact ih V hV

theorem shipOK_spawnShipOwn {greatCircle : Node → Node → List Coord} {rand : Nat → ℚ}
    (hrand : ∀ i, 0 ≤ rand i ∧ rand i < 1) (id A B : String) (w : World)
    (h : ∀ V ∈ w.SHIPS, ShipOK V) :
    ∀ V ∈ (spawnShipOwn greatCircle rand id A B w).SHIPS, ShipOK V := by
  by_cases hl : (getArcCoordsOwn greatCircle A B w).1.length < 2
  · rw [spawnShipOwn_SHIPS_short _ _ _ _ _ _ hl]; exact h
  · rw [spawnShipOwn_SHIPS _ _ _ _ _ _ (by omega)]
    intro V hV
    rcases List.mem_append.1 hV with hV | hV
    · exact h V hV
    · rw [List.mem_singleton] at hV
      subst hV
      have h0 := (hrand w.randCalls).1
      have h1 := (hrand w.randCalls).2
      refine ⟨by simp only; omega, by simp only; omega, ?_, ?_⟩
      · simp only; norm_num; linarith
      · simp only; norm_num; linarith

theorem cacheLong_spawnShipOwn {greatCircle : Node → Node → List Coord}
    (hgc : ∀ a b, 2 ≤ (greatCircle a b).length) (rand : Nat → ℚ) (id A B : String)
    {w : World} (h : CacheLong w.ROUTE_MAP) :
    CacheLong (spawnShipOwn greatCircle rand id A B w).ROUTE_MAP := by
  rw [spawnShipOwn_ROUTE_MAP]
  exact cacheLong_getArcCoordsOwn hgc h A B

/-- Building the registry leaves every ship in position and the cache long. -/
theorem buildShipsForPairsOwn_moverInv {greatCircle : Node → Node → List Coord}
    {rand : Nat → ℚ} (hgc : ∀ a b, 2 ≤ (greatCircle a b).length)
    (hrand : ∀ i, 0 ≤ rand i ∧ rand i < 1) (pairs : List (String × String)) {w : World}
    (hc : CacheLong w.ROUTE_MAP) (hn : ∀ k ∈ objKeys NODES, k ∈ objKeys w.currentNodes) :
    MoverInv (buildShipsForPairsOwn greatCircle rand pairs w) := by
  have := foldl_spawnBothOwn_induction greatCircle rand
    (fun w' => (∀ V ∈ w'.SHIPS, ShipOK V) ∧ CacheLong w'.ROUTE_MAP)
    (fun id A B w' h => ⟨shipOK_spawnShipOwn hrand id A B w' h.1,
      cacheLong_spawnShipOwn hgc rand id A B h.2⟩)
    pairs ({ w with SHIPS := [] }, 1) ⟨(by intro V hV; cases hV), hc⟩
  refine ⟨this.1, this.2, ?_⟩
  rw [buildShipsForPairsOwn_currentNodes]
  exact hn

/-! ## The position invariant in reachable states -/

theorem moverInv_of_eq {w w' : World} (h : MoverInv w) (h1 : w'.SHIPS = w.SHIPS)
    (h2 : w'.ROUTE_MAP = w.ROUTE_MAP) (h3 : w'.currentNodes = w.currentNodes) :
    MoverInv w' := by
  unfold MoverInv at *
  rw [h1, h2, h3]
  exact h

theorem startDisrupt_ROUTE_MAP (w : World) : (startDisrupt w).ROUTE_MAP = w.ROUTE_MAP := by
  unfold startDisrupt
  split
  · rfl
  · simp only
    split <;> rfl

theorem startDisrupt_SHIPS (w : World) :
    (startDisrupt w).SHIPS = if w.DISRUPTED then w.SHIPS else w.SHIPS.map disruptShip := by
  unfold startDisrupt
  split
  · rfl
  · simp only
    split <;> rfl

theorem shipOK_disruptShip {V : Ship} (h : ShipOK V) : ShipOK (disruptShip V) := by
  rw [disruptShip_eq]
  split
  · exact h
  · exact h

theorem startDisrupt_moverInv {w : World} (h : MoverInv w) : MoverInv (startDisrupt w) := by
  refine ⟨?_, ?_, ?_⟩
  · rw [startDisrupt_SHIPS]
    split
    · exact h.1
    · intro V hV
      obtain ⟨U, hU, rfl⟩ := List.mem_map.1 hV
      exact shipOK_disruptShip (h.1 U hU)
  · rw [startDisrupt_ROUTE_MAP]; exact h.2.1
  · rw [startDisrupt_currentNodes]; exact h.2.2

theorem getArcCoordsOwn_long {greatCircle : Node → Node → List Coord}
    (hgc : ∀ a b, 2 ≤ (greatCircle a b).length) {w : World} (hc : CacheLong w.ROUTE_MAP)
    {A B : String} (hA : A ∈ objKeys w.currentNodes) (hB : B ∈ objKeys w.currentNodes) :
    2 ≤ (getArcCoordsOwn greatCircle A B w).1.length := by
  obtain ⟨a, ha⟩ := (objGet_isSome_iff _ A).2 hA
  obtain ⟨b, hb⟩ := (objGet_isSome_iff _ B).2 hB
  unfold getArcCoordsOwn
  cases hm : mapGet w.ROUTE_MAP (routeKey A B) with
  | some c => exact hc _ c hm
  | none => simp only [ha, hb]; exact hgc a b

theorem buildForwardOwn_SHIPS (greatCircle : Node → Node → List Coord) :
    ∀ (legs : List (String × String)) (i : Nat) (forward : List Coord) (w : World),
      (buildForwardOwn greatCircle legs i forward w).2.SHIPS = w.SHIPS
  | [], _, _, _ => rfl
  | leg :: rest, i, forward, w => by
      unfold buildForwardOwn
      simp only
      split
      · rw [buildForwardOwn_SHIPS greatCircle rest]; simp
      · split
        · rw [buildForwardOwn_SHIPS greatCircle rest]; simp
        · rw [buildForwardOwn_SHIPS greatCircle rest]; simp

theorem cacheLong_buildForwardOwn {greatCircle : Node → Node → List Coord}
    (hgc : ∀ a b, 2 ≤ (greatCircle a b).length) :
    ∀ (legs : List (String × String)) (i : Nat) (forward : List Coord) (w : World),
      CacheLong w.ROUTE_MAP → CacheLong (buildForwardOwn greatCircle legs i forward w).2.ROUTE_MAP
  | [], _, _, _, h => h
  | leg :: rest, i, forward, w, h => by
      have h1 := cacheLong_getArcCoordsOwn hgc h leg.1 leg.2
      unfold buildForwardOwn
      simp only
      split
      · exact cacheLong_buildForwardOwn hgc rest _ _ _ h1
      · split
        · exact cacheLong_buildForwardOwn hgc rest _ _ _ h1
        · exact cacheLong_buildForwardOwn hgc rest _ _ _ h1

theorem buildForwardOwn_length_le (greatCircle : Node → Node → List Coord) :
    ∀ (legs : List (String × String)) (i : Nat) (forward : List Coord) (w : World),
      forward.length ≤ (buildForwardOwn greatCircle legs i forward w).1.length
  | [], _, _, _ => le_refl _
  | leg :: rest, i, forward, w => by
      unfold buildForwardOwn
      simp only
      split
      · exact buildForwardOwn_length_le greatCircle rest _ _ _
      · split
        · refine le_trans ?_ (buildForwardOwn_length_le greatCircle rest _ _ _)
          simp
        · refine le_trans ?_ (buildForwardOwn_length_le greatCircle rest _ _ _)
          simp

/-- With the first leg of at least two points, the alternate path has two points. -/
theorem buildForwardOwn_long (greatCircle : Node → Node → List Coord) (w : World)
    (h : 2 ≤ (getArcCoordsOwn greatCircle "SG" "VN" w).1.length) :
    2 ≤ (buildForwardOwn greatCircle REROUTE_PATH 0 [] w).1.length := by
  unfold REROUTE_PATH buildForwardOwn
  simp only
  rw [if_neg (by omega), if_pos True.intro]
  refine le_trans ?_ (buildForwardOwn_length_le greatCircle _ _ _ _)
  simpa using h

theorem shipOK_correctShip {forward : List Coord} (hf : 2 ≤ forward.length) {V : Ship}
    (h : ShipOK V) : ShipOK (correctShip forward forward.reverse V) := by
  unfold correctShip
  split
  · simp only
    split
    · exact ⟨hf, by simp only; omega, le_refl _, by norm_num⟩
    · split
      · exact ⟨by simpa using hf, by simp only [List.length_reverse]; omega, le_refl _,
          by norm_num⟩
      · exact h
  · exact h

theorem applyCorrect_active (greatCircle : Node → Node → List Coord) (w : World)
    (h : w.DISRUPTED = true) :
    (applyCorrect greatCircle w).SHIPS =
      (buildForwardOwn greatCircle REROUTE_PATH 0 []
        (clearAlert (setFix (REROUTE_PATH.map (fun p => routeKey p.1 p.2)) w))).2.SHIPS.map
        (correctShip
          (buildForwardOwn greatCircle REROUTE_PATH 0 []
            (clearAlert (setFix (REROUTE_PATH.map (fun p => routeKey p.1 p.2)) w))).1
          (buildForwardOwn greatCircle REROUTE_PATH 0 []
            (clearAlert (setFix (REROUTE_PATH.map (fun p => routeKey p.1 p.2)) w))).1.reverse) ∧
    (applyCorrect greatCircle w).ROUTE_MAP =
      (buildForwardOwn greatCircle REROUTE_PATH 0 []
        (clearAlert (setFix (REROUTE_PATH.map (fun p => routeKey p.1 p.2)) w))).2.ROUTE_MAP := by
  rw [applyCorrect_eq]
  rw [if_neg (by simp [h])]
  simp only
  split <;> exact ⟨rfl, rfl⟩

theorem applyCorrect_idle (greatCircle : Node → Node → List Coord) (w : World)
    (h : w.DISRUPTED = false) :
    (applyCorrect greatCircle w).SHIPS = w.SHIPS ∧
    (applyCorrect greatCircle w).ROUTE_MAP = w.ROUTE_MAP := by
  rw [applyCorrect_eq]
  rw [if_pos (by simp [h])]
  exact ⟨rfl, rfl⟩

theorem applyCorrect_moverInv {greatCircle : Node → Node → List Coord}
    (hgc : ∀ a b, 2 ≤ (greatCircle a b).length) {w : World} (h : MoverInv w) :
    MoverInv (applyCorrect greatCircle w) := by
  cases hD : w.DISRUPTED with
  | false =>
      exact moverInv_of_eq h (applyCorrect_idle greatCircle w hD).1
        (applyCorrect_idle greatCircle w hD).2 (applyCorrect_currentNodes greatCircle w)
  | true =>
      obtain ⟨eS, eM⟩ := applyCorrect_active greatCircle w hD
      have hn1 : ∀ k ∈ objKeys NODES, k ∈ objKeys
          (clearAlert (setFix (REROUTE_PATH.map (fun p => routeKey p.1 p.2)) w)).currentNodes :=
        h.2.2
      have hc1 : CacheLong
          (clearAlert (setFix (REROUTE_PATH.map (fun p => routeKey p.1 p.2)) w)).ROUTE_MAP :=
        h.2.1
      have hs1 : (clearAlert (setFix (REROUTE_PATH.map (fun p => routeKey p.1 p.2)) w)).SHIPS =
          w.SHIPS := rfl
      generalize clearAlert (setFix (REROUTE_PATH.map (fun p => routeKey p.1 p.2)) w) = w1
        at eS eM hn1 hc1 hs1
      have hSG : "SG" ∈ objKeys w1.currentNodes := hn1 "SG" (by simp [NODES, objKeys])
      have hVN : "VN" ∈ objKeys w1.currentNodes := hn1 "VN" (by simp [NODES, objKeys])
      have hl := buildForwardOwn_long greatCircle w1 (getArcCoordsOwn_long hgc hc1 hSG hVN)
      refine ⟨?_, ?_, ?_⟩
      · intro V hV
        rw [eS, buildForwardOwn_SHIPS, hs1] at hV
        obtain ⟨U, hU, rfl⟩ := List.mem_map.1 hV
        exact shipOK_correctShip hl (h.1 U hU)
      · rw [eM]
        exact cacheLong_buildForwardOwn hgc _ _ _ _ hc1
      · rw [applyCorrect_currentNodes]; exact h.2.2

theorem rebuildRoutesFromPairsOwn_SHIPS (greatCircle : Node → Node → List Coord)
    (pairs : List (String × String)) (w : World) :
    (rebuildRoutesFromPairsOwn greatCircle pairs w).SHIPS = w.SHIPS := by
  unfold rebuildRoutesFromPairsOwn
  have h0 : ({ w with ROUTES := [], ROUTE_MAP := [] } : World).SHIPS = w.SHIPS := rfl
  generalize ({ w with ROUTES := [], ROUTE_MAP := [] } : World) = w0 at h0
  induction pairs generalizing w0 with
  | nil => exact h0
  | cons p ps ih =>
      rw [List.foldl_cons]
      apply ih
      unfold rebuildRoutesFromPairsStepOwn
      simp only
      split <;> simpa using h0

theorem rebuildRoutes_SHIPS (greatCircle : Node → Node → List Coord) (nodeSet : NodeSet)
    (w : World) : (rebuildRoutes greatCircle nodeSet w).SHIPS = w.SHIPS := by
  rw [rebuildRoutes_frame]

theorem pushMsg_moverInv (t kind : String) {w : World} (h : MoverInv w) :
    MoverInv (pushMsg t kind w) :=
  moverInv_of_eq h rfl rfl rfl

theorem completeBuild_moverInv {greatCircle : Node → Node → List Coord} {rand : Nat → ℚ}
    (hgc : ∀ a b, 2 ≤ (greatCircle a b).length) (hrand : ∀ i, 0 ≤ rand i ∧ rand i < 1)
    (w : World) (hn : ∀ k ∈ objKeys NODES, k ∈ objKeys w.currentNodes) :
    MoverInv (buildShipsForNodesOwn greatCircle rand w.currentNodes
      (rebuildRoutes greatCircle w.currentNodes w)) := by
  rw [buildShipsForNodesOwn_eq]
  refine buildShipsForPairsOwn_moverInv hgc hrand _ (cacheLong_rebuildRoutes hgc _ _) ?_
  rw [rebuildRoutes_currentNodes]
  exact hn

theorem backToNormal_moverInv {greatCircle : Node → Node → List Coord} {rand : Nat → ℚ}
    (hgc : ∀ a b, 2 ≤ (greatCircle a b).length) (hrand : ∀ i, 0 ≤ rand i ∧ rand i < 1)
    {w : World} (h : MoverInv w) : MoverInv (backToNormal greatCircle rand w) := by
  rw [backToNormal_eq]
  simp only [rebuildRoutes_currentNodes]
  exact pushMsg_moverInv _ _
    (completeBuild_moverInv hgc hrand (clearFix (clearAlert { w with DISRUPTED := false }))
      h.2.2)

theorem applyHubHK_moverInv {greatCircle : Node → Node → List Coord} {rand : Nat → ℚ}
    (hgc : ∀ a b, 2 ≤ (greatCircle a b).length) (hrand : ∀ i, 0 ≤ rand i ∧ rand i < 1)
    {w : World} (h : MoverInv w) : MoverInv (applyHubHK greatCircle rand w) := by
  rw [applyHubHK_eq]
  simp only
  refine pushMsg_moverInv _ _ (buildShipsForPairsOwn_moverInv hgc hrand _
    (cacheLong_rebuildRoutesFromPairsOwn hgc _ _) ?_)
  rw [rebuildRoutesFromPairsOwn_currentNodes]
  intro k hk
  obtain ⟨v, hv⟩ := (objGet_isSome_iff _ k).2 (h.2.2 k hk)
  exact objGet_mem_keys ((objGet_ensureHK w).2.1 k v hv)

theorem addPortByCode_moverInv {greatCircle : Node → Node → List Coord} {rand : Nat → ℚ}
    (hgc : ∀ a b, 2 ≤ (greatCircle a b).length) (hrand : ∀ i, 0 ≤ rand i ∧ rand i < 1)
    {w : World} (h : MoverInv w) (code : Option String) :
    MoverInv (addPortByCode greatCircle rand code w) := by
  rw [addPortByCode_eq]
  simp only
  cases hn : objGet NEW_PORTS (code.getD "").toUpper with
  | none => exact pushMsg_moverInv _ _ h
  | some node =>
      cases hk : objGet w.currentNodes (code.getD "").toUpper with
      | some _ => exact pushMsg_moverInv _ _ h
      | none =>
          simp only [rebuildRoutes_currentNodes]
          refine pushMsg_moverInv _ _ (completeBuild_moverInv hgc hrand
            { w with currentNodes := mapSet w.currentNodes (code.getD "").toUpper node } ?_)
          intro k hk'
          exact (mem_objKeys_mapSet _ _ _ _).2 (Or.inr (h.2.2 k hk'))

theorem tick_moverInv {rand : Nat → ℚ} (hrand : ∀ i, 0 ≤ rand i ∧ rand i < 1)
    (elapsed zoom : ℚ) (pxLen : Coord → Coord → ℚ) {w : World} (h : MoverInv w) :
    MoverInv (tick rand elapsed zoom pxLen w) :=
  ⟨shipOK_tickLoop hrand _ zoom pxLen w.SHIPS w.randCalls h.1, h.2.1, h.2.2⟩

theorem boot_moverInv {greatCircle : Node → Node → List Coord} {rand : Nat → ℚ}
    (hgc : ∀ a b, 2 ≤ (greatCircle a b).length) (hrand : ∀ i, 0 ≤ rand i ∧ rand i < 1) :
    MoverInv (boot greatCircle rand) := by
  rw [boot_eq]
  simp only [rebuildRoutes_currentNodes]
  exact pushMsg_moverInv _ _ (completeBuild_moverInv hgc hrand initWorld (fun k hk => hk))

/-- Every reachable state keeps its movers in position. -/
theorem reachable_moverInv {greatCircle : Node → Node → List Coord} {rand : Nat → ℚ}
    (hgc : ∀ a b, 2 ≤ (greatCircle a b).length) (hrand : ∀ i, 0 ≤ rand i ∧ rand i < 1)
    {w : World} (h : Reachable greatCircle rand w) : MoverInv w := by
  induction h with
  | boot => exact boot_moverInv hgc hrand
  | disrupt _ ih => exact startDisrupt_moverInv ih
  | correct _ ih => exact applyCorrect_moverInv hgc ih
  | normal _ ih => exact backToNormal_moverInv hgc hrand ih
  | hub _ ih => exact applyHubHK_moverInv hgc hrand ih
  | addPort code _ ih => exact addPortByCode_moverInv hgc hrand ih code
  | frame elapsed zoom pxLen _ ih => exact tick_moverInv hrand elapsed zoom pxLen ih
  | echo t kind _ ih => exact pushMsg_moverInv t kind ih
  | rebuild _ ih =>
      exact ⟨by rw [rebuildRoutes_SHIPS]; exact ih.1, cacheLong_rebuildRoutes hgc _ _,
        by rw [rebuildRoutes_currentNodes]; exact ih.2.2⟩
  | fromPairs pairs _ ih =>
      obtain ⟨done, hd⟩ := rebuildRoutesFromPairs_world greatCircle pairs _
      rw [hd]
      exact ⟨by rw [rebuildRoutesFromPairsOwn_SHIPS]; exact ih.1,
        cacheLong_rebuildRoutesFromPairsOwn hgc _ _,
        by rw [rebuildRoutesFromPairsOwn_currentNodes]; exact ih.2.2⟩
  | getArc A B _ ih =>
      rw [getArcCoords_world]
      exact ⟨by rw [getArcCoordsOwn_SHIPS]; exact ih.1, cacheLong_getArcCoordsOwn hgc ih.2.1 A B,
        by rw [getArcCoordsOwn_currentNodes]; exact ih.2.2⟩

/-! ## C11 -/

/-- C11: with curves of at least two points and `Math.random` in `[0, 1)`, in every
reachable state every mover has a path of at least two points, a segment index between
`0` and `path.length - 2`, and a progress in `[0, 1)`. On such a mover `advanceShip`,
for any `dt`, zoom and on-screen lengths, never throws: a paused mover is returned as
it is, a running one moves on by the whole part of its new progress and keeps the
remainder, or restarts at segment `0` with progress `Math.random() * 0.2` when that
would take it past the last segment, as it does whenever it is on the final segment
and its progress reaches `1`. The bound on the iterations of the loop is enough: more
iterations give the same result. -/
theorem mover_position_invariant (greatCircle : Node → Node → List Coord) (rand : Nat → ℚ)
    (hgc : ∀ a b, 2 ≤ (greatCircle a b).length) (hrand : ∀ i, 0 ≤ rand i ∧ rand i < 1)
    (w : World) (hw : Reachable greatCircle rand w) :
    ∀ V ∈ w.SHIPS,
      (2 ≤ V.path.length ∧ V.seg ≤ V.path.length - 2 ∧ 0 ≤ V.t ∧ V.t < 1) ∧
      ∀ (dt zoom : ℚ) (pxLen : Coord → Coord → ℚ) (calls : Nat),
        (V.paused = true → advanceShip rand dt zoom pxLen V calls = some (V, calls)) ∧
        (V.paused = false → advanceShip rand dt zoom pxLen V calls =
          some (advancedShip rand dt zoom pxLen V calls)) ∧
        (V.seg + 2 = V.path.length → 1 ≤ V.t + stepSize dt zoom pxLen V →
          advancedShip rand dt zoom pxLen V calls =
            ({ V with seg := 0, t := rand calls * 0.2 }, calls + 1)) ∧
        ShipOK (advancedShip rand dt zoom pxLen V calls).1 ∧
        ∀ extra : Nat,
          advanceLoop V.path.length (rand calls * 0.2)
              (⌊V.t + stepSize dt zoom pxLen V⌋.toNat + 1 + extra) V.seg
              (V.t + stepSize dt zoom pxLen V) =
            advanceLoop V.path.length (rand calls * 0.2)
              (⌊V.t + stepSize dt zoom pxLen V⌋.toNat + 1) V.seg
              (V.t + stepSize dt zoom pxLen V) := by
  intro V hV
  have hok : ShipOK V := (reachable_moverInv hgc hrand hw).1 V hV
  refine ⟨⟨hok.1, by have := hok.2.1; omega, hok.2.2.1, hok.2.2.2⟩, ?_⟩
  intro dt zoom pxLen calls
  have hpos := stepSize_pos dt zoom pxLen hok
  have ht1 : 0 ≤ V.t + stepSize dt zoom pxLen V := by linarith [hok.2.2.1]
  refine ⟨?_, fun hp => advanceShip_eq rand dt zoom pxLen hok hp calls, ?_,
    shipOK_advancedShip hrand dt zoom pxLen hok calls,
    fun extra => advanceLoop_fuel _ _ _ _ ht1 hok.2.1 extra⟩
  · intro hp
    unfold advanceShip
    rw [if_pos hp]
  · intro hlast hone
    have hfl : 1 ≤ ⌊V.t + stepSize dt zoom pxLen V⌋ := Int.le_floor.2 (by exact_mod_cast hone)
    unfold advancedShip
    simp only
    rw [if_neg (by omega)]

/-- C11 for the state reached from boot by a disruption, a correction and a frame. -/
theorem mover_position_invariant_witness :
    (∀ a b, 2 ≤ (straightLine a b).length) ∧
    (∀ i : Nat, (0 : ℚ) ≤ (fun _ => 0) i ∧ (fun _ => (0 : ℚ)) i < 1) ∧
    Reachable straightLine (fun _ => 0)
      (tick (fun _ => 0) 1 5 (fun _ _ => 10)
        (applyCorrect straightLine (startDisrupt (boot straightLine (fun _ => 0))))) ∧
    ∀ V ∈ (tick (fun _ => 0) 1 5 (fun _ _ => 10)
        (applyCorrect straightLine (startDisrupt (boot straightLine (fun _ => 0))))).SHIPS,
      2 ≤ V.path.length ∧ V.seg ≤ V.path.length - 2 ∧ 0 ≤ V.t ∧ V.t < 1 :=
  ⟨straightLine_length, fun _ => ⟨le_refl 0, zero_lt_one⟩,
    Reachable.frame 1 5 (fun _ _ => 10)
      (Reachable.correct (Reachable.disrupt Reachable.boot)),
    fun V hV =>
      (mover_position_invariant straightLine (fun _ => 0) straightLine_length
        (fun _ => ⟨le_refl 0, zero_lt_one⟩) _
        (Reachable.frame 1 5 (fun _ _ => 10)
          (Reachable.correct (Reachable.disrupt Reachable.boot))) V hV).1⟩

/-! ## C12 -/

/-- The results of the dispatcher are reachable states. -/
theorem reachable_handleCommand {greatCircle : Node → Node → List Coord} {rand : Nat → ℚ}
    (toLowerCase : String → String) (raw : Option String) {w : World}
    (h : Reachable greatCircle rand w) :
    Reachable greatCircle rand (handleCommand greatCircle rand toLowerCase raw w) := by
  have h1 := Reachable.echo (jsTrim (raw.getD "")) "user" h
  unfold handleCommand
  simp only
  split
  · exact h
  · split
    · exact Reachable.disrupt h1
    · split
      · exact Reachable.correct h1
      · split
        · exact Reachable.normal h1
        · split
          · exact Reachable.addPort _ h1
          · split
            · exact Reachable.addPort _ h1
            · split
              · exact Reachable.hub h1
              · exact Reachable.echo _ _ h1

/-- C12, as amended: let `cmd` be the trimmed input and `k` its lower-cased form. When
`cmd` is empty `handleCommand` returns at once and the state is as before, with no
notice. Otherwise it echoes `cmd` to the chat log and then applies exactly
`startDisrupt` if `k` is `disrupt`, `applyCorrect` if `correct`, `backToNormal` if
`normal`, `addPortByCode("PH")` if `add ph` or `addph`, `addPortByCode("HK")` if
`add hk` or `addhk`, `applyHubHK` if `hub hk` or `hubhk`; for any other `k` it applies
no scenario action: only the chat log changes, by the echo and the help notice. -/
theorem handleCommand_dispatch (greatCircle : Node → Node → List Coord) (rand : Nat → ℚ)
    (toLowerCase : String → String) (raw : Option String) (w : World) :
    (jsTrim (raw.getD "") = "" →
      handleCommand greatCircle rand toLowerCase raw w = w) ∧
    (jsTrim (raw.getD "") ≠ "" →
      (toLowerCase (jsTrim (raw.getD "")) = "disrupt" →
        handleCommand greatCircle rand toLowerCase raw w =
          startDisrupt (pushMsg (jsTrim (raw.getD "")) "user" w)) ∧
      (toLowerCase (jsTrim (raw.getD "")) = "correct" →
        handleCommand greatCircle rand toLowerCase raw w =
          applyCorrect greatCircle (pushMsg (jsTrim (raw.getD "")) "user" w)) ∧
      (toLowerCase (jsTrim (raw.getD "")) = "normal" →
        handleCommand greatCircle rand toLowerCase raw w =
          backToNormal greatCircle rand (pushMsg (jsTrim (raw.getD "")) "user" w)) ∧
      (toLowerCase (jsTrim (raw.getD "")) = "add ph" ∨
          toLowerCase (jsTrim (raw.getD "")) = "addph" →
        handleCommand greatCircle rand toLowerCase raw w =
          addPortByCode greatCircle rand (some "PH")
            (pushMsg (jsTrim (raw.getD "")) "user" w)) ∧
      (toLowerCase (jsTrim (raw.getD "")) = "add hk" ∨
          toLowerCase (jsTrim (raw.getD "")) = "addhk" →
        handleCommand greatCircle rand toLowerCase raw w =
          addPortByCode greatCircle rand (some "HK")
            (pushMsg (jsTrim (raw.getD "")) "user" w)) ∧
      (toLowerCase (jsTrim (raw.getD "")) = "hub hk" ∨
          toLowerCase (jsTrim (raw.getD "")) = "hubhk" →
        handleCommand greatCircle rand toLowerCase raw w =
          applyHubHK greatCircle rand (pushMsg (jsTrim (raw.getD "")) "user" w)) ∧
      (toLowerCase (jsTrim (raw.getD "")) ∉ commandTokens →
        handleCommand greatCircle rand toLowerCase raw w =
          { w with msgs := w.msgs ++ [⟨jsTrim (raw.getD ""), "user"⟩, helpNotice] })) := by
  refine ⟨fun h => by unfold handleCommand; simp only; rw [if_pos h], fun hne => ?_⟩
  refine ⟨?_, ?_, ?_, ?_, ?_, ?_, ?_⟩
  · intro hk
    unfold handleCommand
    simp only
    rw [if_neg hne, if_pos hk]
  · intro hk
    unfold handleCommand
    simp only
    rw [if_neg hne, if_neg (by rw [hk]; decide), if_pos hk]
  · intro hk
    unfold handleCommand
    simp only
    rw [if_neg hne, if_neg (by rw [hk]; decide), if_neg (by rw [hk]; decide), if_pos hk]
  · intro hk
    unfold handleCommand
    simp only
    rw [if_neg hne, if_neg (by rcases hk with hk | hk <;> rw [hk] <;> decide),
      if_neg (by rcases hk with hk | hk <;> rw [hk] <;> decide),
      if_neg (by rcases hk with hk | hk <;> rw [hk] <;> decide), if_pos hk]
  · intro hk
    unfold handleCommand
    simp only
    rw [if_neg hne, if_neg (by rcases hk with hk | hk <;> rw [hk] <;> decide),
      if_neg (by rcases hk with hk | hk <;> rw [hk] <;> decide),
      if_neg (by rcases hk with hk | hk <;> rw [hk] <;> decide),
      if_neg (by rcases hk with hk | hk <;> rw [hk] <;> decide), if_pos hk]
  · intro hk
    unfold handleCommand
    simp only
    rw [if_neg hne, if_neg (by rcases hk with hk | hk <;> rw [hk] <;> decide),
      if_neg (by rcases hk with hk | hk <;> rw [hk] <;> decide),
      if_neg (by rcases hk with hk | hk <;> rw [hk] <;> decide),
      if_neg (by rcases hk with hk | hk <;> rw [hk] <;> decide),
      if_neg (by rcases hk with hk | hk <;> rw [hk] <;> decide), if_pos hk]
  · intro hk
    simp only [commandTokens, List.mem_cons, List.mem_singleton, List.not_mem_nil, or_false,
      not_or] at hk
    obtain ⟨k1, k2, k3, k4, k5, k6, k7, k8, k9⟩ := hk
    unfold handleCommand
    simp only
    rw [if_neg hne, if_neg k1, if_neg k2, if_neg k3, if_neg (not_or.2 ⟨k4, k5⟩),
      if_neg (not_or.2 ⟨k6, k7⟩), if_neg (not_or.2 ⟨k8, k9⟩)]
    simp [pushMsg, helpNotice]

/-- C12 for the input ` Hub HK ` on the initial world. -/
theorem handleCommand_dispatch_witness :
    jsTrim ((some " Hub HK " : Option String).getD "") ≠ "" ∧
    asciiLower (jsTrim ((some " Hub HK " : Option String).getD "")) = "hub hk" ∧
    handleCommand straightLine (fun _ => 0) asciiLower (some " Hub HK ") initWorld =
      applyHubHK straightLine (fun _ => 0) (pushMsg "Hub HK" "user" initWorld) :=
  ⟨by decide, by decide,
    ((handleCommand_dispatch straightLine (fun _ => 0) asciiLower (some " Hub HK ")
      initWorld).2 (by decide)).2.2.2.2.2.1 (Or.inl (by decide))⟩

/-- C12 as stated fails on the empty input: its trimmed, lower-cased form is none of
the tokens, yet `handleCommand` returns at once and no help notice is written. -/
theorem handleCommand_empty_counterexample :
    asciiLower (jsTrim ((some "" : Option String).getD "")) ∉ commandTokens ∧
    helpNotice ∉
      (handleCommand straightLine (fun _ => 0) asciiLower (some "") initWorld).msgs ∧
    handleCommand straightLine (fun _ => 0) asciiLower (some "") initWorld = initWorld := by
  refine ⟨by decide, by decide, rfl⟩

/-! ## C13 -/

theorem flagInv_of_fresh {w : World} (h : ∀ V ∈ w.SHIPS, Fresh V) : FlagInv w := by
  intro V hV hp
  have hf := h V hV
  rcases hp with hp | hp
  · rw [hf.2.1] at hp; cases hp
  · rw [hf.2.2.1] at hp; cases hp

theorem flagInv_of_eq {w w' : World} (h : FlagInv w) (h1 : w'.SHIPS = w.SHIPS)
    (h2 : w'.DISRUPTED = w.DISRUPTED) : FlagInv w' := by
  unfold FlagInv at *
  rw [h1, h2]
  exact h

theorem flagInv_of_tags {w w' : World} (h : FlagInv w)
    (h1 : w'.SHIPS.map tags = w.SHIPS.map tags) (h2 : w'.DISRUPTED = w.DISRUPTED) :
    FlagInv w' := by
  intro V hV hp
  have hm : tags V ∈ w.SHIPS.map tags := by
    rw [← h1]; exact List.mem_map_of_mem _ hV
  obtain ⟨U, hU, e⟩ := List.mem_map.1 hm
  simp only [tags, Prod.mk.injEq] at e
  obtain ⟨e1, e2, e3, e4⟩ := e
  rw [h2, ← e3, ← e4]
  exact h U hU (by rw [e1, e2]; exact hp)

theorem advanceShip_tags (rand : Nat → ℚ) (dt zoom : ℚ) (pxLen : Coord → Coord → ℚ)
    (V : Ship) (calls : Nat) {r : Ship × Nat}
    (h : advanceShip rand dt zoom pxLen V calls = some r) : tags r.1 = tags V := by
  unfold advanceShip at h
  split at h
  · cases h; rfl
  · split at h
    · cases h
    · simp only [Option.some.injEq] at h
      rw [← h]
      rfl

theorem tickLoop_tags (rand : Nat → ℚ) (dt zoom : ℚ) (pxLen : Coord → Coord → ℚ) :
    ∀ (S : List Ship) (calls : Nat),
      (tickLoop rand dt zoom pxLen S calls).1.map tags = S.map tags
  | [], _ => rfl
  | V :: rest, calls => by
      unfold tickLoop
      cases hr : advanceShip rand dt zoom pxLen V calls with
      | none => rfl
      | some r =>
          simp only [List.map_cons]
          rw [advanceShip_tags rand dt zoom pxLen V calls hr,
            tickLoop_tags rand dt zoom pxLen rest r.2]

theorem startDisrupt_flagInv {w : World} (h : FlagInv w) : FlagInv (startDisrupt w) := by
  intro V hV hp
  refine ⟨startDisrupt_DISRUPTED w, ?_⟩
  rw [startDisrupt_SHIPS] at hV
  cases hD : w.DISRUPTED with
  | true =>
      rw [hD, if_pos rfl] at hV
      exact (h V hV hp).2
  | false =>
      rw [hD, if_neg (by simp)] at hV
      obtain ⟨U, hU, rfl⟩ := List.mem_map.1 hV
      rw [disruptShip_eq] at hp ⊢
      by_cases hpair : isDisruptedPair (ends U)
      · rw [if_pos hpair]; exact hpair
      · rw [if_neg hpair] at hp
        have := (h U hU hp).1
        rw [hD] at this
        cases this

theorem correctShip_tags (forward backward : List Coord) (V : Ship) :
    (correctShip forward backward V).A = V.A ∧ (correctShip forward backward V).B = V.B ∧
    (correctShip forward backward V).affected = V.affected ∧
    ((correctShip forward backward V).paused = true → V.paused = true) := by
  unfold correctShip
  split
  · simp only
    split
    · exact ⟨rfl, rfl, rfl, fun h => by cases h⟩
    · split
      · exact ⟨rfl, rfl, rfl, fun h => by cases h⟩
      · exact ⟨rfl, rfl, rfl, fun h => by cases h⟩
  · exact ⟨rfl, rfl, rfl, fun h => h⟩

theorem applyCorrect_DISRUPTED (greatCircle : Node → Node → List Coord) (w : World) :
    (applyCorrect greatCircle w).DISRUPTED = w.DISRUPTED := by
  rw [applyCorrect_eq]
  split
  · rfl
  · simp only
    have hb : ∀ (legs : List (String × String)) (i : Nat) (f : List Coord) (w' : World),
        (buildForwardOwn greatCircle legs i f w').2.DISRUPTED = w'.DISRUPTED := by
      intro legs
      induction legs with
      | nil => intro i f w'; rfl
      | cons leg rest ih =>
          intro i f w'
          unfold buildForwardOwn
          simp only
          split
          · rw [ih]; simp
          · split
            · rw [ih]; simp
            · rw [ih]; simp
    split
    · simp only [pushMsg_DISRUPTED, hb]; rfl
    · simp only [hb]; rfl

theorem applyCorrect_flagInv (greatCircle : Node → Node → List Coord) {w : World}
    (h : FlagInv w) : FlagInv (applyCorrect greatCircle w) := by
  cases hD : w.DISRUPTED with
  | false =>
      exact flagInv_of_eq h (applyCorrect_idle greatCircle w hD).1
        (applyCorrect_DISRUPTED greatCircle w)
  | true =>
      obtain ⟨eS, _⟩ := applyCorrect_active greatCircle w hD
      intro V hV hp
      rw [applyCorrect_DISRUPTED]
      rw [eS, buildForwardOwn_SHIPS] at hV
      obtain ⟨U, hU, rfl⟩ := List.mem_map.1 hV
      obtain ⟨tA, tB, tF, tP⟩ := correctShip_tags
        (buildForwardOwn greatCircle REROUTE_PATH 0 []
          (clearAlert (setFix (REROUTE_PATH.map (fun p => routeKey p.1 p.2)) w))).1
        (buildForwardOwn greatCircle REROUTE_PATH 0 []
          (clearAlert (setFix (REROUTE_PATH.map (fun p => routeKey p.1 p.2)) w))).1.reverse U
      rw [tA, tB]
      refine h U hU ?_
      rcases hp with hp | hp
      · exact Or.inl (tP hp)
      · exact Or.inr (tF ▸ hp)

theorem backToNormal_flagInv (greatCircle : Node → Node → List Coord) (rand : Nat → ℚ)
    (w : World) : FlagInv (backToNormal greatCircle rand w) := by
  apply flagInv_of_fresh
  rw [(backToNormal_fields greatCircle rand w).2.1]
  exact fresh_buildShipsForPairsOwn greatCircle rand _ _

theorem applyHubHK_flagInv (greatCircle : Node → Node → List Coord) (rand : Nat → ℚ)
    (w : World) : FlagInv (applyHubHK greatCircle rand w) := by
  apply flagInv_of_fresh
  rw [(applyHubHK_fields greatCircle rand w).2]
  exact fresh_buildShipsForPairsOwn greatCircle rand _ _

theorem addPortByCode_flagInv (greatCircle : Node → Node → List Coord) (rand : Nat → ℚ)
    {w : World} (h : FlagInv w) (code : Option String) :
    FlagInv (addPortByCode greatCircle rand code w) := by
  rw [addPortByCode_eq]
  simp only
  cases hn : objGet NEW_PORTS (code.getD "").toUpper with
  | none => exact flagInv_of_eq h rfl rfl
  | some node =>
      cases hk : objGet w.currentNodes (code.getD "").toUpper with
      | some _ => exact flagInv_of_eq h rfl rfl
      | none =>
          simp only
          apply flagInv_of_fresh
          rw [pushMsg_SHIPS]
          exact fresh_buildShipsForPairsOwn greatCircle rand _ _

/-- Every reachable state keeps the scenario invariant. -/
theorem reachable_flagInv {greatCircle : Node → Node → List Coord} {rand : Nat → ℚ}
    {w : World} (h : Reachable greatCircle rand w) : FlagInv w := by
  induction h with
  | boot => exact flagInv_of_fresh (boot_fresh greatCircle rand)
  | disrupt _ ih => exact startDisrupt_flagInv ih
  | correct _ ih => exact applyCorrect_flagInv greatCircle ih
  | normal _ _ => exact backToNormal_flagInv greatCircle rand _
  | hub _ _ => exact applyHubHK_flagInv greatCircle rand _
  | addPort code _ ih => exact addPortByCode_flagInv greatCircle rand ih code
  | frame elapsed zoom pxLen _ ih =>
      exact flagInv_of_tags ih (tickLoop_tags rand _ zoom pxLen _ _) rfl
  | echo t kind _ ih => exact flagInv_of_eq ih rfl rfl
  | rebuild _ ih =>
      exact flagInv_of_eq ih (rebuildRoutes_SHIPS _ _ _) (rebuildRoutes_DISRUPTED _ _ _)
  | fromPairs pairs _ ih =>
      obtain ⟨done, hd⟩ := rebuildRoutesFromPairs_world greatCircle pairs _
      rw [hd]
      exact flagInv_of_eq ih (rebuildRoutesFromPairsOwn_SHIPS _ _ _)
        (rebuildRoutesFromPairsOwn_DISRUPTED _ _ _)
  | getArc A B _ ih =>
      rw [getArcCoords_world]
      exact flagInv_of_eq ih (getArcCoordsOwn_SHIPS _ _ _ _) (getArcCoordsOwn_DISRUPTED _ _ _ _)

/-- C13: in every state reachable from boot by any sequence of `startDisrupt`,
`applyCorrect`, `backToNormal`, `addPortByCode`, `applyHubHK` and animation frames, if
the disruption flag is false then no mover is paused and none is affected; and any
paused or affected mover exists only while the flag is true and has `SG` and `TH`, in
either order, as origin and destination. -/
theorem scenario_flag_invariant (greatCircle : Node → Node → List Coord) (rand : Nat → ℚ)
    (w : World) (hw : Reachable greatCircle rand w) :
    (w.DISRUPTED = false → ∀ V ∈ w.SHIPS, V.paused = false ∧ V.affected = false) ∧
    (∀ V ∈ w.SHIPS, V.paused = true ∨ V.affected = true →
      w.DISRUPTED = true ∧ isDisruptedPair (V.A, V.B)) := by
  have h := reachable_flagInv hw
  refine ⟨?_, h⟩
  intro hD V hV
  constructor
  · cases hp : V.paused with
    | false => rfl
    | true =>
        have := (h V hV (Or.inl hp)).1
        rw [hD] at this
        cases this
  · cases hp : V.affected with
    | false => rfl
    | true =>
        have := (h V hV (Or.inr hp)).1
        rw [hD] at this
        cases this

/-- C13 after a disruption, a correction, an added port and a frame. -/
theorem scenario_flag_invariant_witness :
    Reachable straightLine (fun _ => 0)
      (tick (fun _ => 0) 1 5 (fun _ _ => 10)
        (addPortByCode straightLine (fun _ => 0) (some "PH")
          (applyCorrect straightLine (startDisrupt (boot straightLine (fun _ => 0)))))) ∧
    ∀ V ∈ (tick (fun _ => 0) 1 5 (fun _ _ => 10)
        (addPortByCode straightLine (fun _ => 0) (some "PH")
          (applyCorrect straightLine (startDisrupt (boot straightLine (fun _ => 0)))))).SHIPS,
      V.paused = true ∨ V.affected = true →
        (tick (fun _ => 0) 1 5 (fun _ _ => 10)
          (addPortByCode straightLine (fun _ => 0) (some "PH")
            (applyCorrect straightLine
              (startDisrupt (boot straightLine (fun _ => 0)))))).DISRUPTED = true ∧
        isDisruptedPair (V.A, V.B) :=
  ⟨Reachable.frame 1 5 (fun _ _ => 10)
      (Reachable.addPort (some "PH")
        (Reachable.correct (Reachable.disrupt Reachable.boot))),
    (scenario_flag_invariant straightLine (fun _ => 0) _
      (Reachable.frame 1 5 (fun _ _ => 10)
        (Reachable.addPort (some "PH")
          (Reachable.correct (Reachable.disrupt Reachable.boot))))).2⟩

/-! ## The cache and the default ports in reachable states -/

theorem getArcCoordsOwn_map_congr (greatCircle : Node → Node → List Coord) (A B : String)
    {w w' : World} (h1 : w'.ROUTE_MAP = w.ROUTE_MAP) (h2 : w'.currentNodes = w.currentNodes) :
    (getArcCoordsOwn greatCircle A B w').2.ROUTE_MAP =
      (getArcCoordsOwn greatCircle A B w).2.ROUTE_MAP := by
  unfold getArcCoordsOwn
  rw [h1, h2]
  split
  · exact h1
  · split
    · simp [h1]
    · exact h1

theorem rerouteCurve_eq (greatCircle : Node → Node → List Coord) (w : World) :
    rerouteCurve greatCircle w =
      (getArcCoordsOwn greatCircle "SG" "VN" w).1 ++
        (getArcCoordsOwn greatCircle "VN" "TH" (getArcCoordsOwn greatCircle "SG" "VN" w).2).1.tail := by
  unfold rerouteCurve
  rw [getArcCoords_plain greatCircle
    (objRead_of_not_prototype _ (show "SG" ∉ prototypeNames by decide))
    (objRead_of_not_prototype _ (show "VN" ∉ prototypeNames by decide))]
  simp only
  rw [getArcCoords_plain greatCircle
    (objRead_of_not_prototype _ (show "VN" ∉ prototypeNames by decide))
    (objRead_of_not_prototype _ (show "TH" ∉ prototypeNames by decide))]

theorem buildForwardOwn_legs (greatCircle : Node → Node → List Coord) (w : World)
    (l1 : 2 ≤ (getArcCoordsOwn greatCircle "SG" "VN" w).1.length)
    (l2 : 2 ≤ (getArcCoordsOwn greatCircle "VN" "TH"
      (getArcCoordsOwn greatCircle "SG" "VN" w).2).1.length) :
    buildForwardOwn greatCircle REROUTE_PATH 0 [] w =
      ((getArcCoordsOwn greatCircle "SG" "VN" w).1 ++
        (getArcCoordsOwn greatCircle "VN" "TH" (getArcCoordsOwn greatCircle "SG" "VN" w).2).1.tail,
       (getArcCoordsOwn greatCircle "VN" "TH" (getArcCoordsOwn greatCircle "SG" "VN" w).2).2) := by
  simp [REROUTE_PATH, buildForwardOwn, Nat.not_lt.2 l1, Nat.not_lt.2 l2]

/-- In every reachable state the cached curves have two points and the default ports
are active. -/
theorem reachable_legs {greatCircle : Node → Node → List Coord} {rand : Nat → ℚ}
    (hgc : ∀ a b, 2 ≤ (greatCircle a b).length) {w : World}
    (h : Reachable greatCircle rand w) :
    CacheLong w.ROUTE_MAP ∧ ∀ k ∈ objKeys NODES, k ∈ objKeys w.currentNodes := by
  have hspawn : ∀ (pairs : List (String × String)) (w' : World), CacheLong w'.ROUTE_MAP →
      CacheLong (buildShipsForPairsOwn greatCircle rand pairs w').ROUTE_MAP := fun pairs w' hc =>
    foldl_spawnBothOwn_induction greatCircle rand (fun w'' => CacheLong w''.ROUTE_MAP)
      (fun id A B _ h' => cacheLong_spawnShipOwn hgc rand id A B h') pairs
      ({ w' with SHIPS := [] }, 1) hc
  induction h with
  | boot =>
      rw [boot_eq]
      simp only [pushMsg_ROUTE_MAP, pushMsg_currentNodes, buildShipsForNodesOwn_eq,
        buildShipsForPairsOwn_currentNodes, rebuildRoutes_currentNodes]
      exact ⟨hspawn _ _ (cacheLong_rebuildRoutes hgc _ _), fun k hk => hk⟩
  | disrupt _ ih =>
      rw [startDisrupt_ROUTE_MAP, startDisrupt_currentNodes]; exact ih
  | @correct w' _ ih =>
      rw [applyCorrect_currentNodes]
      refine ⟨?_, ih.2⟩
      cases hD : w'.DISRUPTED with
      | false => rw [(applyCorrect_idle greatCircle w' hD).2]; exact ih.1
      | true =>
          rw [(applyCorrect_active greatCircle w' hD).2]
          exact cacheLong_buildForwardOwn hgc _ _ _ _ ih.1
  | normal _ ih =>
      rw [backToNormal_eq]
      simp only [pushMsg_ROUTE_MAP, pushMsg_currentNodes, buildShipsForNodesOwn_eq,
        buildShipsForPairsOwn_currentNodes, rebuildRoutes_currentNodes]
      exact ⟨hspawn _ _ (cacheLong_rebuildRoutes hgc _ _), ih.2⟩
  | @hub w' _ ih =>
      rw [applyHubHK_eq]
      simp only [pushMsg_ROUTE_MAP, pushMsg_currentNodes,
        buildShipsForPairsOwn_currentNodes, rebuildRoutesFromPairsOwn_currentNodes]
      refine ⟨hspawn _ _ (cacheLong_rebuildRoutesFromPairsOwn hgc _ _), ?_⟩
      intro k hk
      obtain ⟨v, hv⟩ := (objGet_isSome_iff _ k).2 (ih.2 k hk)
      exact objGet_mem_keys ((objGet_ensureHK w').2.1 k v hv)
  | @addPort w' code _ ih =>
      rw [addPortByCode_eq]
      simp only
      cases hn : objGet NEW_PORTS (code.getD "").toUpper with
      | none => exact ih
      | some node =>
          cases hk : objGet w'.currentNodes (code.getD "").toUpper with
          | some _ => exact ih
          | none =>
              simp only [pushMsg_ROUTE_MAP, pushMsg_currentNodes, buildShipsForNodesOwn_eq,
                buildShipsForPairsOwn_currentNodes, rebuildRoutes_currentNodes]
              exact ⟨hspawn _ _ (cacheLong_rebuildRoutes hgc _ _),
                fun k hk' => (mem_objKeys_mapSet _ _ _ _).2 (Or.inr (ih.2 k hk'))⟩
  | frame elapsed zoom pxLen _ ih => exact ih
  | echo t kind _ ih => exact ih
  | rebuild _ ih =>
      exact ⟨cacheLong_rebuildRoutes hgc _ _, by rw [rebuildRoutes_currentNodes]; exact ih.2⟩
  | fromPairs pairs _ ih =>
      obtain ⟨done, hd⟩ := rebuildRoutesFromPairs_world greatCircle pairs _
      rw [hd]
      exact ⟨cacheLong_rebuildRoutesFromPairsOwn hgc _ _,
        by rw [rebuildRoutesFromPairsOwn_currentNodes]; exact ih.2⟩
  | getArc A B _ ih =>
      rw [getArcCoords_world]
      exact ⟨cacheLong_getArcCoordsOwn hgc ih.1 A B,
        by rw [getArcCoordsOwn_currentNodes]; exact ih.2⟩

theorem affected_disruptShip_iff {U : Ship} (hU : U.affected = false) :
    (disruptShip U).affected = true ↔ isDisruptedPair ((disruptShip U).A, (disruptShip U).B) := by
  rw [disruptShip_eq]
  by_cases hp : isDisruptedPair (ends U)
  · rw [if_pos hp]
    exact ⟨fun _ => hp, fun _ => rfl⟩
  · rw [if_neg hp]
    constructor
    · intro h
      rw [hU] at h
      cases h
    · intro h
      exact absurd h hp

theorem getArcCoords_hit (greatCircle : Node → Node → List Coord) {A B : String} {w : World}
    {c : List Coord} (h : mapGet w.ROUTE_MAP (routeKey A B) = some c) :
    getArcCoords greatCircle A B w = .ok c w := by
  unfold getArcCoords
  rw [h]

theorem runFrames_fields (rand : Nat → ℚ) :
    ∀ (fs : List (ℚ × ℚ × (Coord → Coord → ℚ))) (w : World),
      (runFrames rand fs w).ROUTE_MAP = w.ROUTE_MAP ∧
      (runFrames rand fs w).currentNodes = w.currentNodes ∧
      (runFrames rand fs w).DISRUPTED = w.DISRUPTED ∧
      (runFrames rand fs w).SHIPS.map tags = w.SHIPS.map tags
  | [], _ => ⟨rfl, rfl, rfl, rfl⟩
  | f :: rest, w => by
      obtain ⟨h1, h2, h3, h4⟩ := runFrames_fields rand rest (tick rand f.1 f.2.1 f.2.2 w)
      unfold runFrames
      exact ⟨h1, h2, h3, h4.trans (tickLoop_tags rand _ _ _ _ _)⟩

theorem ends_of_tags {S T : List Ship} (h : S.map tags = T.map tags) :
    S.map ends = T.map ends := by
  have e : ends = (fun x : Bool × Bool × String × String => (x.2.2.1, x.2.2.2)) ∘ tags := rfl
  rw [e, ← List.map_map, ← List.map_map, h]

/-! ## C2 -/

theorem boot_cache_keys (greatCircle : Node → Node → List Coord) (rand : Nat → ℚ) :
    objKeys (boot greatCircle rand).ROUTE_MAP =
      (directedPairs (objKeys NODES)).map (fun p => routeKey p.1 p.2) := by
  rw [boot_ROUTE_MAP, rebuildRoutes_map greatCircle NODES initWorld nodes_nodup nodes_noHyphen]
  exact objKeys_pairEntries greatCircle NODES _ (fun p hp => mem_allPairs hp)

theorem boot_cache_miss (greatCircle : Node → Node → List Coord) (rand : Nat → ℚ)
    {key : String}
    (h : key ∉ (directedPairs (objKeys NODES)).map (fun p => routeKey p.1 p.2)) :
    mapGet (boot greatCircle rand).ROUTE_MAP key = none := by
  unfold mapGet
  rw [objGet_eq_none_iff, boot_cache_keys]
  exact h

/-- C2, as amended: in every state reachable from boot (through the scenario actions,
animation frames, and any calls of `rebuildRoutes`, `rebuildRoutesFromPairs` and
`getArcCoords`), for every two identifiers `A`, `B` neither of which names a member of
`Object.prototype`, whether cached, computed on the miss or unresolvable,
`getArcCoords(A, B)` returns, `getArcCoords(B, A)` right after it returns, and the
second sequence is the reverse of the first. The curve of the geometry utility from a
port to itself is taken to read the same in both directions. -/
theorem getArcCoords_then_reverse (greatCircle : Node → Node → List Coord) (rand : Nat → ℚ)
    (hself : ∀ a, (greatCircle a a).reverse = greatCircle a a) (w : World)
    (hw : Reachable greatCircle rand w) (A B : String)
    (hA : A ∉ prototypeNames) (hB : B ∉ prototypeNames) :
    ∃ c w1 w2, getArcCoords greatCircle A B w = .ok c w1 ∧
      getArcCoords greatCircle B A w1 = .ok c.reverse w2 := by
  refine ⟨(getArcCoordsOwn greatCircle A B w).1, (getArcCoordsOwn greatCircle A B w).2,
    (getArcCoordsOwn greatCircle B A (getArcCoordsOwn greatCircle A B w).2).2,
    getArcCoords_plain greatCircle (objRead_of_not_prototype _ hA)
      (objRead_of_not_prototype _ hB), ?_⟩
  rw [getArcCoords_plain greatCircle (objRead_of_not_prototype _ hB)
    (objRead_of_not_prototype _ hA),
    getArcCoordsOwn_reverse_of_inv greatCircle (reachable_routeInv hself hw).2 A B]

/-- C2 for `SG`, `TH` in the state reached from boot by the call `getArcCoords(SG, SG)`. -/
theorem getArcCoords_then_reverse_witness :
    (∀ a, (straightLine a a).reverse = straightLine a a) ∧
    Reachable straightLine (fun _ => 0)
      (getArcCoords straightLine "SG" "SG" (boot straightLine (fun _ => 0))).world ∧
    "SG" ∉ prototypeNames ∧ "TH" ∉ prototypeNames ∧
    ∃ c w1 w2,
      getArcCoords straightLine "SG" "TH"
        (getArcCoords straightLine "SG" "SG" (boot straightLine (fun _ => 0))).world =
          .ok c w1 ∧
      getArcCoords straightLine "TH" "SG" w1 = .ok c.reverse w2 :=
  ⟨fun _ => rfl, Reachable.getArc "SG" "SG" Reachable.boot, by decide, by decide,
    getArcCoords_then_reverse straightLine (fun _ => 0) (fun _ => rfl) _
      (Reachable.getArc "SG" "SG" Reachable.boot) "SG" "TH" (by decide) (by decide)⟩

/-- C2 fails as worded on the booted page for the identifiers `constructor` and `SG`:
the pair is not cached, `currentNodes["constructor"]` is the inherited constructor
function, which passes the guard, and the geometry utility throws on its missing
coordinates, so the call returns no sequence. -/
theorem getArcCoords_inherited_counterexample :
    Reachable straightLine (fun _ => 0) (boot straightLine (fun _ => 0)) ∧
    mapGet (boot straightLine (fun _ => 0)).ROUTE_MAP (routeKey "constructor" "SG") = none ∧
    objRead (boot straightLine (fun _ => 0)).currentNodes "constructor" = .inherited ∧
    getArcCoords straightLine "constructor" "SG" (boot straightLine (fun _ => 0)) =
      .threw (boot straightLine (fun _ => 0)) ∧
    ∀ c w1, getArcCoords straightLine "constructor" "SG" (boot straightLine (fun _ => 0)) ≠
      .ok c w1 := by
  have hm : mapGet (boot straightLine (fun _ => 0)).ROUTE_MAP (routeKey "constructor" "SG") =
      none := boot_cache_miss straightLine (fun _ => 0) (by decide)
  have hr : objRead (boot straightLine (fun _ => 0)).currentNodes "constructor" =
      .inherited := by
    rw [boot_currentNodes]; decide
  have hs : objRead (boot straightLine (fun _ => 0)).currentNodes "SG" =
      .node ⟨"Port of Singapore", 103.8198, 1.3521⟩ := by
    rw [boot_currentNodes]; rfl
  have ht : getArcCoords straightLine "constructor" "SG" (boot straightLine (fun _ => 0)) =
      .threw (boot straightLine (fun _ => 0)) := by
    unfold getArcCoords
    rw [hm]
    simp only [hr, hs]
  refine ⟨Reachable.boot, hm, hr, ht, ?_⟩
  intro c w1 h
  rw [ht] at h
  cases h

/-! ## C3 -/

theorem curvesOKOwn_of_curvesOK {greatCircle : Node → Node → List Coord}
    {keys : List String} {w : World} (h : CurvesOK greatCircle keys w) :
    CurvesOKOwn greatCircle keys w := by
  intro A B hA hB hne
  obtain ⟨c, w1, h1, h2⟩ := h A B hA hB hne
  rw [getArcCoords_ok h1]
  exact h2

theorem curvesOK_of_own {greatCircle : Node → Node → List Coord}
    {keys : List String} {w : World} (h : CurvesOKOwn greatCircle keys w) :
    CurvesOK greatCircle keys w :=
  fun A B hA hB hne =>
    ⟨_, _, getArcCoords_of_long greatCircle (h A B hA hB hne), h A B hA hB hne⟩

/-- With curves of two points for all the pairs, the loop `spawnPairs` runs to its
end, as the loop on own properties does. -/
theorem spawnPairs_of_curves (greatCircle : Node → Node → List Coord) (rand : Nat → ℚ)
    (keys : List String) :
    ∀ (ps : List (String × String)) (idx : Nat) (w : World),
      (∀ p ∈ ps, p.1 ∈ keys ∧ p.2 ∈ keys ∧ p.1 ≠ p.2) → CurvesOKOwn greatCircle keys w →
      spawnPairs greatCircle rand ps idx w =
        .ok () (ps.foldl (spawnBothOwn greatCircle rand) (w, idx)).1 := by
  intro ps
  induction ps with
  | nil => intro idx w _ _; rfl
  | cons p ps ih =>
      intro idx w hps hc
      obtain ⟨h1, h2, hne⟩ := hps p (List.mem_cons_self _ _)
      have l1 := hc p.1 p.2 h1 h2 hne
      have hc1 := curvesOK_spawnShipOwn rand hc ("V" ++ toString idx) p.1 p.2 l1
      have l2 := hc1 p.2 p.1 h2 h1 (Ne.symm hne)
      have hc2 := curvesOK_spawnShipOwn rand hc1 ("V" ++ toString (idx + 1)) p.2 p.1 l2
      unfold spawnPairs
      rw [spawnShip_of_arc greatCircle rand _ (getArcCoords_of_long greatCircle l1)]
      simp only
      rw [spawnShip_of_arc greatCircle rand _ (getArcCoords_of_long greatCircle l2)]
      simp only
      rw [ih (idx + 2) _ (fun q hq => hps q (List.mem_cons_of_mem _ hq)) hc2]
      rfl

/-- C3, as amended: for every node set of `n` distinct nodes such that, in the starting
state, `getArcCoords` returns a curve of at least two points for every two distinct
nodes of the set (so each pair is in the route cache or both nodes are in the active
set `currentNodes`), and whatever the registry held before, `buildShipsForNodes(nodeSet)`
returns and leaves exactly `n * (n - 1)` movers: exactly one for every ordered pair of
distinct nodes, none for anything else, and every mover unpaused. -/
theorem buildShipsForNodes_all_pairs (greatCircle : Node → Node → List Coord)
    (rand : Nat → ℚ) (nodeSet : NodeSet) (w : World) (hnd : (objKeys nodeSet).Nodup)
    (hcurves : CurvesOK greatCircle (objKeys nodeSet) w) :
    ∃ w1, buildShipsForNodes greatCircle rand nodeSet w = .ok () w1 ∧
      w1.SHIPS.length = (objKeys nodeSet).length * ((objKeys nodeSet).length - 1) ∧
      (∀ A B, A ∈ objKeys nodeSet → B ∈ objKeys nodeSet → A ≠ B →
        w1.SHIPS.countP (fun V => decide (V.A = A ∧ V.B = B)) = 1) ∧
      (∀ V ∈ w1.SHIPS, V.A ∈ objKeys nodeSet ∧ V.B ∈ objKeys nodeSet ∧ V.A ≠ V.B) ∧
      (∀ V ∈ w1.SHIPS, V.paused = false) := by
  have hown := curvesOKOwn_of_curvesOK hcurves
  refine ⟨buildShipsForNodesOwn greatCircle rand nodeSet w, ?_,
    buildShipsForNodesOwn_all_pairs greatCircle rand nodeSet w hnd hown⟩
  exact spawnPairs_of_curves greatCircle rand (objKeys nodeSet) _ 1 _
    (fun p hp => ⟨(mem_allPairs hp).1, (mem_allPairs hp).2, ne_of_mem_allPairs hnd hp⟩)
    (curvesOK_congr hown rfl rfl)

/-- C3 on the booted page for its five default ports: twenty movers. -/
theorem buildShipsForNodes_all_pairs_witness :
    (objKeys NODES).Nodup ∧
    CurvesOK straightLine (objKeys NODES) (boot straightLine (fun _ => 0)) ∧
    ∃ w1, buildShipsForNodes straightLine (fun _ => 0) NODES
        (boot straightLine (fun _ => 0)) = .ok () w1 ∧
      w1.SHIPS.length = 5 * (5 - 1) :=
  ⟨by decide,
    curvesOK_of_own (curvesOK_of_resolvable straightLine_length
      (fun k hk => by rw [boot_currentNodes]; exact hk)
      (reachable_legs straightLine_length Reachable.boot).1),
    (buildShipsForNodes_all_pairs straightLine (fun _ => 0) NODES
      (boot straightLine (fun _ => 0)) (by decide)
      (curvesOK_of_own (curvesOK_of_resolvable straightLine_length
        (fun k hk => by rw [boot_currentNodes]; exact hk)
        (reachable_legs straightLine_length Reachable.boot).1))).imp
      (fun _ h => ⟨h.1, h.2.1⟩)⟩

/-- C3 fails as worded for the node set of the two add-on ports `PH` and `HK`, whose
curve has two points, on the booted page: neither port is in the active set nor is
the pair cached, `getArcCoords` returns `[]` in both directions, and
`buildShipsForNodes` leaves no mover where the claim counts two. -/
theorem buildShipsForNodes_inactive_counterexample :
    (objKeys NEW_PORTS).Nodup ∧ (objKeys NEW_PORTS).length = 2 ∧
    (∀ a b, 2 ≤ (straightLine a b).length) ∧
    buildShipsForNodes straightLine (fun _ => 0) NEW_PORTS (boot straightLine (fun _ => 0)) =
      .ok () { boot straightLine (fun _ => 0) with SHIPS := [] } ∧
    (buildShipsForNodes straightLine (fun _ => 0) NEW_PORTS
      (boot straightLine (fun _ => 0))).world.SHIPS.length ≠ 2 * (2 - 1) := by
  have hm1 : mapGet (boot straightLine (fun _ => 0)).ROUTE_MAP (routeKey "PH" "HK") = none :=
    boot_cache_miss straightLine (fun _ => 0) (by decide)
  have hm2 : mapGet (boot straightLine (fun _ => 0)).ROUTE_MAP (routeKey "HK" "PH") = none :=
    boot_cache_miss straightLine (fun _ => 0) (by decide)
  have hp : objRead (boot straightLine (fun _ => 0)).currentNodes "PH" = .undefined := by
    rw [boot_currentNodes]; decide
  have hk : objRead (boot straightLine (fun _ => 0)).currentNodes "HK" = .undefined := by
    rw [boot_currentNodes]; decide
  have h1 : ∀ id, spawnShip straightLine (fun _ => 0) id "PH" "HK"
      { boot straightLine (fun _ => 0) with SHIPS := [] } =
      .ok () { boot straightLine (fun _ => 0) with SHIPS := [] } := by
    intro id
    unfold spawnShip getArcCoords
    simp only [hm1, hp]
    rfl
  have h2 : ∀ id, spawnShip straightLine (fun _ => 0) id "HK" "PH"
      { boot straightLine (fun _ => 0) with SHIPS := [] } =
      .ok () { boot straightLine (fun _ => 0) with SHIPS := [] } := by
    intro id
    unfold spawnShip getArcCoords
    simp only [hm2, hk]
    rfl
  have hb : buildShipsForNodes straightLine (fun _ => 0) NEW_PORTS
      (boot straightLine (fun _ => 0)) =
      .ok () { boot straightLine (fun _ => 0) with SHIPS := [] } := by
    unfold buildShipsForNodes
    have hp : allPairs (objKeys NEW_PORTS) = [("PH", "HK")] := by decide
    rw [hp]
    unfold spawnPairs
    simp only [h1, h2]
    rfl
  refine ⟨by decide, by decide, straightLine_length, hb, ?_⟩
  rw [hb]
  decide

/-! ## A mover on its second segment -/

theorem spawned_values (greatCircle : Node → Node → List Coord) (rand : Nat → ℚ)
    (pairs : List (String × String)) (w : World) :
    ∀ V ∈ (buildShipsForPairsOwn greatCircle rand pairs w).SHIPS,
      ∃ i, V.t = rand i * 0.6 ∧ V.speed = 0.62 + rand (i + 1) * 0.35 := by
  refine foldl_spawnBothOwn_induction greatCircle rand
    (fun w' => ∀ V ∈ w'.SHIPS, ∃ i, V.t = rand i * 0.6 ∧ V.speed = 0.62 + rand (i + 1) * 0.35)
    ?_ pairs ({ w with SHIPS := [] }, 1) (by intro V hV; cases hV)
  intro id A B w' h V hV
  by_cases hl : 2 ≤ (getArcCoordsOwn greatCircle A B w').1.length
  · rw [spawnShipOwn_SHIPS greatCircle rand id A B w' hl, List.mem_append] at hV
    rcases hV with hV | hV
    · exact h V hV
    · rw [List.mem_singleton] at hV
      subst hV
      exact ⟨_, rfl, rfl⟩
  · rw [spawnShipOwn_SHIPS_short greatCircle rand id A B w' (by omega)] at hV
    exact h V hV

theorem boot_paths (greatCircle : Node → Node → List Coord) (rand : Nat → ℚ) :
    ∀ V ∈ (boot greatCircle rand).SHIPS,
      mapGet (rebuildRoutes greatCircle NODES initWorld).ROUTE_MAP (routeKey V.A V.B) =
        some V.path := by
  rw [boot_SHIPS, buildShipsForNodesOwn_eq]
  exact (pathsCached_buildShipsForPairsOwn greatCircle rand _ _
    (rebuildRoutes_cached greatCircle NODES initWorld nodes_nodup nodes_noHyphen)).2

/-- A frame moves every running mover in position as `advancedShip` tells. -/
theorem tickLoop_mem (rand : Nat → ℚ) (dt zoom : ℚ) (pxLen : Coord → Coord → ℚ) :
    ∀ (S : List Ship) (calls : Nat), (∀ V ∈ S, ShipOK V) → (∀ V ∈ S, V.paused = false) →
      ∀ U ∈ S, ∃ c, (advancedShip rand dt zoom pxLen U c).1 ∈
        (tickLoop rand dt zoom pxLen S calls).1
  | [], _, _, _ => by intro U hU; cases hU
  | V :: rest, calls, hok, hrun => by
      intro U hU
      have hV := advanceShip_eq rand dt zoom pxLen (hok V (List.mem_cons_self _ _))
        (hrun V (List.mem_cons_self _ _)) calls
      unfold tickLoop
      rw [hV]
      simp only [List.mem_cons]
      rcases List.mem_cons.1 hU with rfl | hU
      · exact ⟨calls, Or.inl rfl⟩
      · obtain ⟨c, hc⟩ := tickLoop_mem rand dt zoom pxLen rest
          (advancedShip rand dt zoom pxLen V calls).2
          (fun W hW => hok W (List.mem_cons_of_mem _ hW))
          (fun W hW => hrun W (List.mem_cons_of_mem _ hW)) U hU
        exact ⟨c, Or.inr hc⟩

theorem advancedShip_second_segment (rand : Nat → ℚ) {U : Ship} (calls : Nat)
    (hseg : U.seg = 0) (ht : U.t = 0) (hs : U.speed = 0.62) (hp : U.path.length = 3) :
    (advancedShip rand (min 0.05 1) 3 (fun _ _ => 1) U calls).1.seg = 1 ∧
      (advancedShip rand (min 0.05 1) 3 (fun _ _ => 1) U calls).1.A = U.A ∧
      (advancedShip rand (min 0.05 1) 3 (fun _ _ => 1) U calls).1.B = U.B := by
  obtain ⟨a, b, c, hpath⟩ : ∃ a b c, U.path = [a, b, c] := by
    match h : U.path, hp with
    | [a, b, c], _ => exact ⟨a, b, c, rfl⟩
  have hstep : stepSize (min 0.05 1) 3 (fun _ _ => 1) U = 1.6709 := by
    unfold stepSize
    simp only [hpath, hseg, hs]
    norm_num
  have hfloor : ⌊U.t + stepSize (min 0.05 1) 3 (fun _ _ => 1) U⌋ = 1 := by
    rw [ht, hstep, Int.floor_eq_iff]
    norm_num
  unfold advancedShip
  simp only [hfloor, hseg, hp]
  norm_num

theorem reroutedShip_ends (forward : List Coord) (V : Ship) :
    (reroutedShip forward V).A = V.A ∧ (reroutedShip forward V).B = V.B := by
  unfold reroutedShip
  split
  · exact ⟨rfl, rfl⟩
  · split <;> exact ⟨rfl, rfl⟩

theorem bentLine_length (a b : Node) : 2 ≤ (bentLine a b).length := by
  simp [bentLine]

theorem sailedBoot_second_segment :
    ∃ V ∈ sailedBoot.SHIPS, V.A = "SG" ∧ V.B = "TH" ∧ V.seg = 1 := by
  have hrand : ∀ i : Nat, (0 : ℚ) ≤ (fun _ => (0 : ℚ)) i ∧ (fun _ => (0 : ℚ)) i < 1 :=
    fun _ => ⟨le_refl 0, zero_lt_one⟩
  have hmem : ("SG", "TH") ∈ (boot bentLine (fun _ => 0)).SHIPS.map ends := by
    rw [boot_ends (fun _ => 0) bentLine_length]
    decide
  obtain ⟨U, hU, hends⟩ := List.mem_map.1 hmem
  have hA : U.A = "SG" := (Prod.mk.inj hends).1
  have hB : U.B = "TH" := (Prod.mk.inj hends).2
  have hfresh := boot_fresh bentLine (fun _ => 0)
  obtain ⟨i, ht, hs⟩ : ∃ i : Nat, U.t = (fun _ => (0 : ℚ)) i * 0.6 ∧
      U.speed = 0.62 + (fun _ => (0 : ℚ)) (i + 1) * 0.35 := by
    have hU' := hU
    rw [boot_SHIPS, buildShipsForNodesOwn_eq] at hU'
    exact spawned_values bentLine (fun _ => 0) _ _ U hU'
  have hpath : U.path.length = 3 := by
    have h1 := boot_paths bentLine (fun _ => 0) U hU
    rw [hA, hB] at h1
    have h2 := (rebuildRoutes_get bentLine NODES initWorld nodes_nodup nodes_noHyphen
      (show ("SG", "TH") ∈ allPairs (objKeys NODES) by decide)
      (show objGet NODES "SG" = some _ from rfl) (show objGet NODES "TH" = some _ from rfl)).1
    rw [h2] at h1
    rw [← Option.some.inj h1]
    rfl
  obtain ⟨c, hc⟩ := tickLoop_mem (fun _ => 0) (min 0.05 1) 3 (fun _ _ => 1)
    (boot bentLine (fun _ => 0)).SHIPS (boot bentLine (fun _ => 0)).randCalls
    (boot_moverInv bentLine_length hrand).1 (fun V hV => (hfresh V hV).2.1) U hU
  obtain ⟨e1, e2, e3⟩ := advancedShip_second_segment (fun _ => 0) c (hfresh U hU).1
    (by simpa using ht) (by simpa using hs) hpath
  exact ⟨_, hc, e2.trans hA, e3.trans hB, e1⟩

/-! ## C5 -/

/-- C5: let `startDisrupt()` be called in a reachable state with the flag false, where
the movers may be anywhere on their paths, and `applyCorrect()` after it, with curves
of at least two points. The flag stays true. The registry is the one `startDisrupt`
left with each mover from `SG` to `TH` given the path `getArcCoords(SG, VN)` followed
by `getArcCoords(VN, TH)` less its first coordinate, segment `0`, progress `0` and
unpaused, each mover from `TH` to `SG` given the reverse of that path, segment `0`,
progress `0` and unpaused, and every other mover as it was. The movers `startDisrupt`
had marked affected are exactly those between `SG` and `TH`, and no mover is paused
afterwards. On the default set, that is on the booted page after any number of frames,
the movers are one for each ordered pair of the five default ports, and the two legs
are the cached curve `SG-VN` and the reverse of the curve `TH-VN`, read without
changing the state. -/
theorem applyCorrect_reroutes (greatCircle : Node → Node → List Coord) (rand : Nat → ℚ)
    (hgc : ∀ a b, 2 ≤ (greatCircle a b).length) (w : World)
    (hw : Reachable greatCircle rand w) (hflag : w.DISRUPTED = false) :
    (applyCorrect greatCircle (startDisrupt w)).DISRUPTED = true ∧
    (applyCorrect greatCircle (startDisrupt w)).SHIPS =
      (startDisrupt w).SHIPS.map
        (reroutedShip (rerouteCurve greatCircle (startDisrupt w))) ∧
    (∀ V ∈ (startDisrupt w).SHIPS, V.affected = true ↔ isDisruptedPair (V.A, V.B)) ∧
    (∀ V ∈ (applyCorrect greatCircle (startDisrupt w)).SHIPS, V.paused = false) ∧
    (∀ fs : List (ℚ × ℚ × (Coord → Coord → ℚ)),
      w = runFrames rand fs (boot greatCircle rand) →
      (startDisrupt w).SHIPS.map ends = directedPairs (objKeys NODES) ∧
      ∀ sg vn th, objGet NODES "SG" = some sg → objGet NODES "VN" = some vn →
        objGet NODES "TH" = some th →
        getArcCoords greatCircle "SG" "VN" (startDisrupt w) =
          .ok (greatCircle sg vn) (startDisrupt w) ∧
        getArcCoords greatCircle "VN" "TH" (startDisrupt w) =
          .ok (greatCircle th vn).reverse (startDisrupt w)) := by
  obtain ⟨hD, hS, hN, hM⟩ := startDisrupt_fields hflag
  obtain ⟨hc, hn⟩ := reachable_legs hgc hw
  have hidle : ∀ U ∈ w.SHIPS, U.paused = false ∧ U.affected = false := by
    intro U hU
    have hf := reachable_flagInv hw U hU
    constructor
    · cases hp : U.paused with
      | false => rfl
      | true =>
          have := (hf (Or.inl hp)).1
          rw [hflag] at this
          cases this
    · cases hp : U.affected with
      | false => rfl
      | true =>
          have := (hf (Or.inr hp)).1
          rw [hflag] at this
          cases this
  have haff : ∀ V ∈ (startDisrupt w).SHIPS,
      V.affected = true ↔ isDisruptedPair (V.A, V.B) := by
    intro V hV
    rw [hS, List.mem_map] at hV
    obtain ⟨U, hU, rfl⟩ := hV
    exact affected_disruptShip_iff (hidle U hU).2
  -- the alternate path
  have hc1 : CacheLong
      (clearAlert (setFix (REROUTE_PATH.map (fun p => routeKey p.1 p.2))
        (startDisrupt w))).ROUTE_MAP := by
    show CacheLong (startDisrupt w).ROUTE_MAP
    rw [hM]; exact hc
  have hn1 : ∀ k ∈ objKeys NODES, k ∈ objKeys
      (clearAlert (setFix (REROUTE_PATH.map (fun p => routeKey p.1 p.2))
        (startDisrupt w))).currentNodes := by
    show ∀ k ∈ objKeys NODES, k ∈ objKeys (startDisrupt w).currentNodes
    rw [hN]; exact hn
  have hm1 : (clearAlert (setFix (REROUTE_PATH.map (fun p => routeKey p.1 p.2))
      (startDisrupt w))).ROUTE_MAP = (startDisrupt w).ROUTE_MAP := rfl
  have hk1 : (clearAlert (setFix (REROUTE_PATH.map (fun p => routeKey p.1 p.2))
      (startDisrupt w))).currentNodes = (startDisrupt w).currentNodes := rfl
  have hs1 : (clearAlert (setFix (REROUTE_PATH.map (fun p => routeKey p.1 p.2))
      (startDisrupt w))).SHIPS = (startDisrupt w).SHIPS := rfl
  obtain ⟨aS, _⟩ := applyCorrect_active greatCircle (startDisrupt w) hD
  generalize clearAlert (setFix (REROUTE_PATH.map (fun p => routeKey p.1 p.2))
    (startDisrupt w)) = w1 at hc1 hn1 hm1 hk1 hs1 aS
  have hSG : "SG" ∈ objKeys w1.currentNodes := hn1 "SG" (by simp [NODES, objKeys])
  have hVN : "VN" ∈ objKeys w1.currentNodes := hn1 "VN" (by simp [NODES, objKeys])
  have hTH : "TH" ∈ objKeys w1.currentNodes := hn1 "TH" (by simp [NODES, objKeys])
  have l1 := getArcCoordsOwn_long hgc hc1 hSG hVN
  have l2 : 2 ≤ (getArcCoordsOwn greatCircle "VN" "TH"
      (getArcCoordsOwn greatCircle "SG" "VN" w1).2).1.length :=
    getArcCoordsOwn_long hgc (cacheLong_getArcCoordsOwn hgc hc1 "SG" "VN")
      (by rw [getArcCoordsOwn_currentNodes]; exact hVN)
      (by rw [getArcCoordsOwn_currentNodes]; exact hTH)
  have hcurve : (getArcCoordsOwn greatCircle "SG" "VN" w1).1 ++
      (getArcCoordsOwn greatCircle "VN" "TH"
        (getArcCoordsOwn greatCircle "SG" "VN" w1).2).1.tail =
      rerouteCurve greatCircle (startDisrupt w) := by
    rw [rerouteCurve_eq, getArcCoordsOwn_fst_congr greatCircle "SG" "VN" hm1 hk1,
      getArcCoordsOwn_fst_congr greatCircle "VN" "TH"
        (getArcCoordsOwn_map_congr greatCircle "SG" "VN" hm1 hk1)
        (by rw [getArcCoordsOwn_currentNodes, getArcCoordsOwn_currentNodes, hk1])]
  have hships : (applyCorrect greatCircle (startDisrupt w)).SHIPS =
      (startDisrupt w).SHIPS.map
        (reroutedShip (rerouteCurve greatCircle (startDisrupt w))) := by
    rw [aS, buildForwardOwn_legs greatCircle w1 l1 l2]
    simp only [getArcCoordsOwn_SHIPS, hs1, hcurve]
    exact List.map_congr_left (fun V hV => correctShip_eq _ V (haff V hV))
  refine ⟨(applyCorrect_DISRUPTED greatCircle _).trans hD, hships, haff, ?_, ?_⟩
  · intro V hV
    rw [hships, List.mem_map] at hV
    obtain ⟨W, hW, rfl⟩ := hV
    rw [hS, List.mem_map] at hW
    obtain ⟨U, hU, rfl⟩ := hW
    unfold reroutedShip
    split
    · rfl
    · split
      · rfl
      · rename_i n1 n2
        rw [disruptShip_eq] at n1 n2 ⊢
        by_cases hp : isDisruptedPair (ends U)
        · rw [if_pos hp] at n1 n2
          rcases hp with hp | hp
          · exact absurd hp n1
          · exact absurd hp n2
        · rw [if_neg hp]; exact (hidle U hU).1
  · intro fs hfs
    obtain ⟨f1, f2, _, f4⟩ := runFrames_fields rand fs (boot greatCircle rand)
    rw [← hfs] at f1 f2 f4
    refine ⟨?_, ?_⟩
    · rw [hS, List.map_map]
      rw [← boot_ends rand hgc, ← ends_of_tags f4]
      exact List.map_congr_left (fun U _ => ends_disruptShip U)
    · intro sg vn th hsg hvn hth
      have g1 := (rebuildRoutes_get greatCircle NODES initWorld nodes_nodup nodes_noHyphen
        (show ("SG", "VN") ∈ allPairs (objKeys NODES) by decide) hsg hvn).1
      have g2 := (rebuildRoutes_get greatCircle NODES initWorld nodes_nodup nodes_noHyphen
        (show ("TH", "VN") ∈ allPairs (objKeys NODES) by decide) hth hvn).2
      rw [← boot_ROUTE_MAP greatCircle rand, ← f1, ← hM] at g1 g2
      exact ⟨getArcCoords_hit greatCircle g1, getArcCoords_hit greatCircle g2⟩

/-- C5 on the booted page with three-point curves, one frame later: the mover from
`SG` to `TH` is on its second segment when the disruption comes, and at segment `0`
with progress `0`, unpaused, after the correction. -/
theorem applyCorrect_reroutes_witness :
    (∀ a b, 2 ≤ (bentLine a b).length) ∧
    Reachable bentLine (fun _ => 0) sailedBoot ∧
    sailedBoot.DISRUPTED = false ∧
    (∃ V ∈ sailedBoot.SHIPS, V.A = "SG" ∧ V.B = "TH" ∧ V.seg = 1) ∧
    (applyCorrect bentLine (startDisrupt sailedBoot)).SHIPS =
      (startDisrupt sailedBoot).SHIPS.map
        (reroutedShip (rerouteCurve bentLine (startDisrupt sailedBoot))) ∧
    ∀ V ∈ (applyCorrect bentLine (startDisrupt sailedBoot)).SHIPS,
      V.A = "SG" → V.B = "TH" → V.seg = 0 ∧ V.t = 0 ∧ V.paused = false := by
  have h := applyCorrect_reroutes bentLine (fun _ => 0) bentLine_length sailedBoot
    (Reachable.frame 1 3 (fun _ _ => 1) Reachable.boot) (boot_DISRUPTED bentLine (fun _ => 0))
  refine ⟨bentLine_length, Reachable.frame 1 3 (fun _ _ => 1) Reachable.boot,
    boot_DISRUPTED bentLine (fun _ => 0), sailedBoot_second_segment, h.2.1, ?_⟩
  intro V hV hA hB
  rw [h.2.1, List.mem_map] at hV
  obtain ⟨W, _, rfl⟩ := hV
  rw [(reroutedShip_ends _ W).1] at hA
  rw [(reroutedShip_ends _ W).2] at hB
  unfold reroutedShip
  rw [if_pos (by rw [hA, hB])]
  exact ⟨rfl, rfl, rfl⟩

end ShipFleet
